import Mathlib

/-!
Verification development for the UDP market feed reader.

Shallow embedding of the core components:
- `quote.hpp`: the `OrderSide` / `OrderBookEventType` enums and the event record;
- `orderbook.hpp`: `PriceLevel` and `OrderBook` with add/modify/cancel and
  best-bid / best-ask queries;
- `queue.hpp`: the SPSC ring buffer (modelled sequentially: one interleaving of
  the single producer and single consumer);
- `main.cpp` (`print_consumer`): the consumer dispatch loop and its
  publications.

Modelling conventions:
- C++ `uint32_t` sizes are Lean `Nat` reduced modulo `2^32` at the points where
  the C++ type system forces a conversion; `total_size` arithmetic is unsigned
  and wraps, which the `u32` helpers make explicit.
- `double` prices are modelled as `Rat`: prices are used only as ordered map
  keys and compared with `<` / `==`, where finite doubles behave exactly like
  an ordered field.
- `std::map<double, PriceLevel>` ladders are modelled as association lists kept
  sorted in comparator order (descending for bids via `std::greater`,
  ascending for asks), which is the representation invariant of `std::map`.
- `std::unordered_map<std::string, Order>` is an association list with
  pairwise-distinct keys; iteration order is never observed by the code.
- `PriceLevel::order_lookup` (an id → iterator cache kept consistent with
  `order_queue` by the C++ code) is not materialised: lookups go directly to
  the first queue entry with the given id, which coincides with the cache
  whenever ids are unique inside a level, an invariant the book maintains.
-/

namespace MarketFeed

/-! ### Unsigned 32-bit arithmetic helpers -/

def U32MOD : Nat := 2 ^ 32

/-- Conversion of a natural number to `uint32_t` (value semantics). -/
def u32 (n : Nat) : Nat := n % U32MOD

/-- `uint32_t` addition `a + b` (wraps modulo `2^32`). -/
def u32add (a b : Nat) : Nat := (a + b) % U32MOD

/-- `uint32_t` subtraction `a - b` (wraps modulo `2^32`); `b` is first reduced
to its `uint32_t` value, which is the identity on every value the embedding
stores. -/
def u32sub (a b : Nat) : Nat := (a + U32MOD - b % U32MOD) % U32MOD

/-! ### Enums and records from `quote.hpp` -/

/-- Enum `OrderSide` from `quote.hpp`. -/
inductive OrderSide
  | BID
  | ASK
  | UNKNOWN
deriving DecidableEq, Repr

/-- Enum `OrderBookEventType` from `quote.hpp`. -/
inductive OrderBookEventType
  | ADD_ORDER
  | MODIFY_ORDER
  | CANCEL_ORDER
  | DELETE_ORDER
  | TRADE
  | QUOTE_UPDATE
  | MARKET_STATUS
  | UNKNOWN
deriving DecidableEq, Repr

/-! ### `Order`, `OrderEntry`, `PriceLevel` from `orderbook.hpp` -/

/-- Struct `Order` from `orderbook.hpp`. -/
structure Order where
  order_id : String
  side : OrderSide
  price : Rat
  size : Nat
  timestamp : Nat
  symbol : String
deriving DecidableEq, Repr

/-- Struct `OrderEntry` from `orderbook.hpp`: one resting order inside a price
level's FIFO queue. -/
structure OrderEntry where
  order_id : String
  size : Nat
  timestamp : Nat
deriving DecidableEq, Repr

/-- Struct `PriceLevel` from `orderbook.hpp` (without the `order_lookup`
iterator cache, see the module comment). -/
structure PriceLevel where
  price : Rat
  total_size : Nat
  order_queue : List OrderEntry
deriving DecidableEq, Repr

/-- The `PriceLevel(double p)` constructor. -/
def PriceLevel.atPrice (p : Rat) : PriceLevel :=
  { price := p, total_size := 0, order_queue := [] }

/-- `PriceLevel::add_order`: append at the tail of the FIFO queue and bump the
aggregate size. -/
def PriceLevel.add_order (lvl : PriceLevel) (order_id : String) (size : Nat)
    (timestamp : Nat) : PriceLevel :=
  { lvl with
    order_queue := lvl.order_queue ++ [⟨order_id, u32 size, timestamp⟩]
    total_size := u32add lvl.total_size size }

/-- `PriceLevel::modify_order`: if an entry with this id is present, replace
its size in place and adjust the aggregate by `new_size - old_size` in
`uint32_t` arithmetic; otherwise do nothing. -/
def PriceLevel.modify_order (lvl : PriceLevel) (order_id : String)
    (new_size : Nat) : PriceLevel :=
  match lvl.order_queue.find? (fun e => e.order_id == order_id) with
  | none => lvl
  | some e =>
    { lvl with
      total_size := u32add (u32sub lvl.total_size e.size) new_size
      order_queue := lvl.order_queue.map (fun e2 =>
        if e2.order_id == order_id then { e2 with size := u32 new_size } else e2) }

/-- `PriceLevel::remove_order`: if an entry with this id is present, delete it
from the queue and subtract its size from the aggregate. -/
def PriceLevel.remove_order (lvl : PriceLevel) (order_id : String) : PriceLevel :=
  match lvl.order_queue.find? (fun e => e.order_id == order_id) with
  | none => lvl
  | some e =>
    { lvl with
      total_size := u32sub lvl.total_size e.size
      order_queue := lvl.order_queue.eraseP (fun e2 => e2.order_id == order_id) }

/-- `PriceLevel::empty`. -/
def PriceLevel.isEmptyLevel (lvl : PriceLevel) : Bool :=
  lvl.order_queue.isEmpty

/-- `PriceLevel::get_orders_fifo`, projected to the order ids (iteration order
equals insertion order). -/
def PriceLevel.fifo_ids (lvl : PriceLevel) : List String :=
  lvl.order_queue.map OrderEntry.order_id

/-- Sum of the entry sizes of a level (the quantity `total_size` caches). -/
def levelSum (lvl : PriceLevel) : Nat :=
  (lvl.order_queue.map OrderEntry.size).sum

/-! ### Price ladders: `std::map<double, PriceLevel, Cmp>` -/

/-- A ladder is the sorted association list backing one `std::map` of price
levels. -/
abbrev Ladder := List (Rat × PriceLevel)

/-- Comparator of the bid ladder, `std::greater<double>`: descending prices. -/
def bidLt (a b : Rat) : Bool := decide (b < a)

/-- Comparator of the ask ladder, `std::less<double>`: ascending prices. -/
def askLt (a b : Rat) : Bool := decide (a < b)

/-- `map.find(price)`, as an `Option`. -/
def findLevel (lad : Ladder) (p : Rat) : Option PriceLevel :=
  match lad.find? (fun kv => decide (kv.1 = p)) with
  | some kv => some kv.2
  | none => none

/-- Insertion of a fresh key into a `std::map` represented as a sorted list:
place the new pair before the first strictly-greater key (in comparator
order). Only called when the key is absent. -/
def insertLevel (lt : Rat → Rat → Bool) (p : Rat) (lvl : PriceLevel) :
    Ladder → Ladder
  | [] => [(p, lvl)]
  | kv :: rest =>
    if lt p kv.1 then (p, lvl) :: kv :: rest
    else kv :: insertLevel lt p lvl rest

/-- In-place mutation of the level stored at key `p` (`map[p].f()` through an
iterator); a no-op when the key is absent. -/
def updateLevel (lad : Ladder) (p : Rat) (f : PriceLevel → PriceLevel) : Ladder :=
  lad.map (fun kv => if kv.1 = p then (kv.1, f kv.2) else kv)

/-- `map.erase(price)`. -/
def eraseLevel (lad : Ladder) (p : Rat) : Ladder :=
  lad.eraseP (fun kv => decide (kv.1 = p))

/-! ### `OrderBook` from `orderbook.hpp` -/

/-- Class `OrderBook`: the global id index and the two price ladders. -/
structure OrderBook where
  orders_by_id : List (String × Order)
  bid_levels : Ladder
  ask_levels : Ladder
deriving DecidableEq, Repr

/-- The default-constructed (empty) book. -/
def OrderBook.emptyBook : OrderBook :=
  { orders_by_id := [], bid_levels := [], ask_levels := [] }

/-- `orders_by_id.find(order_id)`, as an `Option`. -/
def findOrder (b : OrderBook) (order_id : String) : Option Order :=
  match b.orders_by_id.find? (fun kv => kv.1 == order_id) with
  | some kv => some kv.2
  | none => none

/-- `OrderBook::has_order`. -/
def OrderBook.has_order (b : OrderBook) (order_id : String) : Bool :=
  (findOrder b order_id).isSome

/-- `OrderBook::add_order`. Returns the C++ `bool` result together with the
book after the call. -/
def OrderBook.add_order (b : OrderBook) (order_id : String) (side : OrderSide)
    (price : Rat) (size : Nat) (symbol : String) (timestamp : Nat) :
    Bool × OrderBook :=
  if (findOrder b order_id).isSome then
    (false, b)
  else
    let order : Order :=
      { order_id := order_id, side := side, price := price, size := u32 size
        timestamp := timestamp, symbol := symbol }
    let b1 := { b with orders_by_id := b.orders_by_id ++ [(order_id, order)] }
    match side with
    | .BID =>
      let lad :=
        if (findLevel b1.bid_levels price).isSome then b1.bid_levels
        else insertLevel bidLt price (PriceLevel.atPrice price) b1.bid_levels
      (true, { b1 with
        bid_levels := updateLevel lad price
          (fun l => l.add_order order_id size timestamp) })
    | .ASK =>
      let lad :=
        if (findLevel b1.ask_levels price).isSome then b1.ask_levels
        else insertLevel askLt price (PriceLevel.atPrice price) b1.ask_levels
      (true, { b1 with
        ask_levels := updateLevel lad price
          (fun l => l.add_order order_id size timestamp) })
    | .UNKNOWN => (true, b1)

/-- `OrderBook::modify_order`. -/
def OrderBook.modify_order (b : OrderBook) (order_id : String)
    (new_size : Nat) : Bool × OrderBook :=
  match findOrder b order_id with
  | none => (false, b)
  | some o =>
    let b1 := { b with
      orders_by_id := b.orders_by_id.map (fun kv =>
        if kv.1 == order_id then (kv.1, { kv.2 with size := u32 new_size }) else kv) }
    match o.side with
    | .BID =>
      (true, { b1 with
        bid_levels := updateLevel b1.bid_levels o.price
          (fun l => l.modify_order order_id new_size) })
    | .ASK =>
      (true, { b1 with
        ask_levels := updateLevel b1.ask_levels o.price
          (fun l => l.modify_order order_id new_size) })
    | .UNKNOWN => (true, b1)

/-- `OrderBook::cancel_order`. -/
def OrderBook.cancel_order (b : OrderBook) (order_id : String) :
    Bool × OrderBook :=
  match findOrder b order_id with
  | none => (false, b)
  | some o =>
    let b1 :=
      match o.side with
      | .BID =>
        match findLevel b.bid_levels o.price with
        | none => b
        | some l =>
          let l2 := l.remove_order order_id
          if l2.isEmptyLevel then
            { b with bid_levels := eraseLevel b.bid_levels o.price }
          else
            { b with bid_levels :=
                updateLevel b.bid_levels o.price (fun _ => l2) }
      | .ASK =>
        match findLevel b.ask_levels o.price with
        | none => b
        | some l =>
          let l2 := l.remove_order order_id
          if l2.isEmptyLevel then
            { b with ask_levels := eraseLevel b.ask_levels o.price }
          else
            { b with ask_levels :=
                updateLevel b.ask_levels o.price (fun _ => l2) }
      | .UNKNOWN => b
    (true, { b1 with
      orders_by_id := b1.orders_by_id.eraseP (fun kv => kv.1 == order_id) })

/-- `OrderBook::get_best_bid`: the first pair of the descending bid ladder, or
`(0, 0)` when it is empty. The returned price is the level's stored `price`
field, exactly as in the C++ (`it->second.price`). -/
def OrderBook.get_best_bid (b : OrderBook) : Rat × Nat :=
  match b.bid_levels with
  | [] => (0, 0)
  | kv :: _ => (kv.2.price, kv.2.total_size)

/-- `OrderBook::get_best_ask`: the first pair of the ascending ask ladder, or
`(0, 0)` when it is empty. -/
def OrderBook.get_best_ask (b : OrderBook) : Rat × Nat :=
  match b.ask_levels with
  | [] => (0, 0)
  | kv :: _ => (kv.2.price, kv.2.total_size)

/-- `OrderBook::get_size_at_price`. -/
def OrderBook.get_size_at_price (b : OrderBook) (side : OrderSide) (p : Rat) :
    Nat :=
  match side with
  | .BID =>
    match findLevel b.bid_levels p with
    | some l => l.total_size
    | none => 0
  | .ASK =>
    match findLevel b.ask_levels p with
    | some l => l.total_size
    | none => 0
  | .UNKNOWN => 0

/-- `OrderBook::get_orders_at_price` (FIFO order of ids at one level). -/
def OrderBook.get_orders_at_price (b : OrderBook) (side : OrderSide) (p : Rat) :
    List String :=
  match side with
  | .BID =>
    match findLevel b.bid_levels p with
    | some l => l.fifo_ids
    | none => []
  | .ASK =>
    match findLevel b.ask_levels p with
    | some l => l.fifo_ids
    | none => []
  | .UNKNOWN => []

/-! ### The event record from `quote.hpp` -/

/-- Struct `OrderBookEvent` from `quote.hpp` (wall-clock and monotonic stamps
are plain naturals). -/
structure OrderBookEvent where
  event_type : OrderBookEventType := .UNKNOWN
  symbol : String := ""
  exchange : String := ""
  order_id : String := ""
  side : OrderSide := .UNKNOWN
  price : Rat := 0
  size : Nat := 0
  remaining_size : Nat := 0
  trade_price : Rat := 0
  trade_size : Nat := 0
  is_aggressor : Bool := false
  status_message : String := ""
  is_trading_halted : Bool := false
  timestamp : Nat := 0
  sequence_number : Nat := 0
  exchange_mono_ns : Nat := 0
  udp_rx_mono_ns : Nat := 0
  enqueued_mono_ns : Nat := 0
deriving DecidableEq, Repr

/-! ### Consumer dispatch loop from `main.cpp` (`print_consumer`) -/

/-- One outbound multicast message, reduced to the fields the publisher
serialises from its arguments (`multicast_publisher.cpp`): a book update
carries the snapshot's best bid and best ask pairs, a trade update the trade
print. -/
inductive PubMsg
  | bookUpdate (symbol : String) (best_bid : Rat × Nat) (best_ask : Rat × Nat)
  | tradeUpdate (symbol : String) (price : Rat) (size : Nat)
      (aggressor_side : OrderSide)
deriving DecidableEq, Repr

/-- Observable state of the consumer thread: the per-symbol book map
`order_books`, the stream of multicast publications, the count of
empty-symbol warnings printed, and the `total_events` statistics counter. -/
structure ConsumerState where
  order_books : List (String × OrderBook)
  published : List PubMsg
  warnings : Nat
  total_events : Nat
deriving Repr

/-- The initial consumer state (no books, nothing published). -/
def ConsumerState.init : ConsumerState :=
  { order_books := [], published := [], warnings := 0, total_events := 0 }

/-- `order_books[symbol]` on a `std::map`: return the stored book, or
default-construct one under this key. Returns the book together with the map
after the lookup. -/
def booksIndex (books : List (String × OrderBook)) (symbol : String) :
    OrderBook × List (String × OrderBook) :=
  match books.find? (fun kv => kv.1 == symbol) with
  | some kv => (kv.2, books)
  | none => (OrderBook.emptyBook, books ++ [(symbol, OrderBook.emptyBook)])

/-- Store `book` back under `symbol` (the write-back of the C++ in-place
mutation of `order_books[event.symbol]`). -/
def booksStore (books : List (String × OrderBook)) (symbol : String)
    (book : OrderBook) : List (String × OrderBook) :=
  books.map (fun kv => if kv.1 == symbol then (kv.1, book) else kv)

/-- One iteration of `print_consumer` on a dequeued event (`main.cpp`,
`print_consumer`): bump the statistics counters, drop empty-symbol events with
a warning, otherwise dispatch on the event type, mutate the per-symbol book,
publish a trade print for `TRADE`, and always publish a book snapshot. -/
def consumeEvent (st : ConsumerState) (ev : OrderBookEvent) : ConsumerState :=
  let st := { st with total_events := st.total_events + 1 }
  if ev.symbol.isEmpty then
    { st with warnings := st.warnings + 1 }
  else
    let (book, books) := booksIndex st.order_books ev.symbol
    let (book2, pubs) :=
      match ev.event_type with
      | .ADD_ORDER =>
        ((book.add_order ev.order_id ev.side ev.price ev.size ev.symbol
            ev.timestamp).2, [])
      | .MODIFY_ORDER => ((book.modify_order ev.order_id ev.size).2, [])
      | .CANCEL_ORDER => ((book.cancel_order ev.order_id).2, [])
      | .DELETE_ORDER => ((book.cancel_order ev.order_id).2, [])
      | .TRADE =>
        (book, [PubMsg.tradeUpdate ev.symbol ev.trade_price ev.trade_size
          (if ev.is_aggressor then .BID else .ASK)])
      | _ => (book, [])
    { st with
      order_books := booksStore books ev.symbol book2
      published := st.published ++ pubs ++
        [PubMsg.bookUpdate ev.symbol book2.get_best_bid book2.get_best_ask] }

/-! ### SPSC ring buffer from `queue.hpp`

The buffer is accessed by one producer and one consumer thread; all its claims
are about the FIFO discipline of the successful pushes and pops, which is a
property of the sequential state machine below (head, tail, storage, and the
masked index arithmetic are taken verbatim from the source). -/

/-- The `while (actual_capacity < capacity) actual_capacity <<= 1;` loop of the
constructor. The `0 < acc` guard only rules out the diverging `acc = 0` start,
which the constructor (starting from 1) never takes. -/
def nextPow2Go (cap acc : Nat) : Nat :=
  if h : 0 < acc ∧ acc < cap then nextPow2Go cap (acc * 2) else acc
termination_by cap - acc
decreasing_by omega

/-- Next power of two greater than or equal to `cap`, as computed by the
`SPSCRingBuffer` constructor (starting from `actual_capacity = 1`). -/
def nextPow2 (cap : Nat) : Nat := nextPow2Go cap 1

/-- `SPSCRingBuffer<T>`: capacity, mask, element storage, producer index
(`head_`) and consumer index (`tail_`). -/
structure SPSCRingBuffer (T : Type) where
  capacity : Nat
  mask : Nat
  buffer : List T
  head : Nat
  tail : Nat
deriving Repr

namespace SPSCRingBuffer

/-- The `SPSCRingBuffer(size_t capacity)` constructor: reject capacity 0
(`std::invalid_argument`), round up to the next power of two, default-construct
every slot, start with `head_ = tail_ = 0`. -/
def create (T : Type) [Inhabited T] (capacity : Nat) :
    Option (SPSCRingBuffer T) :=
  if capacity = 0 then none
  else
    let c := nextPow2 capacity
    some { capacity := c, mask := c - 1
           buffer := List.replicate c default, head := 0, tail := 0 }

/-- `SPSCRingBuffer::full`. -/
def isFull {T : Type} (r : SPSCRingBuffer T) : Bool :=
  ((r.head + 1) &&& r.mask) == r.tail

/-- `SPSCRingBuffer::empty`. -/
def isEmptyBuf {T : Type} (r : SPSCRingBuffer T) : Bool :=
  r.head == r.tail

/-- `SPSCRingBuffer::push`: fail when full, otherwise write the element at
`head_` and advance `head_` masked. -/
def push {T : Type} (r : SPSCRingBuffer T) (item : T) :
    Bool × SPSCRingBuffer T :=
  if r.isFull then (false, r)
  else
    (true, { r with
      buffer := r.buffer.set r.head item
      head := (r.head + 1) &&& r.mask })

/-- `SPSCRingBuffer::try_push` (an alias of `push`). -/
def try_push {T : Type} (r : SPSCRingBuffer T) (item : T) :
    Bool × SPSCRingBuffer T :=
  r.push item

/-- `SPSCRingBuffer::pop`: fail when empty, otherwise read the element at
`tail_` and advance `tail_` masked. -/
def pop {T : Type} [Inhabited T] (r : SPSCRingBuffer T) :
    Option (T × SPSCRingBuffer T) :=
  if r.isEmptyBuf then none
  else
    some (r.buffer.getD r.tail default,
      { r with tail := (r.tail + 1) &&& r.mask })

/-- `SPSCRingBuffer::try_pop` (an alias of `pop`). -/
def try_pop {T : Type} [Inhabited T] (r : SPSCRingBuffer T) :
    Option (T × SPSCRingBuffer T) :=
  r.pop

/-- `SPSCRingBuffer::size`. -/
def sizeBuf {T : Type} (r : SPSCRingBuffer T) : Nat :=
  if r.head ≥ r.tail then r.head - r.tail
  else r.capacity - r.tail + r.head

/-- Successive `try_push` calls of a whole list; `none` when any push reports a
full buffer. -/
def pushSeq {T : Type} (r : SPSCRingBuffer T) :
    List T → Option (SPSCRingBuffer T)
  | [] => some r
  | v :: vs =>
    match r.try_push v with
    | (true, r2) => pushSeq r2 vs
    | (false, _) => none

/-- `n` successive `try_pop` calls; `none` when any pop reports an empty
buffer. -/
def popSeq {T : Type} [Inhabited T] (r : SPSCRingBuffer T) :
    Nat → Option (List T × SPSCRingBuffer T)
  | 0 => some ([], r)
  | n + 1 =>
    match r.try_pop with
    | some (v, r2) =>
      match popSeq r2 n with
      | some (vs, r3) => some (v :: vs, r3)
      | none => none
    | none => none

/-- States of a ring buffer reachable through the public interface: a
constructed buffer, and anything obtained from a reachable state by `try_push`
or a successful `try_pop`. -/
inductive Reach {T : Type} [Inhabited T] : SPSCRingBuffer T → Prop
  | created (capacity : Nat) (r : SPSCRingBuffer T)
      (h : create T capacity = some r) : Reach r
  | pushed (r : SPSCRingBuffer T) (v : T) (h : Reach r) :
      Reach (r.push v).2
  | popped (r : SPSCRingBuffer T) (v : T) (r' : SPSCRingBuffer T)
      (h : Reach r) (hp : r.pop = some (v, r')) : Reach r'

end SPSCRingBuffer

/-! ### Operation traces over one order book -/

/-- One book mutation, as dispatched by the consumer loop. -/
inductive Op
  | addOp (id : String) (side : OrderSide) (price : Rat) (size : Nat)
      (symbol : String) (ts : Nat)
  | modifyOp (id : String) (new_size : Nat)
  | cancelOp (id : String)
deriving DecidableEq, Repr

/-- Apply one operation to a book (discarding the `bool` status). -/
def applyOp (b : OrderBook) : Op → OrderBook
  | .addOp id side price size symbol ts =>
    (b.add_order id side price size symbol ts).2
  | .modifyOp id n => (b.modify_order id n).2
  | .cancelOp id => (b.cancel_order id).2

/-- Apply a sequence of operations left to right. -/
def applyOps (b : OrderBook) (ops : List Op) : OrderBook :=
  ops.foldl applyOp b

/-- The ladder on which an order of the given side rests (an unknown-side
order rests on no ladder). -/
def ladderOf (b : OrderBook) : OrderSide → Ladder
  | .BID => b.bid_levels
  | .ASK => b.ask_levels
  | .UNKNOWN => []

/-- The level of the side and price recorded on the order exists and carries
exactly one queue entry with this order id. -/
def orderPlaced (b : OrderBook) (id : String) (o : Order) : Prop :=
  (findLevel (ladderOf b o.side) o.price).map
    (fun l => l.order_queue.countP (fun e => e.order_id == id)) = some 1

/-- Mutual consistency of a book, exactly as the spec's invariants 1–3 state
it: every indexed order has exactly one entry at its recorded side and price,
every level's `total_size` equals the sum of its entry sizes, and no level in
either ladder has aggregate size zero. -/
def bookConsistent (b : OrderBook) : Prop :=
  (∀ kv ∈ b.orders_by_id, orderPlaced b kv.1 kv.2) ∧
  (∀ kv ∈ b.bid_levels, kv.2.total_size = levelSum kv.2 ∧ kv.2.total_size ≠ 0) ∧
  (∀ kv ∈ b.ask_levels, kv.2.total_size = levelSum kv.2 ∧ kv.2.total_size ≠ 0)

instance (b : OrderBook) (id : String) (o : Order) :
    Decidable (orderPlaced b id o) := by
  unfold orderPlaced; infer_instance

instance (b : OrderBook) : Decidable (bookConsistent b) := by
  unfold bookConsistent; infer_instance

/-! ### Well-formedness of a book

`WF` is the inductive invariant the book maintains under valid operations:
it packages the spec's invariants 1–3 with the structural facts that make
them preservable (sorted ladders, per-entry positive sizes, id uniqueness). -/

/-- The id of a queue entry resolves in the book's index to an order carrying
this side and price. -/
def entryMatches (b : OrderBook) (s : OrderSide) (p : Rat)
    (e : OrderEntry) : Prop :=
  (findOrder b e.order_id).map (fun o => (o.side, o.price)) = some (s, p)

instance (b : OrderBook) (s : OrderSide) (p : Rat) (e : OrderEntry) :
    Decidable (entryMatches b s p e) := by
  unfold entryMatches
  infer_instance

/-- Well-formedness of the level stored under key `p` on side `s` of book `b`:
its `price` field equals its key, the queue is non-empty, `total_size` caches
the exact entry sum, the sum is a representable `uint32_t`, ids are unique
inside the level, and every entry is positive, representable, and indexed at
this side and price. -/
def LevelWF (b : OrderBook) (s : OrderSide) (p : Rat) (l : PriceLevel) : Prop :=
  l.price = p ∧ l.order_queue ≠ [] ∧ l.total_size = levelSum l ∧
  levelSum l < U32MOD ∧ (l.order_queue.map OrderEntry.order_id).Nodup ∧
  ∀ e ∈ l.order_queue, 0 < e.size ∧ e.size < U32MOD ∧ entryMatches b s p e

instance (b : OrderBook) (s : OrderSide) (p : Rat) (l : PriceLevel) :
    Decidable (LevelWF b s p l) := by
  unfold LevelWF
  infer_instance

/-- Strict comparator order of the keys of a ladder (the `std::map`
representation invariant; implies pairwise-distinct keys). -/
def ladderSorted (lt : Rat → Rat → Bool) (lad : Ladder) : Prop :=
  List.Pairwise (fun a b => lt a.1 b.1 = true) lad

instance (lt : Rat → Rat → Bool) (lad : Ladder) :
    Decidable (ladderSorted lt lad) := by
  unfold ladderSorted
  infer_instance

/-- The book invariant. -/
def WF (b : OrderBook) : Prop :=
  (b.orders_by_id.map Prod.fst).Nodup ∧
  (∀ kv ∈ b.orders_by_id,
    kv.2.order_id = kv.1 ∧ kv.2.side ≠ OrderSide.UNKNOWN ∧
    orderPlaced b kv.1 kv.2) ∧
  ladderSorted bidLt b.bid_levels ∧
  ladderSorted askLt b.ask_levels ∧
  (∀ kv ∈ b.bid_levels, LevelWF b OrderSide.BID kv.1 kv.2) ∧
  (∀ kv ∈ b.ask_levels, LevelWF b OrderSide.ASK kv.1 kv.2)

instance (b : OrderBook) : Decidable (WF b) := by
  unfold WF
  infer_instance

/-- Validity of a dispatched operation: known side, positive size, and a size
representable as `uint32_t` (add); positive representable size (modify);
always (cancel). -/
def validOp : Op → Prop
  | .addOp _ side _ size _ _ =>
    side ≠ OrderSide.UNKNOWN ∧ 0 < size ∧ size < U32MOD
  | .modifyOp _ n => 0 < n ∧ n < U32MOD
  | .cancelOp _ => True

instance : (op : Op) → Decidable (validOp op)
  | .addOp id side price size symbol ts => by unfold validOp; infer_instance
  | .modifyOp id n => by unfold validOp; infer_instance
  | .cancelOp id => by unfold validOp; infer_instance

/-- No level's entry sum overflows `uint32_t`. -/
def sumsBounded (b : OrderBook) : Prop :=
  (∀ kv ∈ b.bid_levels, levelSum kv.2 < U32MOD) ∧
  (∀ kv ∈ b.ask_levels, levelSum kv.2 < U32MOD)

instance (b : OrderBook) : Decidable (sumsBounded b) := by
  unfold sumsBounded
  infer_instance

/-- A trace of operations whose every step is valid and keeps every level's
aggregate below `2^32` (so `uint32_t` arithmetic never wraps). -/
def TraceOK : OrderBook → List Op → Prop
  | _, [] => True
  | b, op :: ops =>
    validOp op ∧ sumsBounded (applyOp b op) ∧ TraceOK (applyOp b op) ops

def TraceOK.dec : (b : OrderBook) → (ops : List Op) → Decidable (TraceOK b ops)
  | _, [] => isTrue trivial
  | b, op :: ops => by
    unfold TraceOK
    have h := TraceOK.dec (applyOp b op) ops
    infer_instance

instance (b : OrderBook) (ops : List Op) : Decidable (TraceOK b ops) :=
  TraceOK.dec b ops

/-! ### Small lookup lemmas -/

/-- When an id is absent, the underlying `find?` of the index is `none`. -/
theorem findOrder_none_find? (b : OrderBook) (id : String)
    (h : findOrder b id = none) :
    b.orders_by_id.find? (fun kv => kv.1 == id) = none := by
  unfold findOrder at h
  cases h' : b.orders_by_id.find? (fun kv => kv.1 == id) with
  | none => rfl
  | some kv => rw [h'] at h; simp at h

/-- Appending a pair with a fresh id to the index makes it findable. -/
theorem findOrder_append (b : OrderBook) (id : String) (o : Order)
    (h : findOrder b id = none) :
    findOrder { b with orders_by_id := b.orders_by_id ++ [(id, o)] } id
      = some o := by
  have hfind := findOrder_none_find? b id h
  unfold findOrder
  simp only [List.find?_append, hfind, Option.none_or]
  simp

/-! ### Arithmetic facts -/

theorem u32_eq_of_lt {a : Nat} (h : a < U32MOD) : u32 a = a :=
  Nat.mod_eq_of_lt h

theorem u32add_eq_of_lt {a b : Nat} (h : a + b < U32MOD) : u32add a b = a + b :=
  Nat.mod_eq_of_lt h

theorem u32sub_eq_of_le {a b : Nat} (hb : b ≤ a) (ha : a < U32MOD) :
    u32sub a b = a - b := by
  unfold u32sub
  rw [Nat.mod_eq_of_lt (by omega : b < U32MOD)]
  have h2 : a + U32MOD - b = (a - b) + U32MOD := by omega
  rw [h2, Nat.add_mod_right, Nat.mod_eq_of_lt (by omega)]

/-! ### Comparator facts -/

theorem bidLt_trans (a b c : Rat) (h1 : bidLt a b = true) (h2 : bidLt b c = true) :
    bidLt a c = true := by
  simp only [bidLt, decide_eq_true_eq] at *
  exact lt_trans h2 h1

theorem askLt_trans (a b c : Rat) (h1 : askLt a b = true) (h2 : askLt b c = true) :
    askLt a c = true := by
  simp only [askLt, decide_eq_true_eq] at *
  exact lt_trans h1 h2

theorem bidLt_total (a b : Rat) (h : a ≠ b) : bidLt a b = true ∨ bidLt b a = true := by
  simp only [bidLt, decide_eq_true_eq]
  rcases lt_or_gt_of_ne h with h1 | h1
  · exact Or.inr h1
  · exact Or.inl h1

theorem askLt_total (a b : Rat) (h : a ≠ b) : askLt a b = true ∨ askLt b a = true := by
  simp only [askLt, decide_eq_true_eq]
  rcases lt_or_gt_of_ne h with h1 | h1
  · exact Or.inl h1
  · exact Or.inr h1

theorem bidLt_irrefl (a : Rat) : bidLt a a = false := by
  simp [bidLt]

theorem askLt_irrefl (a : Rat) : askLt a a = false := by
  simp [askLt]

/-! ### Ladder lemmas -/

theorem findLevel_eq_none_iff (lad : Ladder) (p : Rat) :
    findLevel lad p = none ↔ ∀ kv ∈ lad, kv.1 ≠ p := by
  unfold findLevel
  cases h : lad.find? (fun kv => decide (kv.1 = p)) with
  | none =>
    rw [List.find?_eq_none] at h
    simpa using h
  | some kv =>
    have hm := List.mem_of_find?_eq_some h
    have hp := List.find?_some h
    simp only [decide_eq_true_eq] at hp
    exact ⟨fun hc => absurd hc (by simp), fun hall => absurd hp (hall kv hm)⟩

theorem findLevel_mem (lad : Ladder) (p : Rat) (l : PriceLevel)
    (h : findLevel lad p = some l) : (p, l) ∈ lad := by
  unfold findLevel at h
  cases hf : lad.find? (fun kv => decide (kv.1 = p)) with
  | none => rw [hf] at h; simp at h
  | some kv =>
    rw [hf] at h
    have hm := List.mem_of_find?_eq_some hf
    have hp := List.find?_some hf
    simp only [decide_eq_true_eq] at hp
    injection h with h
    obtain ⟨k1, k2⟩ := kv
    simp only at hp h
    subst hp
    subst h
    exact hm

theorem ladder_keys_nodup (lt : Rat → Rat → Bool)
    (hirr : ∀ a, lt a a = false) (lad : Ladder)
    (hs : ladderSorted lt lad) : (lad.map Prod.fst).Nodup := by
  unfold ladderSorted at hs
  unfold List.Nodup
  rw [List.pairwise_map]
  refine hs.imp ?_
  intro a b hab heq
  rw [heq] at hab
  rw [hirr b.1] at hab
  exact absurd hab (by simp)

theorem findLevel_of_mem (lad : Ladder) (p : Rat) (l : PriceLevel)
    (hN : (lad.map Prod.fst).Nodup) (hm : (p, l) ∈ lad) :
    findLevel lad p = some l := by
  induction lad with
  | nil => simp at hm
  | cons kv rest ih =>
    rw [List.map_cons, List.nodup_cons] at hN
    rcases List.mem_cons.mp hm with heq | hmem
    · subst heq
      unfold findLevel
      rw [List.find?_cons_of_pos _ (by simp)]
    · have hne : kv.1 ≠ p := by
        intro hc
        exact hN.1 (by
          rw [hc]
          exact List.mem_map.mpr ⟨(p, l), hmem, rfl⟩)
      unfold findLevel at ih ⊢
      rw [List.find?_cons_of_neg _ (by simpa using hne)]
      exact ih hN.2 hmem

theorem mem_insertLevel (lt : Rat → Rat → Bool) (p : Rat) (lvl : PriceLevel)
    (lad : Ladder) (kv : Rat × PriceLevel) :
    kv ∈ insertLevel lt p lvl lad ↔ kv = (p, lvl) ∨ kv ∈ lad := by
  induction lad with
  | nil => simp [insertLevel]
  | cons kv0 rest ih =>
    unfold insertLevel
    by_cases h : lt p kv0.1
    · rw [if_pos h]
      simp
    · rw [if_neg h]
      simp only [List.mem_cons, ih]
      tauto

theorem findLevel_insertLevel_self (lt : Rat → Rat → Bool) (p : Rat)
    (lvl : PriceLevel) (lad : Ladder) (h : ∀ kv ∈ lad, kv.1 ≠ p) :
    findLevel (insertLevel lt p lvl lad) p = some lvl := by
  induction lad with
  | nil =>
    unfold insertLevel findLevel
    rw [List.find?_cons_of_pos _ (by simp)]
  | cons kv0 rest ih =>
    have h0 : kv0.1 ≠ p := h kv0 (by simp)
    unfold insertLevel
    by_cases hlt : lt p kv0.1
    · rw [if_pos hlt]
      unfold findLevel
      rw [List.find?_cons_of_pos _ (by simp)]
    · rw [if_neg hlt]
      unfold findLevel at ih ⊢
      rw [List.find?_cons_of_neg _ (by simpa using h0)]
      exact ih (fun kv hm => h kv (by simp [hm]))

theorem findLevel_insertLevel_ne (lt : Rat → Rat → Bool) (p q : Rat)
    (lvl : PriceLevel) (lad : Ladder) (h : q ≠ p) :
    findLevel (insertLevel lt p lvl lad) q = findLevel lad q := by
  induction lad with
  | nil =>
    unfold insertLevel findLevel
    rw [List.find?_cons_of_neg _ (by simp [Ne.symm h])]
  | cons kv0 rest ih =>
    unfold insertLevel
    by_cases hlt : lt p kv0.1
    · rw [if_pos hlt]
      unfold findLevel
      rw [List.find?_cons_of_neg _ (by simp [Ne.symm h])]
    · rw [if_neg hlt]
      unfold findLevel at ih ⊢
      by_cases h0 : kv0.1 = q
      · rw [List.find?_cons_of_pos _ (by simpa using h0),
          List.find?_cons_of_pos _ (by simpa using h0)]
      · rw [List.find?_cons_of_neg _ (by simpa using h0),
          List.find?_cons_of_neg _ (by simpa using h0)]
        exact ih

theorem insertLevel_sorted (lt : Rat → Rat → Bool)
    (htrans : ∀ a b c, lt a b = true → lt b c = true → lt a c = true)
    (htot : ∀ a b : Rat, a ≠ b → lt a b = true ∨ lt b a = true)
    (p : Rat) (lvl : PriceLevel) (lad : Ladder) (hs : ladderSorted lt lad)
    (hfresh : ∀ kv ∈ lad, kv.1 ≠ p) :
    ladderSorted lt (insertLevel lt p lvl lad) := by
  induction lad with
  | nil => simp [insertLevel, ladderSorted]
  | cons kv0 rest ih =>
    unfold ladderSorted at hs ⊢
    rw [List.pairwise_cons] at hs
    unfold insertLevel
    by_cases hlt : lt p kv0.1
    · rw [if_pos hlt]
      rw [List.pairwise_cons]
      refine ⟨?_, List.pairwise_cons.mpr hs⟩
      intro y hy
      rcases List.mem_cons.mp hy with rfl | hy'
      · exact hlt
      · exact htrans _ _ _ hlt (hs.1 y hy')
    · rw [if_neg hlt]
      rw [List.pairwise_cons]
      have h0 : kv0.1 ≠ p := hfresh kv0 (by simp)
      have hlt0 : lt kv0.1 p = true := by
        rcases htot kv0.1 p h0 with h | h
        · exact h
        · exact absurd h hlt
      refine ⟨?_, ih hs.2 (fun kv hm => hfresh kv (by simp [hm]))⟩
      intro y hy
      rcases (mem_insertLevel lt p lvl rest y).mp hy with rfl | hy'
      · exact hlt0
      · exact hs.1 y hy'

theorem findLevel_updateLevel_self (lad : Ladder) (p : Rat)
    (f : PriceLevel → PriceLevel) (l : PriceLevel)
    (h : findLevel lad p = some l) :
    findLevel (updateLevel lad p f) p = some (f l) := by
  induction lad with
  | nil => simp [findLevel] at h
  | cons kv0 rest ih =>
    unfold updateLevel findLevel at *
    by_cases h0 : kv0.1 = p
    · rw [List.find?_cons_of_pos _ (by simpa using h0)] at h
      injection h with h
      subst h
      simp only [List.map_cons, if_pos h0]
      rw [List.find?_cons_of_pos _ (by simpa using h0)]
    · rw [List.find?_cons_of_neg _ (by simpa using h0)] at h
      simp only [List.map_cons, if_neg h0]
      rw [List.find?_cons_of_neg _ (by simpa using h0)]
      exact ih h

theorem findLevel_updateLevel_ne (lad : Ladder) (p q : Rat)
    (f : PriceLevel → PriceLevel) (h : q ≠ p) :
    findLevel (updateLevel lad p f) q = findLevel lad q := by
  induction lad with
  | nil => rfl
  | cons kv0 rest ih =>
    unfold updateLevel findLevel at *
    by_cases h0 : kv0.1 = p
    · simp only [List.map_cons, if_pos h0]
      rw [List.find?_cons_of_neg _ (by simp [h0, Ne.symm h]),
        List.find?_cons_of_neg _ (by simp [h0, Ne.symm h])]
      exact ih
    · simp only [List.map_cons, if_neg h0]
      by_cases h1 : kv0.1 = q
      · rw [List.find?_cons_of_pos _ (by simpa using h1),
          List.find?_cons_of_pos _ (by simpa using h1)]
      · rw [List.find?_cons_of_neg _ (by simpa using h1),
          List.find?_cons_of_neg _ (by simpa using h1)]
        exact ih

theorem updateLevel_of_none (lad : Ladder) (p : Rat)
    (f : PriceLevel → PriceLevel) (h : findLevel lad p = none) :
    updateLevel lad p f = lad := by
  have hall := (findLevel_eq_none_iff lad p).mp h
  induction lad with
  | nil => rfl
  | cons kv rest ih =>
    unfold updateLevel at ih ⊢
    rw [List.map_cons, if_neg (hall kv (by simp))]
    rw [ih ?_ (fun kv2 hm => hall kv2 (by simp [hm]))]
    rw [findLevel_eq_none_iff]
    exact fun kv2 hm => hall kv2 (by simp [hm])

theorem mem_updateLevel (lad : Ladder) (p : Rat) (f : PriceLevel → PriceLevel)
    (kv : Rat × PriceLevel) (h : kv ∈ updateLevel lad p f) :
    (kv ∈ lad ∧ kv.1 ≠ p) ∨ ∃ l, (p, l) ∈ lad ∧ kv = (p, f l) := by
  unfold updateLevel at h
  rcases List.mem_map.mp h with ⟨kv0, hm, heq⟩
  by_cases h0 : kv0.1 = p
  · right
    refine ⟨kv0.2, ?_, ?_⟩
    · have : (p, kv0.2) = kv0 := by rw [← h0]
      rw [this]
      exact hm
    · rw [← heq, if_pos h0, h0]
  · left
    rw [← heq, if_neg h0]
    exact ⟨hm, h0⟩

theorem updateLevel_sorted (lt : Rat → Rat → Bool) (lad : Ladder) (p : Rat)
    (f : PriceLevel → PriceLevel) (hs : ladderSorted lt lad) :
    ladderSorted lt (updateLevel lad p f) := by
  unfold ladderSorted updateLevel at *
  rw [List.pairwise_map]
  refine hs.imp ?_
  intro a b hab
  by_cases ha : a.1 = p <;> by_cases hb : b.1 = p <;> simpa [ha, hb] using hab

theorem mem_eraseLevel (lad : Ladder) (p : Rat) (kv : Rat × PriceLevel)
    (h : kv ∈ eraseLevel lad p) : kv ∈ lad :=
  List.eraseP_subset _ h

theorem eraseLevel_sorted (lt : Rat → Rat → Bool) (lad : Ladder) (p : Rat)
    (hs : ladderSorted lt lad) : ladderSorted lt (eraseLevel lad p) :=
  List.Pairwise.sublist (List.eraseP_sublist _) hs

theorem findLevel_eraseLevel_ne (lad : Ladder) (p q : Rat) (h : q ≠ p) :
    findLevel (eraseLevel lad p) q = findLevel lad q := by
  induction lad with
  | nil => rfl
  | cons kv rest ih =>
    unfold eraseLevel findLevel at *
    by_cases h0 : kv.1 = p
    · rw [List.eraseP_cons_of_pos (by simpa using h0)]
      rw [List.find?_cons_of_neg _ (by simp [h0, Ne.symm h])]
    · rw [List.eraseP_cons_of_neg (by simpa using h0)]
      by_cases h1 : kv.1 = q
      · rw [List.find?_cons_of_pos _ (by simpa using h1),
          List.find?_cons_of_pos _ (by simpa using h1)]
      · rw [List.find?_cons_of_neg _ (by simpa using h1),
          List.find?_cons_of_neg _ (by simpa using h1)]
        exact ih

theorem findLevel_eraseLevel_self (lad : Ladder) (p : Rat)
    (hN : (lad.map Prod.fst).Nodup) :
    findLevel (eraseLevel lad p) p = none := by
  induction lad with
  | nil => rfl
  | cons kv rest ih =>
    rw [List.map_cons, List.nodup_cons] at hN
    unfold eraseLevel findLevel at *
    by_cases h0 : kv.1 = p
    · rw [List.eraseP_cons_of_pos (by simpa using h0)]
      cases hf : rest.find? (fun kv => decide (kv.1 = p)) with
      | none => rfl
      | some kv2 =>
        have hm := List.mem_of_find?_eq_some hf
        have hp := List.find?_some hf
        simp only [decide_eq_true_eq] at hp
        exact absurd (List.mem_map.mpr ⟨kv2, hm, hp⟩) (h0 ▸ hN.1)
    · rw [List.eraseP_cons_of_neg (by simpa using h0)]
      rw [List.find?_cons_of_neg _ (by simpa using h0)]
      exact ih hN.2

/-- `find?` on a cons whose head satisfies the predicate (explicit predicate,
for deterministic rewriting with `BEq` predicates). -/
theorem find?_cons_pos' {W : Type} (p : W → Bool) (a : W) (l : List W)
    (h : p a = true) : (a :: l).find? p = some a :=
  List.find?_cons_of_pos l h

theorem find?_cons_neg' {W : Type} (p : W → Bool) (a : W) (l : List W)
    (h : p a = false) : (a :: l).find? p = l.find? p :=
  List.find?_cons_of_neg l (by simp [h])

theorem eraseP_cons_pos' {W : Type} (p : W → Bool) (a : W) (l : List W)
    (h : p a = true) : (a :: l).eraseP p = l :=
  List.eraseP_cons_of_pos h

theorem eraseP_cons_neg' {W : Type} (p : W → Bool) (a : W) (l : List W)
    (h : p a = false) : (a :: l).eraseP p = a :: l.eraseP p :=
  List.eraseP_cons_of_neg (by simp [h])

theorem countP_cons_pos' {W : Type} (p : W → Bool) (a : W) (l : List W)
    (h : p a = true) : (a :: l).countP p = l.countP p + 1 := by
  rw [List.countP_cons]
  simp [h]

theorem countP_cons_neg' {W : Type} (p : W → Bool) (a : W) (l : List W)
    (h : p a = false) : (a :: l).countP p = l.countP p := by
  rw [List.countP_cons]
  simp [h]

/-! ### Index (orders_by_id) lemmas -/

theorem find?_assoc_append_ne (l : List (String × Order)) (id x : String)
    (o : Order) (h : x ≠ id) :
    (l ++ [(id, o)]).find? (fun kv => kv.1 == x) =
      l.find? (fun kv => kv.1 == x) := by
  rw [List.find?_append]
  have hnone : ([(id, o)].find? (fun kv => kv.1 == x)) = none := by
    rw [List.find?_cons_of_neg _ (by simpa using Ne.symm h)]
    rfl
  rw [hnone]
  cases l.find? (fun kv => kv.1 == x) <;> rfl

theorem findOrder_append_ne (b : OrderBook) (id x : String) (o : Order)
    (h : x ≠ id) :
    findOrder { b with orders_by_id := b.orders_by_id ++ [(id, o)] } x =
      findOrder b x := by
  unfold findOrder
  rw [find?_assoc_append_ne b.orders_by_id id x o h]

theorem find?_assoc_erase_ne (l : List (String × Order)) (id x : String)
    (h : x ≠ id) :
    (l.eraseP (fun kv => kv.1 == id)).find? (fun kv => kv.1 == x) =
      l.find? (fun kv => kv.1 == x) := by
  induction l with
  | nil => rfl
  | cons kv rest ih =>
    by_cases h0 : kv.1 == id
    · rw [eraseP_cons_pos' (fun kv => kv.1 == id) kv rest h0]
      have hid : kv.1 = id := by simpa using h0
      rw [find?_cons_neg' (fun kv => kv.1 == x) kv rest (by simp [hid, Ne.symm h])]
    · rw [eraseP_cons_neg' (fun kv => kv.1 == id) kv rest (by simpa using h0)]
      by_cases h1 : kv.1 == x
      · rw [find?_cons_pos' (fun kv => kv.1 == x) kv _ h1,
          find?_cons_pos' (fun kv => kv.1 == x) kv rest h1]
      · rw [find?_cons_neg' (fun kv => kv.1 == x) kv _ (by simpa using h1),
          find?_cons_neg' (fun kv => kv.1 == x) kv rest (by simpa using h1)]
        exact ih

theorem findOrder_erase_ne (b : OrderBook) (id x : String) (h : x ≠ id) :
    findOrder { b with
      orders_by_id := b.orders_by_id.eraseP (fun kv => kv.1 == id) } x =
      findOrder b x := by
  unfold findOrder
  rw [find?_assoc_erase_ne b.orders_by_id id x h]

theorem find?_assoc_map_ne (l : List (String × Order)) (id x : String)
    (f : Order → Order) (h : x ≠ id) :
    (l.map (fun kv => if kv.1 == id then (kv.1, f kv.2) else kv)).find?
      (fun kv => kv.1 == x) = l.find? (fun kv => kv.1 == x) := by
  induction l with
  | nil => rfl
  | cons kv rest ih =>
    rw [List.map_cons]
    by_cases h0 : kv.1 == id
    · rw [if_pos h0]
      have hid : kv.1 = id := by simpa using h0
      rw [find?_cons_neg' (fun kv => kv.1 == x) (kv.1, f kv.2) _
          (by simp [hid, Ne.symm h]),
        find?_cons_neg' (fun kv => kv.1 == x) kv rest (by simp [hid, Ne.symm h])]
      exact ih
    · rw [if_neg h0]
      by_cases h1 : kv.1 == x
      · rw [find?_cons_pos' (fun kv => kv.1 == x) kv _ h1,
          find?_cons_pos' (fun kv => kv.1 == x) kv rest h1]
      · rw [find?_cons_neg' (fun kv => kv.1 == x) kv _ (by simpa using h1),
          find?_cons_neg' (fun kv => kv.1 == x) kv rest (by simpa using h1)]
        exact ih

theorem findOrder_mapUpdate_ne (b : OrderBook) (id x : String)
    (f : Order → Order) (h : x ≠ id) :
    findOrder { b with orders_by_id :=
      b.orders_by_id.map (fun kv => if kv.1 == id then (kv.1, f kv.2) else kv) }
      x = findOrder b x := by
  unfold findOrder
  rw [find?_assoc_map_ne b.orders_by_id id x f h]

theorem find?_assoc_map_self (l : List (String × Order)) (id : String)
    (f : Order → Order) (kv0 : String × Order)
    (hf : l.find? (fun kv => kv.1 == id) = some kv0) :
    (l.map (fun kv => if kv.1 == id then (kv.1, f kv.2) else kv)).find?
      (fun kv => kv.1 == id) = some (kv0.1, f kv0.2) := by
  induction l with
  | nil => simp at hf
  | cons kv rest ih =>
    rw [List.map_cons]
    by_cases h0 : kv.1 == id
    · rw [find?_cons_pos' (fun kv => kv.1 == id) kv rest h0] at hf
      injection hf with hf
      subst hf
      rw [if_pos h0]
      rw [find?_cons_pos' (fun kv => kv.1 == id) (kv.1, f kv.2) _
        (by simpa using h0)]
    · rw [if_neg h0]
      rw [find?_cons_neg' (fun kv => kv.1 == id) kv _ (by simpa using h0)]
      rw [find?_cons_neg' (fun kv => kv.1 == id) kv rest (by simpa using h0)] at hf
      exact ih hf

theorem findOrder_mapUpdate_self (b : OrderBook) (id : String) (o : Order)
    (f : Order → Order) (hf : findOrder b id = some o) :
    findOrder { b with orders_by_id :=
      b.orders_by_id.map (fun kv => if kv.1 == id then (kv.1, f kv.2) else kv) }
      id = some (f o) := by
  unfold findOrder at hf ⊢
  cases h : b.orders_by_id.find? (fun kv => kv.1 == id) with
  | none => rw [h] at hf; simp at hf
  | some kv0 =>
    rw [h] at hf
    injection hf with hf
    have hk : kv0.1 = id := by simpa using List.find?_some h
    rw [find?_assoc_map_self b.orders_by_id id f kv0 h, hf]

theorem findOrder_some_mem (b : OrderBook) (id : String) (o : Order)
    (h : findOrder b id = some o) : (id, o) ∈ b.orders_by_id := by
  unfold findOrder at h
  cases hf : b.orders_by_id.find? (fun kv => kv.1 == id) with
  | none => rw [hf] at h; simp at h
  | some kv =>
    rw [hf] at h
    have hm := List.mem_of_find?_eq_some hf
    have hp := List.find?_some hf
    injection h with h
    obtain ⟨k1, k2⟩ := kv
    simp only at h
    have hk : k1 = id := by simpa using hp
    subst hk
    subst h
    exact hm

theorem findOrder_none_of_not_mem_keys (b : OrderBook) (id : String)
    (h : id ∉ b.orders_by_id.map Prod.fst) : findOrder b id = none := by
  unfold findOrder
  cases hf : b.orders_by_id.find? (fun kv => kv.1 == id) with
  | none => rfl
  | some kv =>
    have hm := List.mem_of_find?_eq_some hf
    have hp := List.find?_some hf
    have : id ∈ b.orders_by_id.map Prod.fst := by
      refine List.mem_map.mpr ⟨kv, hm, ?_⟩
      simpa using hp
    exact absurd this h

theorem findOrder_none_keys (b : OrderBook) (id : String)
    (h : findOrder b id = none) : ∀ kv ∈ b.orders_by_id, kv.1 ≠ id := by
  intro kv hm hc
  have hf := findOrder_none_find? b id h
  rw [List.find?_eq_none] at hf
  exact hf kv hm (by simpa using hc)

/-! ### Queue and size lemmas -/

theorem nat_mem_le_sum (l : List Nat) (x : Nat) (h : x ∈ l) : x ≤ l.sum := by
  induction l with
  | nil => simp at h
  | cons y rest ih =>
    rw [List.sum_cons]
    rcases List.mem_cons.mp h with rfl | hm
    · omega
    · have := ih hm
      omega

theorem entry_size_le_levelSum (l : PriceLevel) (e : OrderEntry)
    (h : e ∈ l.order_queue) : e.size ≤ levelSum l :=
  nat_mem_le_sum _ _ (List.mem_map.mpr ⟨e, h, rfl⟩)

theorem levelSum_add_order (l : PriceLevel) (id : String) (size ts : Nat) :
    levelSum (l.add_order id size ts) = levelSum l + u32 size := by
  unfold levelSum PriceLevel.add_order
  simp

theorem sum_eraseP_entries (q : List OrderEntry) (pred : OrderEntry → Bool)
    (e : OrderEntry) (h : q.find? pred = some e) :
    ((q.eraseP pred).map OrderEntry.size).sum + e.size =
      (q.map OrderEntry.size).sum := by
  induction q with
  | nil => simp at h
  | cons e0 rest ih =>
    by_cases h0 : pred e0
    · rw [List.find?_cons_of_pos _ h0] at h
      injection h with h
      subst h
      rw [List.eraseP_cons_of_pos h0]
      simp [Nat.add_comm]
    · rw [List.find?_cons_of_neg _ h0] at h
      rw [List.eraseP_cons_of_neg h0]
      simp only [List.map_cons, List.sum_cons]
      have := ih h
      omega

theorem ids_map_modify (q : List OrderEntry) (id : String) (n : Nat) :
    (q.map (fun e2 => if e2.order_id == id then { e2 with size := u32 n }
      else e2)).map OrderEntry.order_id = q.map OrderEntry.order_id := by
  rw [List.map_map]
  refine List.map_congr_left ?_
  intro e _
  by_cases h : e.order_id = id <;> simp [h]

theorem sum_map_modify (q : List OrderEntry) (id : String) (n : Nat)
    (e : OrderEntry) (hN : (q.map OrderEntry.order_id).Nodup)
    (h : q.find? (fun x => x.order_id == id) = some e) :
    ((q.map (fun e2 => if e2.order_id == id then { e2 with size := u32 n }
      else e2)).map OrderEntry.size).sum + e.size =
      (q.map OrderEntry.size).sum + u32 n := by
  induction q with
  | nil => simp at h
  | cons e0 rest ih =>
    rw [List.map_cons, List.nodup_cons] at hN
    by_cases h0 : e0.order_id == id
    · rw [find?_cons_pos' (fun x => x.order_id == id) e0 rest h0] at h
      injection h with h
      subst h
      have hid : e0.order_id = id := by simpa using h0
      have hmapid : rest.map (fun e2 => if e2.order_id == id then
          { e2 with size := u32 n } else e2) = rest := by
        have hcongr : ∀ e2 ∈ rest,
            (if e2.order_id == id then { e2 with size := u32 n } else e2) = e2 := by
          intro e2 hm
          have hne : e2.order_id ≠ id := by
            intro hc
            refine hN.1 ?_
            rw [hid]
            exact hc ▸ List.mem_map.mpr ⟨e2, hm, rfl⟩
          rw [if_neg (by simpa using hne)]
        exact (List.map_congr_left hcongr).trans (List.map_id rest)
      rw [List.map_cons, if_pos h0, hmapid]
      simp
      try omega
    · rw [find?_cons_neg' (fun x => x.order_id == id) e0 rest (by simpa using h0)] at h
      simp only [List.map_cons, if_neg h0, List.sum_cons]
      have := ih hN.2 h
      omega

theorem countP_map_modify (q : List OrderEntry) (id : String) (n : Nat)
    (x : String) :
    (q.map (fun e2 => if e2.order_id == id then { e2 with size := u32 n }
      else e2)).countP (fun e => e.order_id == x) =
      q.countP (fun e => e.order_id == x) := by
  rw [List.countP_map]
  refine List.countP_congr ?_
  intro e _
  by_cases h : e.order_id == id <;> simp [Function.comp, h]

theorem countP_eraseP_entries_ne (q : List OrderEntry) (id x : String)
    (h : x ≠ id) :
    (q.eraseP (fun e => e.order_id == id)).countP (fun e => e.order_id == x) =
      q.countP (fun e => e.order_id == x) := by
  induction q with
  | nil => rfl
  | cons e0 rest ih =>
    by_cases h0 : e0.order_id == id
    · rw [eraseP_cons_pos' (fun e => e.order_id == id) e0 rest h0]
      have hid : e0.order_id = id := by simpa using h0
      rw [countP_cons_neg' (fun e => e.order_id == x) e0 rest (by simp [hid, Ne.symm h])]
    · rw [eraseP_cons_neg' (fun e => e.order_id == id) e0 rest (by simpa using h0)]
      by_cases h1 : e0.order_id == x
      · rw [countP_cons_pos' (fun e => e.order_id == x) e0 _ h1,
          countP_cons_pos' (fun e => e.order_id == x) e0 rest h1, ih]
      · rw [countP_cons_neg' (fun e => e.order_id == x) e0 _ (by simpa using h1),
          countP_cons_neg' (fun e => e.order_id == x) e0 rest (by simpa using h1), ih]

theorem find?_entry_of_countP_pos (q : List OrderEntry) (x : String)
    (h : 0 < q.countP (fun e => e.order_id == x)) :
    ∃ e, q.find? (fun e => e.order_id == x) = some e ∧ e.order_id = x ∧
      e ∈ q := by
  rcases List.countP_pos_iff.mp h with ⟨e0, hm, hp⟩
  have hsome : (q.find? (fun e => e.order_id == x)).isSome := by
    rw [List.find?_isSome]
    exact ⟨e0, hm, hp⟩
  cases hf : q.find? (fun e => e.order_id == x) with
  | none => rw [hf] at hsome; simp at hsome
  | some e =>
    exact ⟨e, rfl, by simpa using List.find?_some hf,
      List.mem_of_find?_eq_some hf⟩

/-! ### PriceLevel operation characterizations -/

theorem modify_order_spec (l : PriceLevel) (id : String) (n : Nat)
    (e : OrderEntry) (h : l.order_queue.find? (fun x => x.order_id == id) = some e) :
    l.modify_order id n = { l with
      total_size := u32add (u32sub l.total_size e.size) n
      order_queue := l.order_queue.map (fun e2 =>
        if e2.order_id == id then { e2 with size := u32 n } else e2) } := by
  unfold PriceLevel.modify_order
  rw [h]

theorem remove_order_spec (l : PriceLevel) (id : String) (e : OrderEntry)
    (h : l.order_queue.find? (fun x => x.order_id == id) = some e) :
    l.remove_order id = { l with
      total_size := u32sub l.total_size e.size
      order_queue := l.order_queue.eraseP (fun e2 => e2.order_id == id) } := by
  unfold PriceLevel.remove_order
  rw [h]

/-! ### Operation equation lemmas and transfer lemmas -/

/-- The ladder transformation of a successful `add_order` on one side:
create the level if absent, then append the entry to it. -/
def addLadder (lt : Rat → Rat → Bool) (lad : Ladder) (p : Rat) (id : String)
    (size ts : Nat) : Ladder :=
  updateLevel
    (if (findLevel lad p).isSome then lad
     else insertLevel lt p (PriceLevel.atPrice p) lad) p
    (fun l => l.add_order id size ts)

theorem add_order_eq_bid (b : OrderBook) (id : String) (p : Rat) (size : Nat)
    (sym : String) (ts : Nat) (hid : findOrder b id = none) :
    b.add_order id OrderSide.BID p size sym ts =
      (true, { b with
        orders_by_id := b.orders_by_id ++
          [(id, { order_id := id, side := OrderSide.BID, price := p
                  size := u32 size, timestamp := ts, symbol := sym })]
        bid_levels := addLadder bidLt b.bid_levels p id size ts }) := by
  have hsome : (findOrder b id).isSome = false := by rw [hid]; rfl
  unfold OrderBook.add_order addLadder
  rw [hsome]
  rfl

theorem add_order_eq_ask (b : OrderBook) (id : String) (p : Rat) (size : Nat)
    (sym : String) (ts : Nat) (hid : findOrder b id = none) :
    b.add_order id OrderSide.ASK p size sym ts =
      (true, { b with
        orders_by_id := b.orders_by_id ++
          [(id, { order_id := id, side := OrderSide.ASK, price := p
                  size := u32 size, timestamp := ts, symbol := sym })]
        ask_levels := addLadder askLt b.ask_levels p id size ts }) := by
  have hsome : (findOrder b id).isSome = false := by rw [hid]; rfl
  unfold OrderBook.add_order addLadder
  rw [hsome]
  rfl

theorem modify_order_eq_bid (b : OrderBook) (id : String) (n : Nat) (o : Order)
    (ho : findOrder b id = some o) (hside : o.side = OrderSide.BID) :
    b.modify_order id n = (true, { b with
      orders_by_id := b.orders_by_id.map (fun kv =>
        if kv.1 == id then (kv.1, { kv.2 with size := u32 n }) else kv)
      bid_levels := updateLevel b.bid_levels o.price
        (fun l => l.modify_order id n) }) := by
  obtain ⟨a1, s1, p1, z1, t1, y1⟩ := o
  have hseq : s1 = OrderSide.BID := hside
  subst hseq
  unfold OrderBook.modify_order
  rw [ho]

theorem modify_order_eq_ask (b : OrderBook) (id : String) (n : Nat) (o : Order)
    (ho : findOrder b id = some o) (hside : o.side = OrderSide.ASK) :
    b.modify_order id n = (true, { b with
      orders_by_id := b.orders_by_id.map (fun kv =>
        if kv.1 == id then (kv.1, { kv.2 with size := u32 n }) else kv)
      ask_levels := updateLevel b.ask_levels o.price
        (fun l => l.modify_order id n) }) := by
  obtain ⟨a1, s1, p1, z1, t1, y1⟩ := o
  have hseq : s1 = OrderSide.ASK := hside
  subst hseq
  unfold OrderBook.modify_order
  rw [ho]

theorem cancel_order_eq_bid_erase (b : OrderBook) (id : String) (o : Order)
    (l : PriceLevel) (ho : findOrder b id = some o)
    (hside : o.side = OrderSide.BID)
    (hl : findLevel b.bid_levels o.price = some l)
    (he : (l.remove_order id).isEmptyLevel = true) :
    b.cancel_order id = (true, { b with
      orders_by_id := b.orders_by_id.eraseP (fun kv => kv.1 == id)
      bid_levels := eraseLevel b.bid_levels o.price }) := by
  obtain ⟨a1, s1, p1, z1, t1, y1⟩ := o
  have hseq : s1 = OrderSide.BID := hside
  subst hseq
  unfold OrderBook.cancel_order
  simp only [ho, hl, he]
  rfl

theorem cancel_order_eq_bid_keep (b : OrderBook) (id : String) (o : Order)
    (l : PriceLevel) (ho : findOrder b id = some o)
    (hside : o.side = OrderSide.BID)
    (hl : findLevel b.bid_levels o.price = some l)
    (he : (l.remove_order id).isEmptyLevel = false) :
    b.cancel_order id = (true, { b with
      orders_by_id := b.orders_by_id.eraseP (fun kv => kv.1 == id)
      bid_levels := updateLevel b.bid_levels o.price
        (fun _ => l.remove_order id) }) := by
  obtain ⟨a1, s1, p1, z1, t1, y1⟩ := o
  have hseq : s1 = OrderSide.BID := hside
  subst hseq
  unfold OrderBook.cancel_order
  simp only [ho, hl, he]
  rfl

theorem cancel_order_eq_ask_erase (b : OrderBook) (id : String) (o : Order)
    (l : PriceLevel) (ho : findOrder b id = some o)
    (hside : o.side = OrderSide.ASK)
    (hl : findLevel b.ask_levels o.price = some l)
    (he : (l.remove_order id).isEmptyLevel = true) :
    b.cancel_order id = (true, { b with
      orders_by_id := b.orders_by_id.eraseP (fun kv => kv.1 == id)
      ask_levels := eraseLevel b.ask_levels o.price }) := by
  obtain ⟨a1, s1, p1, z1, t1, y1⟩ := o
  have hseq : s1 = OrderSide.ASK := hside
  subst hseq
  unfold OrderBook.cancel_order
  simp only [ho, hl, he]
  rfl

theorem cancel_order_eq_ask_keep (b : OrderBook) (id : String) (o : Order)
    (l : PriceLevel) (ho : findOrder b id = some o)
    (hside : o.side = OrderSide.ASK)
    (hl : findLevel b.ask_levels o.price = some l)
    (he : (l.remove_order id).isEmptyLevel = false) :
    b.cancel_order id = (true, { b with
      orders_by_id := b.orders_by_id.eraseP (fun kv => kv.1 == id)
      ask_levels := updateLevel b.ask_levels o.price
        (fun _ => l.remove_order id) }) := by
  obtain ⟨a1, s1, p1, z1, t1, y1⟩ := o
  have hseq : s1 = OrderSide.ASK := hside
  subst hseq
  unfold OrderBook.cancel_order
  simp only [ho, hl, he]
  rfl

theorem cancel_order_eq_unknown (b : OrderBook) (id : String) (o : Order)
    (ho : findOrder b id = some o) (hside : o.side = OrderSide.UNKNOWN) :
    b.cancel_order id = (true, { b with
      orders_by_id := b.orders_by_id.eraseP (fun kv => kv.1 == id) }) := by
  obtain ⟨a1, s1, p1, z1, t1, y1⟩ := o
  have hseq : s1 = OrderSide.UNKNOWN := hside
  subst hseq
  unfold OrderBook.cancel_order
  simp only [ho]

theorem entryMatches_transfer (b b' : OrderBook) (s : OrderSide) (p : Rat)
    (e : OrderEntry) (hm : entryMatches b s p e)
    (hfo : findOrder b' e.order_id = findOrder b e.order_id) :
    entryMatches b' s p e := by
  unfold entryMatches at *
  rw [hfo]
  exact hm

theorem entryMatches_id_ne (b : OrderBook) (s : OrderSide) (p : Rat)
    (e : OrderEntry) (hm : entryMatches b s p e) (id : String)
    (hid : findOrder b id = none) : e.order_id ≠ id := by
  intro hc
  unfold entryMatches at hm
  rw [hc, hid] at hm
  simp at hm

theorem LevelWF_transfer (b b' : OrderBook) (s : OrderSide) (p : Rat)
    (l : PriceLevel) (hw : LevelWF b s p l)
    (hfo : ∀ e ∈ l.order_queue,
      findOrder b' e.order_id = findOrder b e.order_id) :
    LevelWF b' s p l := by
  obtain ⟨h1, h2, h3, h4, h5, h6⟩ := hw
  refine ⟨h1, h2, h3, h4, h5, ?_⟩
  intro e he
  obtain ⟨hp, hlt, hmatch⟩ := h6 e he
  exact ⟨hp, hlt, entryMatches_transfer b b' s p e hmatch (hfo e he)⟩

theorem add_ladder_spec (lt : Rat → Rat → Bool)
    (htrans : ∀ a b c, lt a b = true → lt b c = true → lt a c = true)
    (htot : ∀ a b : Rat, a ≠ b → lt a b = true ∨ lt b a = true)
    (hirr : ∀ a, lt a a = false)
    (lad : Ladder) (p : Rat) (id : String) (size ts : Nat)
    (hs : ladderSorted lt lad) :
    ladderSorted lt (addLadder lt lad p id size ts) ∧
    findLevel (addLadder lt lad p id size ts) p =
      some (((findLevel lad p).getD (PriceLevel.atPrice p)).add_order id size ts) ∧
    (∀ q, q ≠ p →
      findLevel (addLadder lt lad p id size ts) q = findLevel lad q) ∧
    (∀ kv ∈ addLadder lt lad p id size ts,
      kv = (p, ((findLevel lad p).getD (PriceLevel.atPrice p)).add_order id size ts) ∨
      (kv ∈ lad ∧ kv.1 ≠ p)) := by
  have hN := ladder_keys_nodup lt hirr lad hs
  cases hfound : findLevel lad p with
  | some l =>
    have hisSome : (findLevel lad p).isSome = true := by rw [hfound]; rfl
    have heq : addLadder lt lad p id size ts =
        updateLevel lad p (fun l => l.add_order id size ts) := by
      unfold addLadder
      rw [hisSome]
      rfl
    rw [heq]
    refine ⟨updateLevel_sorted lt lad p _ hs, ?_, ?_, ?_⟩
    · exact findLevel_updateLevel_self lad p _ l hfound
    · intro q hq
      exact findLevel_updateLevel_ne lad p q _ hq
    · intro kv hkv
      rcases mem_updateLevel lad p _ kv hkv with ⟨hm, hne⟩ | ⟨l', hm, hkveq⟩
      · exact Or.inr ⟨hm, hne⟩
      · left
        have : findLevel lad p = some l' := findLevel_of_mem lad p l' hN hm
        rw [hfound] at this
        injection this with this
        rw [hkveq, this]
        rfl
  | none =>
    have hisSome : (findLevel lad p).isSome = false := by rw [hfound]; rfl
    have hfresh := (findLevel_eq_none_iff lad p).mp hfound
    have heq : addLadder lt lad p id size ts =
        updateLevel (insertLevel lt p (PriceLevel.atPrice p) lad) p
          (fun l => l.add_order id size ts) := by
      unfold addLadder
      rw [hisSome]
      rfl
    have hfins : findLevel (insertLevel lt p (PriceLevel.atPrice p) lad) p =
        some (PriceLevel.atPrice p) :=
      findLevel_insertLevel_self lt p _ lad hfresh
    rw [heq]
    refine ⟨?_, ?_, ?_, ?_⟩
    · exact updateLevel_sorted lt _ p _
        (insertLevel_sorted lt htrans htot p _ lad hs hfresh)
    · rw [findLevel_updateLevel_self _ p _ _ hfins]
      rfl
    · intro q hq
      rw [findLevel_updateLevel_ne _ p q _ hq]
      exact findLevel_insertLevel_ne lt p q _ lad hq
    · intro kv hkv
      rcases mem_updateLevel _ p _ kv hkv with ⟨hm, hne⟩ | ⟨l', hm, hkveq⟩
      · rcases (mem_insertLevel lt p _ lad kv).mp hm with rfl | hm2
        · exact absurd rfl hne
        · exact Or.inr ⟨hm2, hne⟩
      · rcases (mem_insertLevel lt p _ lad (p, l')).mp hm with heq2 | hm2
        · left
          injection heq2 with _ heq2
          rw [hkveq, heq2]
          rfl
        · exact absurd rfl (hfresh (p, l') hm2)

theorem countP_append_single (q : List OrderEntry) (e : OrderEntry)
    (x : String) :
    (q ++ [e]).countP (fun e2 => e2.order_id == x) =
      q.countP (fun e2 => e2.order_id == x) +
        (if e.order_id == x then 1 else 0) := by
  rw [List.countP_append]
  congr 1
  by_cases h : e.order_id == x <;> simp [List.countP_cons, h]

theorem wf_add_bid (b : OrderBook) (id : String) (p : Rat) (size : Nat)
    (sym : String) (ts : Nat) (hwf : WF b) (hid : findOrder b id = none)
    (hpos : 0 < size) (hszlt : size < U32MOD)
    (hsum : sumsBounded (b.add_order id OrderSide.BID p size sym ts).2) :
    WF (b.add_order id OrderSide.BID p size sym ts).2 := by
  obtain ⟨hkeysN, horders, hbidS, haskS, hbidL, haskL⟩ := hwf
  obtain ⟨hlad_sorted, hlad_self, hlad_ne, hlad_mem⟩ :=
    add_ladder_spec bidLt bidLt_trans bidLt_total bidLt_irrefl
      b.bid_levels p id size ts hbidS
  have hidkeys : ∀ kv ∈ b.orders_by_id, kv.1 ≠ id := findOrder_none_keys b id hid
  rw [add_order_eq_bid b id p size sym ts hid] at hsum ⊢
  -- facts about the pre-existing or fresh level at p
  have hl0_facts :
      ((findLevel b.bid_levels p).getD (PriceLevel.atPrice p) =
          PriceLevel.atPrice p ∧ findLevel b.bid_levels p = none) ∨
      (findLevel b.bid_levels p =
          some ((findLevel b.bid_levels p).getD (PriceLevel.atPrice p)) ∧
        LevelWF b OrderSide.BID p
          ((findLevel b.bid_levels p).getD (PriceLevel.atPrice p))) := by
    cases hf : findLevel b.bid_levels p with
    | none => exact Or.inl ⟨rfl, rfl⟩
    | some l1 =>
      exact Or.inr ⟨rfl, hbidL (p, l1) (findLevel_mem _ _ _ hf)⟩
  set o : Order := { order_id := id, side := OrderSide.BID, price := p
                     size := u32 size, timestamp := ts, symbol := sym } with hodef
  set l0 : PriceLevel :=
    (findLevel b.bid_levels p).getD (PriceLevel.atPrice p) with hl0def
  set b' : OrderBook := { b with
    orders_by_id := b.orders_by_id ++ [(id, o)]
    bid_levels := addLadder bidLt b.bid_levels p id size ts } with hb'def
  have hl0_ids : ∀ e ∈ l0.order_queue, e.order_id ≠ id := by
    intro e he
    rcases hl0_facts with ⟨hl0eq, _⟩ | ⟨_, hlw⟩
    · rw [hl0eq] at he
      simp [PriceLevel.atPrice] at he
    · exact entryMatches_id_ne b _ _ e (hlw.2.2.2.2.2 e he).2.2 id hid
  have hfo_pres : ∀ x, x ≠ id → findOrder b' x = findOrder b x := by
    intro x hx
    exact findOrder_append_ne b id x o hx
  have hfo_new : findOrder b' id = some o := findOrder_append b id o hid
  -- transfer of untouched levels
  have htransfer : ∀ s q l, LevelWF b s q l → LevelWF b' s q l := by
    intro s q l hlw
    refine LevelWF_transfer b b' s q l hlw ?_
    intro e he
    exact hfo_pres e.order_id
      (entryMatches_id_ne b s q e (hlw.2.2.2.2.2 e he).2.2 id hid)
  -- the new/extended level at p is well-formed in b'
  have hnewlvl : LevelWF b' OrderSide.BID p (l0.add_order id size ts) := by
    have hqueue : (l0.add_order id size ts).order_queue =
        l0.order_queue ++ [⟨id, u32 size, ts⟩] := rfl
    have hsum_lt : levelSum (l0.add_order id size ts) < U32MOD := by
      refine hsum.1 (p, l0.add_order id size ts) ?_
      exact findLevel_mem _ _ _ hlad_self
    have hsum_eq : levelSum (l0.add_order id size ts) = levelSum l0 + size := by
      rw [levelSum_add_order, u32_eq_of_lt hszlt]
    have hl0_tot : l0.total_size = levelSum l0 := by
      rcases hl0_facts with ⟨hl0eq, _⟩ | ⟨_, hlw⟩
      · rw [hl0eq]
        rfl
      · exact hlw.2.2.1
    refine ⟨?_, ?_, ?_, hsum_lt, ?_, ?_⟩
    · show l0.price = p
      rcases hl0_facts with ⟨hl0eq, _⟩ | ⟨_, hlw⟩
      · rw [hl0eq]
        rfl
      · exact hlw.1
    · rw [hqueue]
      simp
    · show u32add l0.total_size size = levelSum (l0.add_order id size ts)
      rw [hl0_tot, hsum_eq]
      exact u32add_eq_of_lt (by omega : levelSum l0 + size < U32MOD)
    · rw [hqueue, List.map_append]
      refine List.Nodup.append ?_ (by simp) ?_
      · rcases hl0_facts with ⟨hl0eq, _⟩ | ⟨_, hlw⟩
        · rw [hl0eq]
          simp [PriceLevel.atPrice]
        · exact hlw.2.2.2.2.1
      · intro a ha hb
        simp at hb
        subst hb
        rcases List.mem_map.mp ha with ⟨e, he, heq⟩
        exact hl0_ids e he heq
    · intro e he
      rw [hqueue] at he
      rcases List.mem_append.mp he with hold | hnew
      · rcases hl0_facts with ⟨hl0eq, _⟩ | ⟨_, hlw⟩
        · rw [hl0eq] at hold
          simp [PriceLevel.atPrice] at hold
        · obtain ⟨h1, h2, h3⟩ := hlw.2.2.2.2.2 e hold
          exact ⟨h1, h2, entryMatches_transfer b b' _ _ e h3
            (hfo_pres e.order_id (hl0_ids e hold))⟩
      · simp at hnew
        subst hnew
        refine ⟨?_, ?_, ?_⟩
        · show 0 < u32 size
          rw [u32_eq_of_lt hszlt]
          exact hpos
        · show u32 size < U32MOD
          exact Nat.mod_lt _ (by norm_num [U32MOD])
        · unfold entryMatches
          show (findOrder b' id).map _ = _
          rw [hfo_new]
          rfl
  -- assemble WF of the new book
  refine ⟨?_, ?_, hlad_sorted, haskS, ?_, ?_⟩
  · show ((b.orders_by_id ++ [(id, o)]).map Prod.fst).Nodup
    rw [List.map_append]
    refine List.Nodup.append hkeysN (by simp) ?_
    intro a ha hb
    simp at hb
    subst hb
    rcases List.mem_map.mp ha with ⟨kv, hkv, hkveq⟩
    exact hidkeys kv hkv hkveq
  · intro kv hkv
    rcases List.mem_append.mp hkv with hold | hnew
    · obtain ⟨hkid, hkside, hplaced⟩ := horders kv hold
      refine ⟨hkid, hkside, ?_⟩
      unfold orderPlaced at hplaced ⊢
      cases hcside : kv.2.side with
      | UNKNOWN => exact absurd hcside hkside
      | ASK =>
        rw [hcside] at hplaced
        exact hplaced
      | BID =>
        rw [hcside] at hplaced
        simp only [ladderOf] at hplaced
        show ((findLevel (addLadder bidLt b.bid_levels p id size ts)
          kv.2.price).map (fun l =>
            l.order_queue.countP (fun e => e.order_id == kv.1))) = some 1
        by_cases hq : kv.2.price = p
        · rw [hq] at hplaced ⊢
          rw [hlad_self]
          rcases hl0_facts with ⟨_, hnone⟩ | ⟨hsome2, _⟩
          · rw [hnone] at hplaced
            simp at hplaced
          · rw [hsome2] at hplaced
            simp only [Option.map_some'] at hplaced ⊢
            injection hplaced with hplaced
            have hkvne : kv.1 ≠ id := hidkeys kv hold
            rw [show (l0.add_order id size ts).order_queue =
              l0.order_queue ++ [⟨id, u32 size, ts⟩] from rfl]
            rw [countP_append_single]
            rw [if_neg (by simpa using Ne.symm hkvne)]
            rw [hplaced]
        · rw [hlad_ne kv.2.price hq]
          exact hplaced
    · simp at hnew
      subst hnew
      refine ⟨rfl, by simp [hodef], ?_⟩
      unfold orderPlaced
      show ((findLevel (addLadder bidLt b.bid_levels p id size ts) p).map
        (fun l => l.order_queue.countP (fun e => e.order_id == id))) = some 1
      rw [hlad_self]
      simp only [Option.map_some']
      rw [show (l0.add_order id size ts).order_queue =
        l0.order_queue ++ [⟨id, u32 size, ts⟩] from rfl]
      rw [countP_append_single]
      rw [if_pos (by simp)]
      rw [List.countP_eq_zero.mpr ?_]
      · intro e he
        simpa using hl0_ids e he
  · intro kv hkv
    rcases hlad_mem kv hkv with heq | ⟨hm, hne⟩
    · rw [heq]
      exact hnewlvl
    · exact htransfer OrderSide.BID kv.1 kv.2 (hbidL kv hm)
  · intro kv hkv
    exact htransfer OrderSide.ASK kv.1 kv.2 (haskL kv hkv)

theorem wf_add_ask (b : OrderBook) (id : String) (p : Rat) (size : Nat)
    (sym : String) (ts : Nat) (hwf : WF b) (hid : findOrder b id = none)
    (hpos : 0 < size) (hszlt : size < U32MOD)
    (hsum : sumsBounded (b.add_order id OrderSide.ASK p size sym ts).2) :
    WF (b.add_order id OrderSide.ASK p size sym ts).2 := by
  obtain ⟨hkeysN, horders, hbidS, haskS, hbidL, haskL⟩ := hwf
  obtain ⟨hlad_sorted, hlad_self, hlad_ne, hlad_mem⟩ :=
    add_ladder_spec askLt askLt_trans askLt_total askLt_irrefl
      b.ask_levels p id size ts haskS
  have hidkeys : ∀ kv ∈ b.orders_by_id, kv.1 ≠ id := findOrder_none_keys b id hid
  rw [add_order_eq_ask b id p size sym ts hid] at hsum ⊢
  -- facts about the pre-existing or fresh level at p
  have hl0_facts :
      ((findLevel b.ask_levels p).getD (PriceLevel.atPrice p) =
          PriceLevel.atPrice p ∧ findLevel b.ask_levels p = none) ∨
      (findLevel b.ask_levels p =
          some ((findLevel b.ask_levels p).getD (PriceLevel.atPrice p)) ∧
        LevelWF b OrderSide.ASK p
          ((findLevel b.ask_levels p).getD (PriceLevel.atPrice p))) := by
    cases hf : findLevel b.ask_levels p with
    | none => exact Or.inl ⟨rfl, rfl⟩
    | some l1 =>
      exact Or.inr ⟨rfl, haskL (p, l1) (findLevel_mem _ _ _ hf)⟩
  set o : Order := { order_id := id, side := OrderSide.ASK, price := p
                     size := u32 size, timestamp := ts, symbol := sym } with hodef
  set l0 : PriceLevel :=
    (findLevel b.ask_levels p).getD (PriceLevel.atPrice p) with hl0def
  set b' : OrderBook := { b with
    orders_by_id := b.orders_by_id ++ [(id, o)]
    ask_levels := addLadder askLt b.ask_levels p id size ts } with hb'def
  have hl0_ids : ∀ e ∈ l0.order_queue, e.order_id ≠ id := by
    intro e he
    rcases hl0_facts with ⟨hl0eq, _⟩ | ⟨_, hlw⟩
    · rw [hl0eq] at he
      simp [PriceLevel.atPrice] at he
    · exact entryMatches_id_ne b _ _ e (hlw.2.2.2.2.2 e he).2.2 id hid
  have hfo_pres : ∀ x, x ≠ id → findOrder b' x = findOrder b x := by
    intro x hx
    exact findOrder_append_ne b id x o hx
  have hfo_new : findOrder b' id = some o := findOrder_append b id o hid
  -- transfer of untouched levels
  have htransfer : ∀ s q l, LevelWF b s q l → LevelWF b' s q l := by
    intro s q l hlw
    refine LevelWF_transfer b b' s q l hlw ?_
    intro e he
    exact hfo_pres e.order_id
      (entryMatches_id_ne b s q e (hlw.2.2.2.2.2 e he).2.2 id hid)
  -- the new/extended level at p is well-formed in b'
  have hnewlvl : LevelWF b' OrderSide.ASK p (l0.add_order id size ts) := by
    have hqueue : (l0.add_order id size ts).order_queue =
        l0.order_queue ++ [⟨id, u32 size, ts⟩] := rfl
    have hsum_lt : levelSum (l0.add_order id size ts) < U32MOD := by
      refine hsum.2 (p, l0.add_order id size ts) ?_
      exact findLevel_mem _ _ _ hlad_self
    have hsum_eq : levelSum (l0.add_order id size ts) = levelSum l0 + size := by
      rw [levelSum_add_order, u32_eq_of_lt hszlt]
    have hl0_tot : l0.total_size = levelSum l0 := by
      rcases hl0_facts with ⟨hl0eq, _⟩ | ⟨_, hlw⟩
      · rw [hl0eq]
        rfl
      · exact hlw.2.2.1
    refine ⟨?_, ?_, ?_, hsum_lt, ?_, ?_⟩
    · show l0.price = p
      rcases hl0_facts with ⟨hl0eq, _⟩ | ⟨_, hlw⟩
      · rw [hl0eq]
        rfl
      · exact hlw.1
    · rw [hqueue]
      simp
    · show u32add l0.total_size size = levelSum (l0.add_order id size ts)
      rw [hl0_tot, hsum_eq]
      exact u32add_eq_of_lt (by omega : levelSum l0 + size < U32MOD)
    · rw [hqueue, List.map_append]
      refine List.Nodup.append ?_ (by simp) ?_
      · rcases hl0_facts with ⟨hl0eq, _⟩ | ⟨_, hlw⟩
        · rw [hl0eq]
          simp [PriceLevel.atPrice]
        · exact hlw.2.2.2.2.1
      · intro a ha hb
        simp at hb
        subst hb
        rcases List.mem_map.mp ha with ⟨e, he, heq⟩
        exact hl0_ids e he heq
    · intro e he
      rw [hqueue] at he
      rcases List.mem_append.mp he with hold | hnew
      · rcases hl0_facts with ⟨hl0eq, _⟩ | ⟨_, hlw⟩
        · rw [hl0eq] at hold
          simp [PriceLevel.atPrice] at hold
        · obtain ⟨h1, h2, h3⟩ := hlw.2.2.2.2.2 e hold
          exact ⟨h1, h2, entryMatches_transfer b b' _ _ e h3
            (hfo_pres e.order_id (hl0_ids e hold))⟩
      · simp at hnew
        subst hnew
        refine ⟨?_, ?_, ?_⟩
        · show 0 < u32 size
          rw [u32_eq_of_lt hszlt]
          exact hpos
        · show u32 size < U32MOD
          exact Nat.mod_lt _ (by norm_num [U32MOD])
        · unfold entryMatches
          show (findOrder b' id).map _ = _
          rw [hfo_new]
          rfl
  -- assemble WF of the new book
  refine ⟨?_, ?_, hbidS, hlad_sorted, ?_, ?_⟩
  · show ((b.orders_by_id ++ [(id, o)]).map Prod.fst).Nodup
    rw [List.map_append]
    refine List.Nodup.append hkeysN (by simp) ?_
    intro a ha hb
    simp at hb
    subst hb
    rcases List.mem_map.mp ha with ⟨kv, hkv, hkveq⟩
    exact hidkeys kv hkv hkveq
  · intro kv hkv
    rcases List.mem_append.mp hkv with hold | hnew
    · obtain ⟨hkid, hkside, hplaced⟩ := horders kv hold
      refine ⟨hkid, hkside, ?_⟩
      unfold orderPlaced at hplaced ⊢
      cases hcside : kv.2.side with
      | UNKNOWN => exact absurd hcside hkside
      | BID =>
        rw [hcside] at hplaced
        exact hplaced
      | ASK =>
        rw [hcside] at hplaced
        simp only [ladderOf] at hplaced
        show ((findLevel (addLadder askLt b.ask_levels p id size ts)
          kv.2.price).map (fun l =>
            l.order_queue.countP (fun e => e.order_id == kv.1))) = some 1
        by_cases hq : kv.2.price = p
        · rw [hq] at hplaced ⊢
          rw [hlad_self]
          rcases hl0_facts with ⟨_, hnone⟩ | ⟨hsome2, _⟩
          · rw [hnone] at hplaced
            simp at hplaced
          · rw [hsome2] at hplaced
            simp only [Option.map_some'] at hplaced ⊢
            injection hplaced with hplaced
            have hkvne : kv.1 ≠ id := hidkeys kv hold
            rw [show (l0.add_order id size ts).order_queue =
              l0.order_queue ++ [⟨id, u32 size, ts⟩] from rfl]
            rw [countP_append_single]
            rw [if_neg (by simpa using Ne.symm hkvne)]
            rw [hplaced]
        · rw [hlad_ne kv.2.price hq]
          exact hplaced
    · simp at hnew
      subst hnew
      refine ⟨rfl, by simp [hodef], ?_⟩
      unfold orderPlaced
      show ((findLevel (addLadder askLt b.ask_levels p id size ts) p).map
        (fun l => l.order_queue.countP (fun e => e.order_id == id))) = some 1
      rw [hlad_self]
      simp only [Option.map_some']
      rw [show (l0.add_order id size ts).order_queue =
        l0.order_queue ++ [⟨id, u32 size, ts⟩] from rfl]
      rw [countP_append_single]
      rw [if_pos (by simp)]
      rw [List.countP_eq_zero.mpr ?_]
      · intro e he
        simpa using hl0_ids e he
  · intro kv hkv
    exact htransfer OrderSide.BID kv.1 kv.2 (hbidL kv hkv)
  · intro kv hkv
    rcases hlad_mem kv hkv with heq | ⟨hm, hne⟩
    · rw [heq]
      exact hnewlvl
    · exact htransfer OrderSide.ASK kv.1 kv.2 (haskL kv hm)

theorem keys_mapUpdate (l : List (String × Order)) (id : String)
    (f : Order → Order) :
    (l.map (fun kv => if kv.1 == id then (kv.1, f kv.2) else kv)).map Prod.fst =
      l.map Prod.fst := by
  rw [List.map_map]
  refine List.map_congr_left ?_
  intro kv _
  by_cases h : kv.1 = id <;> simp [h]

theorem assoc_nodup_eq {l : List (String × Order)}
    (hN : (l.map Prod.fst).Nodup) {kv1 kv2 : String × Order}
    (h1 : kv1 ∈ l) (h2 : kv2 ∈ l) (hk : kv1.1 = kv2.1) : kv1 = kv2 := by
  induction l with
  | nil => simp at h1
  | cons a rest ih =>
    rw [List.map_cons, List.nodup_cons] at hN
    rcases List.mem_cons.mp h1 with rfl | hm1
    · rcases List.mem_cons.mp h2 with rfl | hm2
      · rfl
      · exact absurd (hk ▸ List.mem_map.mpr ⟨kv2, hm2, rfl⟩) hN.1
    · rcases List.mem_cons.mp h2 with rfl | hm2
      · exact absurd (hk ▸ List.mem_map.mpr ⟨kv1, hm1, rfl⟩) hN.1
      · exact ih hN.2 hm1 hm2

theorem findOrder_mem_unique (b : OrderBook) (id : String) (o : Order)
    (hN : (b.orders_by_id.map Prod.fst).Nodup) (ho : findOrder b id = some o) :
    ∀ kv ∈ b.orders_by_id, kv.1 = id → kv.2 = o := by
  intro kv hm hk
  have hmem := findOrder_some_mem b id o ho
  have := assoc_nodup_eq hN hm hmem (by rw [hk])
  rw [this]

theorem level_entry_id_ne (b : OrderBook) (s : OrderSide) (q : Rat)
    (e : OrderEntry) (hm : entryMatches b s q e) (id : String) (o : Order)
    (ho : findOrder b id = some o)
    (hdiff : s ≠ o.side ∨ q ≠ o.price) : e.order_id ≠ id := by
  intro hc
  unfold entryMatches at hm
  rw [hc, ho] at hm
  simp only [Option.map_some', Option.some.injEq, Prod.mk.injEq] at hm
  rcases hdiff with hd | hd
  · exact hd hm.1.symm
  · exact hd hm.2.symm

theorem wf_modify_bid (b : OrderBook) (id : String) (n : Nat) (o : Order)
    (hwf : WF b) (ho : findOrder b id = some o)
    (hside : o.side = OrderSide.BID) (hpos : 0 < n) (hnlt : n < U32MOD)
    (hsum : sumsBounded (b.modify_order id n).2) :
    WF (b.modify_order id n).2 := by
  obtain ⟨hkeysN, horders, hbidS, haskS, hbidL, haskL⟩ := hwf
  rw [modify_order_eq_bid b id n o ho hside] at hsum ⊢
  have hplaced0 := (horders (id, o) (findOrder_some_mem b id o ho)).2.2
  unfold orderPlaced at hplaced0
  rw [hside] at hplaced0
  simp only [ladderOf] at hplaced0
  cases hfl : findLevel b.bid_levels o.price with
  | none =>
    rw [hfl] at hplaced0
    simp at hplaced0
  | some l =>
    rw [hfl] at hplaced0
    simp only [Option.map_some'] at hplaced0
    injection hplaced0 with hcount
    have hlw := hbidL (o.price, l) (findLevel_mem _ _ _ hfl)
    obtain ⟨e, hfind, heid, hemem⟩ :=
      find?_entry_of_countP_pos l.order_queue id (by omega)
    have hlspec := modify_order_spec l id n e hfind
    set o' : Order := { o with size := u32 n } with hodef
    set b' : OrderBook := { b with
      orders_by_id := b.orders_by_id.map (fun kv =>
        if kv.1 == id then (kv.1, { kv.2 with size := u32 n }) else kv)
      bid_levels := updateLevel b.bid_levels o.price
        (fun l => l.modify_order id n) } with hb'def
    have hfo_pres : ∀ x, x ≠ id → findOrder b' x = findOrder b x := by
      intro x hx
      exact findOrder_mapUpdate_ne b id x
        (fun o2 => { o2 with size := u32 n }) hx
    have hfo_self : findOrder b' id = some o' := by
      have := findOrder_mapUpdate_self b id o
        (fun o2 => { o2 with size := u32 n }) ho
      exact this
    -- entries of untouched levels never carry id
    have huntouched : ∀ s q l2, LevelWF b s q l2 →
        (s ≠ OrderSide.BID ∨ q ≠ o.price) → LevelWF b' s q l2 := by
      intro s q l2 hlw2 hdiff
      refine LevelWF_transfer b b' s q l2 hlw2 ?_
      intro e2 he2
      refine hfo_pres e2.order_id ?_
      refine level_entry_id_ne b s q e2 (hlw2.2.2.2.2.2 e2 he2).2.2 id o ho ?_
      rcases hdiff with hd | hd
      · exact Or.inl (by rw [hside]; exact hd)
      · exact Or.inr hd
    -- the modified level is well-formed
    have hfl' : findLevel (updateLevel b.bid_levels o.price
        (fun l => l.modify_order id n)) o.price = some (l.modify_order id n) :=
      findLevel_updateLevel_self b.bid_levels o.price _ l hfl
    have hnewlvl : LevelWF b' OrderSide.BID o.price (l.modify_order id n) := by
      have hesz : e.size ≤ levelSum l := entry_size_le_levelSum l e hemem
      have hsum_lt' : levelSum (l.modify_order id n) < U32MOD := by
        refine hsum.1 (o.price, l.modify_order id n) ?_
        exact findLevel_mem _ _ _ hfl'
      have hsum_shift : levelSum (l.modify_order id n) + e.size =
          levelSum l + n := by
        have := sum_map_modify l.order_queue id n e hlw.2.2.2.2.1 hfind
        rw [hlspec]
        show ((l.order_queue.map _).map OrderEntry.size).sum + e.size = _
        rw [this, u32_eq_of_lt hnlt]
        rfl
      refine ⟨?_, ?_, ?_, hsum_lt', ?_, ?_⟩
      · rw [hlspec]
        exact hlw.1
      · rw [hlspec]
        intro hc
        have := congrArg List.length hc
        simp at this
        exact hlw.2.1 this
      · rw [hlspec]
        show u32add (u32sub l.total_size e.size) n = _
        rw [hlw.2.2.1]
        rw [u32sub_eq_of_le hesz hlw.2.2.2.1]
        have : levelSum (l.modify_order id n) = levelSum l - e.size + n := by
          omega
        rw [hlspec] at this
        rw [u32add_eq_of_lt (by omega)]
        exact this.symm
      · rw [hlspec]
        show ((l.order_queue.map _).map OrderEntry.order_id).Nodup
        rw [ids_map_modify]
        exact hlw.2.2.2.2.1
      · rw [hlspec]
        intro e2 he2
        rcases List.mem_map.mp he2 with ⟨e0, he0, he0eq⟩
        obtain ⟨hp0, hlt0, hmatch0⟩ := hlw.2.2.2.2.2 e0 he0
        by_cases hcase : e0.order_id == id
        · rw [if_pos hcase] at he0eq
          subst he0eq
          refine ⟨?_, ?_, ?_⟩
          · show 0 < u32 n
            rw [u32_eq_of_lt hnlt]
            exact hpos
          · show u32 n < U32MOD
            exact Nat.mod_lt _ (by norm_num [U32MOD])
          · unfold entryMatches
            show (findOrder b' e0.order_id).map _ = _
            have he0id : e0.order_id = id := by simpa using hcase
            rw [he0id, hfo_self]
            show some (o'.side, o'.price) = some (OrderSide.BID, o.price)
            rw [hodef]
            simp [hside]
        · rw [if_neg hcase] at he0eq
          subst he0eq
          refine ⟨hp0, hlt0, ?_⟩
          refine entryMatches_transfer b b' _ _ e0 hmatch0 ?_
          exact hfo_pres e0.order_id (by simpa using hcase)
    -- the rewritten index entry is correctly placed
    have hplace' : orderPlaced b' id o' := by
      unfold orderPlaced
      have hs' : o'.side = OrderSide.BID := by rw [hodef]; exact hside
      have hp' : o'.price = o.price := by rw [hodef]
      rw [hs', hp']
      show ((findLevel (updateLevel b.bid_levels o.price
        (fun l => l.modify_order id n)) o.price).map (fun l2 =>
          l2.order_queue.countP (fun e2 => e2.order_id == id))) = some 1
      rw [hfl']
      simp only [Option.map_some']
      rw [hlspec]
      show some ((l.order_queue.map _).countP _) = some 1
      rw [countP_map_modify, hcount]
    -- assemble
    refine ⟨?_, ?_, ?_, haskS, ?_, ?_⟩
    · show ((b.orders_by_id.map (fun kv => if kv.1 == id then
          (kv.1, { kv.2 with size := u32 n }) else kv)).map Prod.fst).Nodup
      rw [keys_mapUpdate b.orders_by_id id (fun o2 => { o2 with size := u32 n })]
      exact hkeysN
    · intro kv hkv
      rcases List.mem_map.mp hkv with ⟨kv0, hm0, hkveq⟩
      by_cases hcase : kv0.1 == id
      · rw [if_pos hcase] at hkveq
        have hk0 : kv0.1 = id := by simpa using hcase
        have hv0 : kv0.2 = o := findOrder_mem_unique b id o hkeysN ho kv0 hm0 hk0
        subst hkveq
        refine ⟨?_, ?_, ?_⟩
        · show kv0.2.order_id = kv0.1
          exact (horders kv0 hm0).1
        · show kv0.2.side ≠ OrderSide.UNKNOWN
          exact (horders kv0 hm0).2.1
        · show orderPlaced b' kv0.1 { kv0.2 with size := u32 n }
          rw [hk0, hv0]
          exact hplace'
      · rw [if_neg hcase] at hkveq
        subst hkveq
        obtain ⟨h1, h2, h3⟩ := horders kv0 hm0
        refine ⟨h1, h2, ?_⟩
        unfold orderPlaced at h3 ⊢
        cases hcs : kv0.2.side with
        | UNKNOWN => exact absurd hcs h2
        | ASK =>
          rw [hcs] at h3
          exact h3
        | BID =>
          rw [hcs] at h3
          simp only [ladderOf] at h3
          show ((findLevel (updateLevel b.bid_levels o.price
            (fun l => l.modify_order id n)) kv0.2.price).map (fun l2 =>
              l2.order_queue.countP (fun e2 => e2.order_id == kv0.1))) = some 1
          by_cases hq : kv0.2.price = o.price
          · rw [hq] at h3 ⊢
            rw [hfl']
            rw [hfl] at h3
            simp only [Option.map_some'] at h3 ⊢
            injection h3 with h3
            rw [hlspec]
            show some ((l.order_queue.map _).countP _) = some 1
            rw [countP_map_modify, h3]
          · rw [findLevel_updateLevel_ne _ _ _ _ hq]
            exact h3
    · show ladderSorted bidLt
        (updateLevel b.bid_levels o.price (fun l => l.modify_order id n))
      exact updateLevel_sorted bidLt b.bid_levels o.price _ hbidS
    · intro kv hkv
      have hkv2 : kv ∈ updateLevel b.bid_levels o.price
        (fun l => l.modify_order id n) := hkv
      rcases mem_updateLevel b.bid_levels o.price _ kv hkv2 with
        ⟨hm, hne⟩ | ⟨l2, hm2, hkveq⟩
      · exact huntouched OrderSide.BID kv.1 kv.2 (hbidL kv hm) (Or.inr hne)
      · have hNkeys := ladder_keys_nodup bidLt bidLt_irrefl b.bid_levels hbidS
        have hl2 : findLevel b.bid_levels o.price = some l2 :=
          findLevel_of_mem _ _ _ hNkeys hm2
        rw [hfl] at hl2
        injection hl2 with hl2
        subst hl2
        rw [hkveq]
        exact hnewlvl
    · intro kv hkv
      exact huntouched OrderSide.ASK kv.1 kv.2 (haskL kv hkv)
        (Or.inl (by decide))

theorem wf_modify_ask (b : OrderBook) (id : String) (n : Nat) (o : Order)
    (hwf : WF b) (ho : findOrder b id = some o)
    (hside : o.side = OrderSide.ASK) (hpos : 0 < n) (hnlt : n < U32MOD)
    (hsum : sumsBounded (b.modify_order id n).2) :
    WF (b.modify_order id n).2 := by
  obtain ⟨hkeysN, horders, hbidS, haskS, hbidL, haskL⟩ := hwf
  rw [modify_order_eq_ask b id n o ho hside] at hsum ⊢
  have hplaced0 := (horders (id, o) (findOrder_some_mem b id o ho)).2.2
  unfold orderPlaced at hplaced0
  rw [hside] at hplaced0
  simp only [ladderOf] at hplaced0
  cases hfl : findLevel b.ask_levels o.price with
  | none =>
    rw [hfl] at hplaced0
    simp at hplaced0
  | some l =>
    rw [hfl] at hplaced0
    simp only [Option.map_some'] at hplaced0
    injection hplaced0 with hcount
    have hlw := haskL (o.price, l) (findLevel_mem _ _ _ hfl)
    obtain ⟨e, hfind, heid, hemem⟩ :=
      find?_entry_of_countP_pos l.order_queue id (by omega)
    have hlspec := modify_order_spec l id n e hfind
    set o' : Order := { o with size := u32 n } with hodef
    set b' : OrderBook := { b with
      orders_by_id := b.orders_by_id.map (fun kv =>
        if kv.1 == id then (kv.1, { kv.2 with size := u32 n }) else kv)
      ask_levels := updateLevel b.ask_levels o.price
        (fun l => l.modify_order id n) } with hb'def
    have hfo_pres : ∀ x, x ≠ id → findOrder b' x = findOrder b x := by
      intro x hx
      exact findOrder_mapUpdate_ne b id x
        (fun o2 => { o2 with size := u32 n }) hx
    have hfo_self : findOrder b' id = some o' := by
      have := findOrder_mapUpdate_self b id o
        (fun o2 => { o2 with size := u32 n }) ho
      exact this
    -- entries of untouched levels never carry id
    have huntouched : ∀ s q l2, LevelWF b s q l2 →
        (s ≠ OrderSide.ASK ∨ q ≠ o.price) → LevelWF b' s q l2 := by
      intro s q l2 hlw2 hdiff
      refine LevelWF_transfer b b' s q l2 hlw2 ?_
      intro e2 he2
      refine hfo_pres e2.order_id ?_
      refine level_entry_id_ne b s q e2 (hlw2.2.2.2.2.2 e2 he2).2.2 id o ho ?_
      rcases hdiff with hd | hd
      · exact Or.inl (by rw [hside]; exact hd)
      · exact Or.inr hd
    -- the modified level is well-formed
    have hfl' : findLevel (updateLevel b.ask_levels o.price
        (fun l => l.modify_order id n)) o.price = some (l.modify_order id n) :=
      findLevel_updateLevel_self b.ask_levels o.price _ l hfl
    have hnewlvl : LevelWF b' OrderSide.ASK o.price (l.modify_order id n) := by
      have hesz : e.size ≤ levelSum l := entry_size_le_levelSum l e hemem
      have hsum_lt' : levelSum (l.modify_order id n) < U32MOD := by
        refine hsum.2 (o.price, l.modify_order id n) ?_
        exact findLevel_mem _ _ _ hfl'
      have hsum_shift : levelSum (l.modify_order id n) + e.size =
          levelSum l + n := by
        have := sum_map_modify l.order_queue id n e hlw.2.2.2.2.1 hfind
        rw [hlspec]
        show ((l.order_queue.map _).map OrderEntry.size).sum + e.size = _
        rw [this, u32_eq_of_lt hnlt]
        rfl
      refine ⟨?_, ?_, ?_, hsum_lt', ?_, ?_⟩
      · rw [hlspec]
        exact hlw.1
      · rw [hlspec]
        intro hc
        have := congrArg List.length hc
        simp at this
        exact hlw.2.1 this
      · rw [hlspec]
        show u32add (u32sub l.total_size e.size) n = _
        rw [hlw.2.2.1]
        rw [u32sub_eq_of_le hesz hlw.2.2.2.1]
        have : levelSum (l.modify_order id n) = levelSum l - e.size + n := by
          omega
        rw [hlspec] at this
        rw [u32add_eq_of_lt (by omega)]
        exact this.symm
      · rw [hlspec]
        show ((l.order_queue.map _).map OrderEntry.order_id).Nodup
        rw [ids_map_modify]
        exact hlw.2.2.2.2.1
      · rw [hlspec]
        intro e2 he2
        rcases List.mem_map.mp he2 with ⟨e0, he0, he0eq⟩
        obtain ⟨hp0, hlt0, hmatch0⟩ := hlw.2.2.2.2.2 e0 he0
        by_cases hcase : e0.order_id == id
        · rw [if_pos hcase] at he0eq
          subst he0eq
          refine ⟨?_, ?_, ?_⟩
          · show 0 < u32 n
            rw [u32_eq_of_lt hnlt]
            exact hpos
          · show u32 n < U32MOD
            exact Nat.mod_lt _ (by norm_num [U32MOD])
          · unfold entryMatches
            show (findOrder b' e0.order_id).map _ = _
            have he0id : e0.order_id = id := by simpa using hcase
            rw [he0id, hfo_self]
            show some (o'.side, o'.price) = some (OrderSide.ASK, o.price)
            rw [hodef]
            simp [hside]
        · rw [if_neg hcase] at he0eq
          subst he0eq
          refine ⟨hp0, hlt0, ?_⟩
          refine entryMatches_transfer b b' _ _ e0 hmatch0 ?_
          exact hfo_pres e0.order_id (by simpa using hcase)
    -- the rewritten index entry is correctly placed
    have hplace' : orderPlaced b' id o' := by
      unfold orderPlaced
      have hs' : o'.side = OrderSide.ASK := by rw [hodef]; exact hside
      have hp' : o'.price = o.price := by rw [hodef]
      rw [hs', hp']
      show ((findLevel (updateLevel b.ask_levels o.price
        (fun l => l.modify_order id n)) o.price).map (fun l2 =>
          l2.order_queue.countP (fun e2 => e2.order_id == id))) = some 1
      rw [hfl']
      simp only [Option.map_some']
      rw [hlspec]
      show some ((l.order_queue.map _).countP _) = some 1
      rw [countP_map_modify, hcount]
    -- assemble
    refine ⟨?_, ?_, hbidS, ?_, ?_, ?_⟩
    · show ((b.orders_by_id.map (fun kv => if kv.1 == id then
          (kv.1, { kv.2 with size := u32 n }) else kv)).map Prod.fst).Nodup
      rw [keys_mapUpdate b.orders_by_id id (fun o2 => { o2 with size := u32 n })]
      exact hkeysN
    · intro kv hkv
      rcases List.mem_map.mp hkv with ⟨kv0, hm0, hkveq⟩
      by_cases hcase : kv0.1 == id
      · rw [if_pos hcase] at hkveq
        have hk0 : kv0.1 = id := by simpa using hcase
        have hv0 : kv0.2 = o := findOrder_mem_unique b id o hkeysN ho kv0 hm0 hk0
        subst hkveq
        refine ⟨?_, ?_, ?_⟩
        · show kv0.2.order_id = kv0.1
          exact (horders kv0 hm0).1
        · show kv0.2.side ≠ OrderSide.UNKNOWN
          exact (horders kv0 hm0).2.1
        · show orderPlaced b' kv0.1 { kv0.2 with size := u32 n }
          rw [hk0, hv0]
          exact hplace'
      · rw [if_neg hcase] at hkveq
        subst hkveq
        obtain ⟨h1, h2, h3⟩ := horders kv0 hm0
        refine ⟨h1, h2, ?_⟩
        unfold orderPlaced at h3 ⊢
        cases hcs : kv0.2.side with
        | UNKNOWN => exact absurd hcs h2
        | BID =>
          rw [hcs] at h3
          exact h3
        | ASK =>
          rw [hcs] at h3
          simp only [ladderOf] at h3
          show ((findLevel (updateLevel b.ask_levels o.price
            (fun l => l.modify_order id n)) kv0.2.price).map (fun l2 =>
              l2.order_queue.countP (fun e2 => e2.order_id == kv0.1))) = some 1
          by_cases hq : kv0.2.price = o.price
          · rw [hq] at h3 ⊢
            rw [hfl']
            rw [hfl] at h3
            simp only [Option.map_some'] at h3 ⊢
            injection h3 with h3
            rw [hlspec]
            show some ((l.order_queue.map _).countP _) = some 1
            rw [countP_map_modify, h3]
          · rw [findLevel_updateLevel_ne _ _ _ _ hq]
            exact h3
    · show ladderSorted askLt
        (updateLevel b.ask_levels o.price (fun l => l.modify_order id n))
      exact updateLevel_sorted askLt b.ask_levels o.price _ haskS
    · intro kv hkv
      exact huntouched OrderSide.BID kv.1 kv.2 (hbidL kv hkv)
        (Or.inl (by decide))
    · intro kv hkv
      have hkv2 : kv ∈ updateLevel b.ask_levels o.price
        (fun l => l.modify_order id n) := hkv
      rcases mem_updateLevel b.ask_levels o.price _ kv hkv2 with
        ⟨hm, hne⟩ | ⟨l2, hm2, hkveq⟩
      · exact huntouched OrderSide.ASK kv.1 kv.2 (haskL kv hm) (Or.inr hne)
      · have hNkeys := ladder_keys_nodup askLt askLt_irrefl b.ask_levels haskS
        have hl2 : findLevel b.ask_levels o.price = some l2 :=
          findLevel_of_mem _ _ _ hNkeys hm2
        rw [hfl] at hl2
        injection hl2 with hl2
        subst hl2
        rw [hkveq]
        exact hnewlvl

theorem eraseP_assoc_keys_ne (l : List (String × Order))
    (hN : (l.map Prod.fst).Nodup) (id : String) :
    ∀ kv ∈ l.eraseP (fun kv => kv.1 == id), kv.1 ≠ id := by
  induction l with
  | nil => simp
  | cons a rest ih =>
    rw [List.map_cons, List.nodup_cons] at hN
    intro kv hm
    by_cases h0 : a.1 == id
    · rw [eraseP_cons_pos' (fun kv => kv.1 == id) a rest h0] at hm
      intro hc
      have ha : a.1 = id := by simpa using h0
      exact hN.1 ((ha.trans hc.symm) ▸ List.mem_map.mpr ⟨kv, hm, rfl⟩)
    · rw [eraseP_cons_neg' (fun kv => kv.1 == id) a rest (by simpa using h0)] at hm
      rcases List.mem_cons.mp hm with rfl | hm2
      · simpa using h0
      · exact ih hN.2 kv hm2

theorem eraseP_entries_ids_ne (q : List OrderEntry)
    (hN : (q.map OrderEntry.order_id).Nodup) (id : String) :
    ∀ e ∈ q.eraseP (fun e => e.order_id == id), e.order_id ≠ id := by
  induction q with
  | nil => simp
  | cons a rest ih =>
    rw [List.map_cons, List.nodup_cons] at hN
    intro e hm
    by_cases h0 : a.order_id == id
    · rw [eraseP_cons_pos' (fun e => e.order_id == id) a rest h0] at hm
      intro hc
      have ha : a.order_id = id := by simpa using h0
      exact hN.1 ((ha.trans hc.symm) ▸ List.mem_map.mpr ⟨e, hm, rfl⟩)
    · rw [eraseP_cons_neg' (fun e => e.order_id == id) a rest (by simpa using h0)] at hm
      rcases List.mem_cons.mp hm with rfl | hm2
      · simpa using h0
      · exact ih hN.2 e hm2

theorem mem_eraseLevel_key_ne (lad : Ladder)
    (hN : (lad.map Prod.fst).Nodup) (p : Rat) :
    ∀ kv ∈ eraseLevel lad p, kv.1 ≠ p := by
  induction lad with
  | nil => simp [eraseLevel]
  | cons a rest ih =>
    rw [List.map_cons, List.nodup_cons] at hN
    intro kv hm
    unfold eraseLevel at hm
    by_cases h0 : a.1 = p
    · rw [eraseP_cons_pos' (fun kv => decide (kv.1 = p)) a rest
        (by simpa using h0)] at hm
      intro hc
      exact hN.1 ((h0.trans hc.symm) ▸ List.mem_map.mpr ⟨kv, hm, rfl⟩)
    · rw [eraseP_cons_neg' (fun kv => decide (kv.1 = p)) a rest
        (by simpa using h0)] at hm
      rcases List.mem_cons.mp hm with rfl | hm2
      · exact h0
      · exact ih hN.2 kv hm2

theorem wf_cancel_bid (b : OrderBook) (id : String) (o : Order)
    (hwf : WF b) (ho : findOrder b id = some o)
    (hside : o.side = OrderSide.BID) :
    WF (b.cancel_order id).2 := by
  obtain ⟨hkeysN, horders, hbidS, haskS, hbidL, haskL⟩ := hwf
  have hplaced0 := (horders (id, o) (findOrder_some_mem b id o ho)).2.2
  unfold orderPlaced at hplaced0
  rw [hside] at hplaced0
  simp only [ladderOf] at hplaced0
  cases hfl : findLevel b.bid_levels o.price with
  | none =>
    rw [hfl] at hplaced0
    simp at hplaced0
  | some l =>
    rw [hfl] at hplaced0
    simp only [Option.map_some'] at hplaced0
    injection hplaced0 with hcount
    have hlw := hbidL (o.price, l) (findLevel_mem _ _ _ hfl)
    obtain ⟨e, hfind, heid, hemem⟩ :=
      find?_entry_of_countP_pos l.order_queue id (by omega)
    have hlspec := remove_order_spec l id e hfind
    have hNkeys := ladder_keys_nodup bidLt bidLt_irrefl b.bid_levels hbidS
    have hidsN : (l.order_queue.map OrderEntry.order_id).Nodup := hlw.2.2.2.2.1
    have hqerids := eraseP_entries_ids_ne l.order_queue hidsN id
    have hsum_erase : ((l.order_queue.eraseP
        (fun e2 => e2.order_id == id)).map OrderEntry.size).sum + e.size =
        levelSum l := sum_eraseP_entries l.order_queue _ e hfind
    have hesz : e.size ≤ levelSum l := entry_size_le_levelSum l e hemem
    -- index facts shared by both branches
    have hkeys' : ((b.orders_by_id.eraseP
        (fun kv => kv.1 == id)).map Prod.fst).Nodup :=
      List.Nodup.sublist (List.Sublist.map _ (List.eraseP_sublist _)) hkeysN
    have hrest : ∀ kv ∈ b.orders_by_id.eraseP (fun kv => kv.1 == id),
        kv ∈ b.orders_by_id ∧ kv.1 ≠ id := by
      intro kv hm
      exact ⟨List.eraseP_subset _ hm, eraseP_assoc_keys_ne _ hkeysN id kv hm⟩
    by_cases hemp : (l.remove_order id).isEmptyLevel
    · -- the level becomes empty and is erased from the ladder
      rw [cancel_order_eq_bid_erase b id o l ho hside hfl hemp]
      have hqnil : (l.remove_order id).order_queue = [] := by
        unfold PriceLevel.isEmptyLevel at hemp
        simpa using hemp
      rw [hlspec] at hqnil
      simp only at hqnil
      have hfo_pres : ∀ x, x ≠ id →
          findOrder { b with
            orders_by_id := b.orders_by_id.eraseP (fun kv => kv.1 == id)
            bid_levels := eraseLevel b.bid_levels o.price } x =
          findOrder b x := by
        intro x hx
        exact findOrder_erase_ne b id x hx
      have htransfer : ∀ s q l2, LevelWF b s q l2 →
          (s ≠ OrderSide.BID ∨ q ≠ o.price) →
          LevelWF { b with
            orders_by_id := b.orders_by_id.eraseP (fun kv => kv.1 == id)
            bid_levels := eraseLevel b.bid_levels o.price } s q l2 := by
        intro s q l2 hlw2 hdiff
        refine LevelWF_transfer _ _ s q l2 hlw2 ?_
        intro e2 he2
        refine hfo_pres e2.order_id ?_
        refine level_entry_id_ne b s q e2 (hlw2.2.2.2.2.2 e2 he2).2.2 id o ho ?_
        rcases hdiff with hd | hd
        · exact Or.inl (by rw [hside]; exact hd)
        · exact Or.inr hd
      refine ⟨hkeys', ?_, eraseLevel_sorted bidLt b.bid_levels o.price hbidS,
        haskS, ?_, ?_⟩
      · intro kv hkv
        obtain ⟨hold, hne⟩ := hrest kv hkv
        obtain ⟨h1, h2, h3⟩ := horders kv hold
        refine ⟨h1, h2, ?_⟩
        unfold orderPlaced at h3 ⊢
        cases hcs : kv.2.side with
        | UNKNOWN => exact absurd hcs h2
        | ASK =>
          rw [hcs] at h3
          exact h3
        | BID =>
          rw [hcs] at h3
          simp only [ladderOf] at h3
          show ((findLevel (eraseLevel b.bid_levels o.price)
            kv.2.price).map (fun l2 =>
              l2.order_queue.countP (fun e2 => e2.order_id == kv.1))) = some 1
          by_cases hq : kv.2.price = o.price
          · -- impossible: the level became empty, yet kv is still resting there
            rw [hq] at h3
            rw [hfl] at h3
            simp only [Option.map_some'] at h3
            injection h3 with h3
            have := countP_eraseP_entries_ne l.order_queue id kv.1 hne
            rw [hqnil] at this
            simp at this
            rw [h3] at this
            simp at this
          · rw [findLevel_eraseLevel_ne _ _ _ hq]
            exact h3
      · intro kv hkv
        have hm := mem_eraseLevel b.bid_levels o.price kv hkv
        have hne := mem_eraseLevel_key_ne b.bid_levels hNkeys o.price kv hkv
        exact htransfer OrderSide.BID kv.1 kv.2 (hbidL kv hm) (Or.inr hne)
      · intro kv hkv
        exact htransfer OrderSide.ASK kv.1 kv.2 (haskL kv hkv)
          (Or.inl (by decide))
    · -- the level stays; the entry is removed from it
      have hempf : (l.remove_order id).isEmptyLevel = false := by
        simpa using hemp
      rw [cancel_order_eq_bid_keep b id o l ho hside hfl hempf]
      have hfo_pres : ∀ x, x ≠ id →
          findOrder { b with
            orders_by_id := b.orders_by_id.eraseP (fun kv => kv.1 == id)
            bid_levels := updateLevel b.bid_levels o.price
              (fun _ => l.remove_order id) } x =
          findOrder b x := by
        intro x hx
        exact findOrder_erase_ne b id x hx
      have htransfer : ∀ s q l2, LevelWF b s q l2 →
          (s ≠ OrderSide.BID ∨ q ≠ o.price) →
          LevelWF { b with
            orders_by_id := b.orders_by_id.eraseP (fun kv => kv.1 == id)
            bid_levels := updateLevel b.bid_levels o.price
              (fun _ => l.remove_order id) } s q l2 := by
        intro s q l2 hlw2 hdiff
        refine LevelWF_transfer _ _ s q l2 hlw2 ?_
        intro e2 he2
        refine hfo_pres e2.order_id ?_
        refine level_entry_id_ne b s q e2 (hlw2.2.2.2.2.2 e2 he2).2.2 id o ho ?_
        rcases hdiff with hd | hd
        · exact Or.inl (by rw [hside]; exact hd)
        · exact Or.inr hd
      have hfl' : findLevel (updateLevel b.bid_levels o.price
          (fun _ => l.remove_order id)) o.price = some (l.remove_order id) :=
        findLevel_updateLevel_self b.bid_levels o.price _ l hfl
      have hnewlvl : LevelWF { b with
          orders_by_id := b.orders_by_id.eraseP (fun kv => kv.1 == id)
          bid_levels := updateLevel b.bid_levels o.price
            (fun _ => l.remove_order id) }
          OrderSide.BID o.price (l.remove_order id) := by
        refine ⟨?_, ?_, ?_, ?_, ?_, ?_⟩
        · rw [hlspec]
          exact hlw.1
        · unfold PriceLevel.isEmptyLevel at hempf
          simpa using hempf
        · rw [hlspec]
          show u32sub l.total_size e.size = _
          rw [hlw.2.2.1, u32sub_eq_of_le hesz hlw.2.2.2.1]
          show levelSum l - e.size =
            ((l.order_queue.eraseP _).map OrderEntry.size).sum
          omega
        · rw [hlspec]
          show ((l.order_queue.eraseP
            (fun e2 => e2.order_id == id)).map OrderEntry.size).sum < U32MOD
          have hlt : levelSum l < U32MOD := hlw.2.2.2.1
          omega
        · rw [hlspec]
          exact List.Nodup.sublist
            (List.Sublist.map _ (List.eraseP_sublist _)) hidsN
        · rw [hlspec]
          intro e2 he2
          have hsub : e2 ∈ l.order_queue := List.eraseP_subset _ he2
          obtain ⟨hp2, hl2, hm2⟩ := hlw.2.2.2.2.2 e2 hsub
          exact ⟨hp2, hl2, entryMatches_transfer b _ _ _ e2 hm2
            (hfo_pres e2.order_id (hqerids e2 he2))⟩
      refine ⟨hkeys', ?_, ?_, haskS, ?_, ?_⟩
      · intro kv hkv
        obtain ⟨hold, hne⟩ := hrest kv hkv
        obtain ⟨h1, h2, h3⟩ := horders kv hold
        refine ⟨h1, h2, ?_⟩
        unfold orderPlaced at h3 ⊢
        cases hcs : kv.2.side with
        | UNKNOWN => exact absurd hcs h2
        | ASK =>
          rw [hcs] at h3
          exact h3
        | BID =>
          rw [hcs] at h3
          simp only [ladderOf] at h3
          show ((findLevel (updateLevel b.bid_levels o.price
            (fun _ => l.remove_order id)) kv.2.price).map (fun l2 =>
              l2.order_queue.countP (fun e2 => e2.order_id == kv.1))) = some 1
          by_cases hq : kv.2.price = o.price
          · rw [hq] at h3 ⊢
            rw [hfl']
            rw [hfl] at h3
            simp only [Option.map_some'] at h3 ⊢
            injection h3 with h3
            rw [hlspec]
            show some ((l.order_queue.eraseP _).countP _) = some 1
            rw [countP_eraseP_entries_ne l.order_queue id kv.1 hne, h3]
          · rw [findLevel_updateLevel_ne _ _ _ _ hq]
            exact h3
      · show ladderSorted bidLt
          (updateLevel b.bid_levels o.price (fun _ => l.remove_order id))
        exact updateLevel_sorted bidLt b.bid_levels o.price _ hbidS
      · intro kv hkv
        have hkv2 : kv ∈ updateLevel b.bid_levels o.price
          (fun _ => l.remove_order id) := hkv
        rcases mem_updateLevel b.bid_levels o.price _ kv hkv2 with
          ⟨hm, hne⟩ | ⟨l2, hm2, hkveq⟩
        · exact htransfer OrderSide.BID kv.1 kv.2 (hbidL kv hm) (Or.inr hne)
        · have hl2 : findLevel b.bid_levels o.price = some l2 :=
            findLevel_of_mem _ _ _ hNkeys hm2
          rw [hfl] at hl2
          injection hl2 with hl2
          subst hl2
          rw [hkveq]
          exact hnewlvl
      · intro kv hkv
        exact htransfer OrderSide.ASK kv.1 kv.2 (haskL kv hkv)
          (Or.inl (by decide))

theorem wf_cancel_ask (b : OrderBook) (id : String) (o : Order)
    (hwf : WF b) (ho : findOrder b id = some o)
    (hside : o.side = OrderSide.ASK) :
    WF (b.cancel_order id).2 := by
  obtain ⟨hkeysN, horders, hbidS, haskS, hbidL, haskL⟩ := hwf
  have hplaced0 := (horders (id, o) (findOrder_some_mem b id o ho)).2.2
  unfold orderPlaced at hplaced0
  rw [hside] at hplaced0
  simp only [ladderOf] at hplaced0
  cases hfl : findLevel b.ask_levels o.price with
  | none =>
    rw [hfl] at hplaced0
    simp at hplaced0
  | some l =>
    rw [hfl] at hplaced0
    simp only [Option.map_some'] at hplaced0
    injection hplaced0 with hcount
    have hlw := haskL (o.price, l) (findLevel_mem _ _ _ hfl)
    obtain ⟨e, hfind, heid, hemem⟩ :=
      find?_entry_of_countP_pos l.order_queue id (by omega)
    have hlspec := remove_order_spec l id e hfind
    have hNkeys := ladder_keys_nodup askLt askLt_irrefl b.ask_levels haskS
    have hidsN : (l.order_queue.map OrderEntry.order_id).Nodup := hlw.2.2.2.2.1
    have hqerids := eraseP_entries_ids_ne l.order_queue hidsN id
    have hsum_erase : ((l.order_queue.eraseP
        (fun e2 => e2.order_id == id)).map OrderEntry.size).sum + e.size =
        levelSum l := sum_eraseP_entries l.order_queue _ e hfind
    have hesz : e.size ≤ levelSum l := entry_size_le_levelSum l e hemem
    -- index facts shared by both branches
    have hkeys' : ((b.orders_by_id.eraseP
        (fun kv => kv.1 == id)).map Prod.fst).Nodup :=
      List.Nodup.sublist (List.Sublist.map _ (List.eraseP_sublist _)) hkeysN
    have hrest : ∀ kv ∈ b.orders_by_id.eraseP (fun kv => kv.1 == id),
        kv ∈ b.orders_by_id ∧ kv.1 ≠ id := by
      intro kv hm
      exact ⟨List.eraseP_subset _ hm, eraseP_assoc_keys_ne _ hkeysN id kv hm⟩
    by_cases hemp : (l.remove_order id).isEmptyLevel
    · -- the level becomes empty and is erased from the ladder
      rw [cancel_order_eq_ask_erase b id o l ho hside hfl hemp]
      have hqnil : (l.remove_order id).order_queue = [] := by
        unfold PriceLevel.isEmptyLevel at hemp
        simpa using hemp
      rw [hlspec] at hqnil
      simp only at hqnil
      have hfo_pres : ∀ x, x ≠ id →
          findOrder { b with
            orders_by_id := b.orders_by_id.eraseP (fun kv => kv.1 == id)
            ask_levels := eraseLevel b.ask_levels o.price } x =
          findOrder b x := by
        intro x hx
        exact findOrder_erase_ne b id x hx
      have htransfer : ∀ s q l2, LevelWF b s q l2 →
          (s ≠ OrderSide.ASK ∨ q ≠ o.price) →
          LevelWF { b with
            orders_by_id := b.orders_by_id.eraseP (fun kv => kv.1 == id)
            ask_levels := eraseLevel b.ask_levels o.price } s q l2 := by
        intro s q l2 hlw2 hdiff
        refine LevelWF_transfer _ _ s q l2 hlw2 ?_
        intro e2 he2
        refine hfo_pres e2.order_id ?_
        refine level_entry_id_ne b s q e2 (hlw2.2.2.2.2.2 e2 he2).2.2 id o ho ?_
        rcases hdiff with hd | hd
        · exact Or.inl (by rw [hside]; exact hd)
        · exact Or.inr hd
      refine ⟨hkeys', ?_, hbidS,
        eraseLevel_sorted askLt b.ask_levels o.price haskS, ?_, ?_⟩
      · intro kv hkv
        obtain ⟨hold, hne⟩ := hrest kv hkv
        obtain ⟨h1, h2, h3⟩ := horders kv hold
        refine ⟨h1, h2, ?_⟩
        unfold orderPlaced at h3 ⊢
        cases hcs : kv.2.side with
        | UNKNOWN => exact absurd hcs h2
        | BID =>
          rw [hcs] at h3
          exact h3
        | ASK =>
          rw [hcs] at h3
          simp only [ladderOf] at h3
          show ((findLevel (eraseLevel b.ask_levels o.price)
            kv.2.price).map (fun l2 =>
              l2.order_queue.countP (fun e2 => e2.order_id == kv.1))) = some 1
          by_cases hq : kv.2.price = o.price
          · -- impossible: the level became empty, yet kv is still resting there
            rw [hq] at h3
            rw [hfl] at h3
            simp only [Option.map_some'] at h3
            injection h3 with h3
            have := countP_eraseP_entries_ne l.order_queue id kv.1 hne
            rw [hqnil] at this
            simp at this
            rw [h3] at this
            simp at this
          · rw [findLevel_eraseLevel_ne _ _ _ hq]
            exact h3
      · intro kv hkv
        exact htransfer OrderSide.BID kv.1 kv.2 (hbidL kv hkv)
          (Or.inl (by decide))
      · intro kv hkv
        have hm := mem_eraseLevel b.ask_levels o.price kv hkv
        have hne := mem_eraseLevel_key_ne b.ask_levels hNkeys o.price kv hkv
        exact htransfer OrderSide.ASK kv.1 kv.2 (haskL kv hm) (Or.inr hne)
    · -- the level stays; the entry is removed from it
      have hempf : (l.remove_order id).isEmptyLevel = false := by
        simpa using hemp
      rw [cancel_order_eq_ask_keep b id o l ho hside hfl hempf]
      have hfo_pres : ∀ x, x ≠ id →
          findOrder { b with
            orders_by_id := b.orders_by_id.eraseP (fun kv => kv.1 == id)
            ask_levels := updateLevel b.ask_levels o.price
              (fun _ => l.remove_order id) } x =
          findOrder b x := by
        intro x hx
        exact findOrder_erase_ne b id x hx
      have htransfer : ∀ s q l2, LevelWF b s q l2 →
          (s ≠ OrderSide.ASK ∨ q ≠ o.price) →
          LevelWF { b with
            orders_by_id := b.orders_by_id.eraseP (fun kv => kv.1 == id)
            ask_levels := updateLevel b.ask_levels o.price
              (fun _ => l.remove_order id) } s q l2 := by
        intro s q l2 hlw2 hdiff
        refine LevelWF_transfer _ _ s q l2 hlw2 ?_
        intro e2 he2
        refine hfo_pres e2.order_id ?_
        refine level_entry_id_ne b s q e2 (hlw2.2.2.2.2.2 e2 he2).2.2 id o ho ?_
        rcases hdiff with hd | hd
        · exact Or.inl (by rw [hside]; exact hd)
        · exact Or.inr hd
      have hfl' : findLevel (updateLevel b.ask_levels o.price
          (fun _ => l.remove_order id)) o.price = some (l.remove_order id) :=
        findLevel_updateLevel_self b.ask_levels o.price _ l hfl
      have hnewlvl : LevelWF { b with
          orders_by_id := b.orders_by_id.eraseP (fun kv => kv.1 == id)
          ask_levels := updateLevel b.ask_levels o.price
            (fun _ => l.remove_order id) }
          OrderSide.ASK o.price (l.remove_order id) := by
        refine ⟨?_, ?_, ?_, ?_, ?_, ?_⟩
        · rw [hlspec]
          exact hlw.1
        · unfold PriceLevel.isEmptyLevel at hempf
          simpa using hempf
        · rw [hlspec]
          show u32sub l.total_size e.size = _
          rw [hlw.2.2.1, u32sub_eq_of_le hesz hlw.2.2.2.1]
          show levelSum l - e.size =
            ((l.order_queue.eraseP _).map OrderEntry.size).sum
          omega
        · rw [hlspec]
          show ((l.order_queue.eraseP
            (fun e2 => e2.order_id == id)).map OrderEntry.size).sum < U32MOD
          have hlt : levelSum l < U32MOD := hlw.2.2.2.1
          omega
        · rw [hlspec]
          exact List.Nodup.sublist
            (List.Sublist.map _ (List.eraseP_sublist _)) hidsN
        · rw [hlspec]
          intro e2 he2
          have hsub : e2 ∈ l.order_queue := List.eraseP_subset _ he2
          obtain ⟨hp2, hl2, hm2⟩ := hlw.2.2.2.2.2 e2 hsub
          exact ⟨hp2, hl2, entryMatches_transfer b _ _ _ e2 hm2
            (hfo_pres e2.order_id (hqerids e2 he2))⟩
      refine ⟨hkeys', ?_, hbidS, ?_, ?_, ?_⟩
      · intro kv hkv
        obtain ⟨hold, hne⟩ := hrest kv hkv
        obtain ⟨h1, h2, h3⟩ := horders kv hold
        refine ⟨h1, h2, ?_⟩
        unfold orderPlaced at h3 ⊢
        cases hcs : kv.2.side with
        | UNKNOWN => exact absurd hcs h2
        | BID =>
          rw [hcs] at h3
          exact h3
        | ASK =>
          rw [hcs] at h3
          simp only [ladderOf] at h3
          show ((findLevel (updateLevel b.ask_levels o.price
            (fun _ => l.remove_order id)) kv.2.price).map (fun l2 =>
              l2.order_queue.countP (fun e2 => e2.order_id == kv.1))) = some 1
          by_cases hq : kv.2.price = o.price
          · rw [hq] at h3 ⊢
            rw [hfl']
            rw [hfl] at h3
            simp only [Option.map_some'] at h3 ⊢
            injection h3 with h3
            rw [hlspec]
            show some ((l.order_queue.eraseP _).countP _) = some 1
            rw [countP_eraseP_entries_ne l.order_queue id kv.1 hne, h3]
          · rw [findLevel_updateLevel_ne _ _ _ _ hq]
            exact h3
      · show ladderSorted askLt
          (updateLevel b.ask_levels o.price (fun _ => l.remove_order id))
        exact updateLevel_sorted askLt b.ask_levels o.price _ haskS
      · intro kv hkv
        exact htransfer OrderSide.BID kv.1 kv.2 (hbidL kv hkv)
          (Or.inl (by decide))
      · intro kv hkv
        have hkv2 : kv ∈ updateLevel b.ask_levels o.price
          (fun _ => l.remove_order id) := hkv
        rcases mem_updateLevel b.ask_levels o.price _ kv hkv2 with
          ⟨hm, hne⟩ | ⟨l2, hm2, hkveq⟩
        · exact htransfer OrderSide.ASK kv.1 kv.2 (haskL kv hm) (Or.inr hne)
        · have hl2 : findLevel b.ask_levels o.price = some l2 :=
            findLevel_of_mem _ _ _ hNkeys hm2
          rw [hfl] at hl2
          injection hl2 with hl2
          subst hl2
          rw [hkveq]
          exact hnewlvl

theorem add_order_eq_dup (b : OrderBook) (id : String) (side : OrderSide)
    (p : Rat) (size : Nat) (sym : String) (ts : Nat)
    (ho : (findOrder b id).isSome) :
    b.add_order id side p size sym ts = (false, b) := by
  unfold OrderBook.add_order
  rw [if_pos ho]

theorem modify_order_eq_none (b : OrderBook) (id : String) (n : Nat)
    (ho : findOrder b id = none) :
    b.modify_order id n = (false, b) := by
  unfold OrderBook.modify_order
  rw [ho]

theorem cancel_order_eq_none (b : OrderBook) (id : String)
    (ho : findOrder b id = none) :
    b.cancel_order id = (false, b) := by
  unfold OrderBook.cancel_order
  rw [ho]

/-- One valid step that keeps all level sums representable preserves the
book invariant. -/
theorem wf_applyOp (b : OrderBook) (op : Op) (hwf : WF b) (hv : validOp op)
    (hsum : sumsBounded (applyOp b op)) : WF (applyOp b op) := by
  cases op with
  | addOp id side price size symbol ts =>
    obtain ⟨hs, hpos, hlt⟩ := hv
    show WF (b.add_order id side price size symbol ts).2
    cases hdup : findOrder b id with
    | some o =>
      rw [add_order_eq_dup b id side price size symbol ts (by rw [hdup]; rfl)]
      exact hwf
    | none =>
      cases side with
      | UNKNOWN => exact absurd rfl hs
      | BID =>
        exact wf_add_bid b id price size symbol ts hwf hdup hpos hlt hsum
      | ASK =>
        exact wf_add_ask b id price size symbol ts hwf hdup hpos hlt hsum
  | modifyOp id n =>
    obtain ⟨hpos, hlt⟩ := hv
    show WF (b.modify_order id n).2
    cases ho : findOrder b id with
    | none =>
      rw [modify_order_eq_none b id n ho]
      exact hwf
    | some o =>
      cases hs : o.side with
      | UNKNOWN =>
        exact absurd hs
          (hwf.2.1 (id, o) (findOrder_some_mem b id o ho)).2.1
      | BID => exact wf_modify_bid b id n o hwf ho hs hpos hlt hsum
      | ASK => exact wf_modify_ask b id n o hwf ho hs hpos hlt hsum
  | cancelOp id =>
    show WF (b.cancel_order id).2
    cases ho : findOrder b id with
    | none =>
      rw [cancel_order_eq_none b id ho]
      exact hwf
    | some o =>
      cases hs : o.side with
      | UNKNOWN =>
        exact absurd hs
          (hwf.2.1 (id, o) (findOrder_some_mem b id o ho)).2.1
      | BID => exact wf_cancel_bid b id o hwf ho hs
      | ASK => exact wf_cancel_ask b id o hwf ho hs

/-- A whole trace of valid, non-overflowing steps preserves the invariant. -/
theorem wf_applyOps (b : OrderBook) (ops : List Op) (hwf : WF b)
    (htr : TraceOK b ops) : WF (applyOps b ops) := by
  induction ops generalizing b with
  | nil => exact hwf
  | cons op ops ih =>
    obtain ⟨hv, hsum, htr2⟩ := htr
    exact ih (applyOp b op) (wf_applyOp b op hwf hv hsum) htr2

/-- A prefix of an OK trace is OK. -/
theorem TraceOK_take (b : OrderBook) (ops : List Op) (h : TraceOK b ops)
    (n : Nat) : TraceOK b (ops.take n) := by
  induction ops generalizing b n with
  | nil =>
    rw [List.take_nil]
    trivial
  | cons op ops ih =>
    cases n with
    | zero => trivial
    | succ m =>
      obtain ⟨hv, hsum, htr2⟩ := h
      exact ⟨hv, hsum, ih (applyOp b op) htr2 m⟩

/-- The empty book satisfies the invariant. -/
theorem wf_emptyBook : WF OrderBook.emptyBook := by decide

/-- The sum of entry sizes of a non-empty queue of positive entries is
positive. -/
theorem levelSum_pos (l : PriceLevel) (hne : l.order_queue ≠ [])
    (hpos : ∀ e ∈ l.order_queue, 0 < e.size) : 0 < levelSum l := by
  cases hq : l.order_queue with
  | nil => exact absurd hq hne
  | cons a t =>
    show 0 < (l.order_queue.map OrderEntry.size).sum
    rw [hq]
    have := hpos a (hq ▸ List.mem_cons_self a t)
    simp only [List.map_cons, List.sum_cons]
    omega

/-- The invariant implies the spec's three consistency conditions. -/
theorem wf_bookConsistent (b : OrderBook) (hwf : WF b) : bookConsistent b := by
  obtain ⟨hkeysN, horders, hbidS, haskS, hbidL, haskL⟩ := hwf
  refine ⟨fun kv hkv => (horders kv hkv).2.2, ?_, ?_⟩
  · intro kv hkv
    obtain ⟨_, hne, htot, _, _, hent⟩ := hbidL kv hkv
    refine ⟨htot, ?_⟩
    have := levelSum_pos kv.2 hne (fun e he => (hent e he).1)
    omega
  · intro kv hkv
    obtain ⟨_, hne, htot, _, _, hent⟩ := haskL kv hkv
    refine ⟨htot, ?_⟩
    have := levelSum_pos kv.2 hne (fun e he => (hent e he).1)
    omega

theorem add_order_eq_unknown (b : OrderBook) (id : String) (p : Rat)
    (size : Nat) (sym : String) (ts : Nat) (hid : findOrder b id = none) :
    b.add_order id OrderSide.UNKNOWN p size sym ts =
      (true, { b with orders_by_id := b.orders_by_id ++
        [(id, { order_id := id, side := OrderSide.UNKNOWN, price := p
                size := u32 size, timestamp := ts, symbol := sym })] }) := by
  have hsome : (findOrder b id).isSome = false := by rw [hid]; rfl
  unfold OrderBook.add_order
  rw [hsome]
  rfl

theorem eraseP_assoc_append_fresh (l : List (String × Order)) (id : String)
    (o : Order) (h : ∀ kv ∈ l, kv.1 ≠ id) :
    (l ++ [(id, o)]).eraseP (fun kv => kv.1 == id) = l := by
  induction l with
  | nil =>
    show List.eraseP _ [(id, o)] = []
    rw [eraseP_cons_pos' (fun kv => kv.1 == id) (id, o) [] (by simp)]
  | cons a rest ih =>
    rw [List.cons_append,
      eraseP_cons_neg' (fun kv => kv.1 == id) a (rest ++ [(id, o)])
        (by simp [h a (List.mem_cons_self a rest)]),
      ih (fun kv hm => h kv (List.mem_cons_of_mem a hm))]

theorem find?_entries_append_fresh (q : List OrderEntry) (e : OrderEntry)
    (id : String) (heid : e.order_id = id)
    (h : ∀ e2 ∈ q, e2.order_id ≠ id) :
    (q ++ [e]).find? (fun e2 => e2.order_id == id) = some e := by
  induction q with
  | nil =>
    show List.find? _ [e] = some e
    rw [find?_cons_pos' (fun e2 => e2.order_id == id) e [] (by simp [heid])]
  | cons a rest ih =>
    rw [List.cons_append,
      find?_cons_neg' (fun e2 => e2.order_id == id) a (rest ++ [e])
        (by simp [h a (List.mem_cons_self a rest)]),
      ih (fun e2 hm => h e2 (List.mem_cons_of_mem a hm))]

theorem eraseP_entries_append_fresh (q : List OrderEntry) (e : OrderEntry)
    (id : String) (heid : e.order_id = id)
    (h : ∀ e2 ∈ q, e2.order_id ≠ id) :
    (q ++ [e]).eraseP (fun e2 => e2.order_id == id) = q := by
  induction q with
  | nil =>
    show List.eraseP _ [e] = []
    rw [eraseP_cons_pos' (fun e2 => e2.order_id == id) e [] (by simp [heid])]
  | cons a rest ih =>
    rw [List.cons_append,
      eraseP_cons_neg' (fun e2 => e2.order_id == id) a (rest ++ [e])
        (by simp [h a (List.mem_cons_self a rest)]),
      ih (fun e2 hm => h e2 (List.mem_cons_of_mem a hm))]

theorem updateLevel_update_const (lad : Ladder) (p : Rat)
    (f : PriceLevel → PriceLevel) (l : PriceLevel) :
    updateLevel (updateLevel lad p f) p (fun _ => l) =
      updateLevel lad p (fun _ => l) := by
  unfold updateLevel
  rw [List.map_map]
  refine List.map_congr_left ?_
  intro kv _
  by_cases h : kv.1 = p
  · simp [Function.comp, h]
  · simp [Function.comp, h]

theorem updateLevel_id_of_find (lad : Ladder) (p : Rat) (l : PriceLevel)
    (hN : (lad.map Prod.fst).Nodup) (hf : findLevel lad p = some l) :
    updateLevel lad p (fun _ => l) = lad := by
  induction lad with
  | nil => rfl
  | cons kv rest ih =>
    rw [List.map_cons, List.nodup_cons] at hN
    by_cases h0 : kv.1 = p
    · have hl : l = kv.2 := by
        unfold findLevel at hf
        rw [find?_cons_pos' (fun kv2 => decide (kv2.1 = p)) kv rest
          (by simpa using h0)] at hf
        injection hf with hf
        exact hf.symm
      subst hl
      show (if kv.1 = p then (kv.1, kv.2) else kv) ::
        updateLevel rest p (fun _ => kv.2) = kv :: rest
      rw [if_pos h0]
      have hnone : findLevel rest p = none := by
        rw [findLevel_eq_none_iff]
        intro kv2 hm hc
        exact hN.1 (h0 ▸ hc ▸ List.mem_map.mpr ⟨kv2, hm, rfl⟩)
      rw [updateLevel_of_none rest p _ hnone]
    · have hf' : findLevel rest p = some l := by
        unfold findLevel at hf ⊢
        rw [find?_cons_neg' (fun kv2 => decide (kv2.1 = p)) kv rest
          (by simpa using h0)] at hf
        exact hf
      show (if kv.1 = p then (kv.1, l) else kv) ::
        updateLevel rest p (fun _ => l) = kv :: rest
      rw [if_neg h0, ih hN.2 hf']

theorem erase_update_insert (lt : Rat → Rat → Bool) (lad : Ladder) (p : Rat)
    (l0 : PriceLevel) (f : PriceLevel → PriceLevel)
    (h : ∀ kv ∈ lad, kv.1 ≠ p) :
    eraseLevel (updateLevel (insertLevel lt p l0 lad) p f) p = lad := by
  induction lad with
  | nil =>
    show eraseLevel (updateLevel [(p, l0)] p f) p = []
    unfold updateLevel eraseLevel
    simp
  | cons kv rest ih =>
    have hkv : kv.1 ≠ p := h kv (List.mem_cons_self kv rest)
    show eraseLevel (updateLevel
      (if lt p kv.1 then (p, l0) :: kv :: rest
       else kv :: insertLevel lt p l0 rest) p f) p = kv :: rest
    by_cases hc : lt p kv.1
    · rw [if_pos hc]
      have hrest : updateLevel (kv :: rest) p f = kv :: rest :=
        updateLevel_of_none _ p f ((findLevel_eq_none_iff _ p).mpr h)
      show eraseLevel ((if ((p, l0) : Rat × PriceLevel).1 = p
        then (((p, l0) : Rat × PriceLevel).1, f ((p, l0) : Rat × PriceLevel).2)
        else (p, l0)) :: updateLevel (kv :: rest) p f) p = kv :: rest
      rw [if_pos rfl, hrest]
      unfold eraseLevel
      rw [eraseP_cons_pos' (fun kv2 => decide (kv2.1 = p))
        (((p, l0) : Rat × PriceLevel).1, f ((p, l0) : Rat × PriceLevel).2)
        (kv :: rest) (by simp)]
    · rw [if_neg hc]
      show eraseLevel ((if kv.1 = p then (kv.1, f kv.2) else kv) ::
        updateLevel (insertLevel lt p l0 rest) p f) p = kv :: rest
      rw [if_neg hkv]
      unfold eraseLevel
      rw [eraseP_cons_neg' (fun kv2 => decide (kv2.1 = p)) kv _
        (by simp [hkv])]
      have := ih (fun kv2 hm => h kv2 (List.mem_cons_of_mem kv hm))
      unfold eraseLevel at this
      rw [this]

theorem level_ids_fresh (b : OrderBook) (s : OrderSide) (p : Rat)
    (l : PriceLevel) (hlw : LevelWF b s p l) (id : String)
    (hid : findOrder b id = none) : ∀ e ∈ l.order_queue, e.order_id ≠ id := by
  intro e he hc
  have hm := (hlw.2.2.2.2.2 e he).2.2
  unfold entryMatches at hm
  rw [hc, hid] at hm
  simp at hm

theorem remove_add_level (l : PriceLevel) (id : String) (size ts : Nat)
    (hfresh : ∀ e ∈ l.order_queue, e.order_id ≠ id)
    (htot : l.total_size < U32MOD) :
    (l.add_order id size ts).remove_order id = l := by
  have hfind : (l.add_order id size ts).order_queue.find?
      (fun e => e.order_id == id) = some ⟨id, u32 size, ts⟩ := by
    show (l.order_queue ++
      [({ order_id := id, size := u32 size, timestamp := ts } : OrderEntry)]).find?
        (fun e => e.order_id == id) =
      some ({ order_id := id, size := u32 size, timestamp := ts } : OrderEntry)
    exact find?_entries_append_fresh l.order_queue
      { order_id := id, size := u32 size, timestamp := ts } id rfl hfresh
  unfold PriceLevel.remove_order
  rw [hfind]
  have hq : (l.add_order id size ts).order_queue.eraseP
      (fun e2 => e2.order_id == id) = l.order_queue := by
    show (l.order_queue ++
      [({ order_id := id, size := u32 size, timestamp := ts } : OrderEntry)]).eraseP
        (fun e2 => e2.order_id == id) = l.order_queue
    exact eraseP_entries_append_fresh l.order_queue
      { order_id := id, size := u32 size, timestamp := ts } id rfl hfresh
  have ht : u32sub (l.add_order id size ts).total_size
      (⟨id, u32 size, ts⟩ : OrderEntry).size = l.total_size := by
    show u32sub (u32add l.total_size size) (u32 size) = l.total_size
    have htot2 : l.total_size < 2 ^ 32 := htot
    unfold u32add u32sub u32 U32MOD
    omega
  show { l.add_order id size ts with
    total_size := u32sub (l.add_order id size ts).total_size
      (⟨id, u32 size, ts⟩ : OrderEntry).size
    order_queue := (l.add_order id size ts).order_queue.eraseP
      (fun e2 => e2.order_id == id) } = l
  rw [hq, ht]
  rfl

theorem add_cancel_bid (b : OrderBook) (id : String) (p : Rat) (size : Nat)
    (sym : String) (ts : Nat) (hwf : WF b) (hid : findOrder b id = none) :
    (b.add_order id OrderSide.BID p size sym ts).2.cancel_order id =
      (true, b) := by
  obtain ⟨hkeysN, horders, hbidS, haskS, hbidL, haskL⟩ := hwf
  have hkeys := findOrder_none_keys b id hid
  have hNlad := ladder_keys_nodup bidLt bidLt_irrefl b.bid_levels hbidS
  rw [add_order_eq_bid b id p size sym ts hid]
  cases hfl : findLevel b.bid_levels p with
  | some l =>
    have hAdd : addLadder bidLt b.bid_levels p id size ts =
        updateLevel b.bid_levels p (fun l2 => l2.add_order id size ts) := by
      unfold addLadder
      rw [hfl]
      rfl
    have hlw := hbidL (p, l) (findLevel_mem _ _ _ hfl)
    have hfresh := level_ids_fresh b OrderSide.BID p l hlw id hid
    have htotlt : l.total_size < U32MOD := by
      have h2 : l.total_size = levelSum l := hlw.2.2.1
      have h3 : levelSum l < U32MOD := hlw.2.2.2.1
      omega
    have hrm : (l.add_order id size ts).remove_order id = l :=
      remove_add_level l id size ts hfresh htotlt
    rw [hAdd]
    have hfo : findOrder { b with
        orders_by_id := b.orders_by_id ++
          [(id, { order_id := id, side := OrderSide.BID, price := p,
                   size := u32 size, timestamp := ts, symbol := sym })]
        bid_levels := updateLevel b.bid_levels p
          (fun l2 => l2.add_order id size ts) } id = some
      { order_id := id, side := OrderSide.BID, price := p,
                   size := u32 size, timestamp := ts, symbol := sym } := by
      have h1 := findOrder_append b id
        { order_id := id, side := OrderSide.BID, price := p,
                   size := u32 size, timestamp := ts, symbol := sym } hid
      unfold findOrder at h1 ⊢
      exact h1
    have hflA : findLevel ({ b with
        orders_by_id := b.orders_by_id ++
          [(id, { order_id := id, side := OrderSide.BID, price := p,
                   size := u32 size, timestamp := ts, symbol := sym })]
        bid_levels := updateLevel b.bid_levels p
          (fun l2 => l2.add_order id size ts) } : OrderBook).bid_levels
          p = some (l.add_order id size ts) := by
      show findLevel (updateLevel b.bid_levels p
        (fun l2 => l2.add_order id size ts)) p = _
      exact findLevel_updateLevel_self b.bid_levels p _ l hfl
    have hemp : ((l.add_order id size ts).remove_order id).isEmptyLevel
        = false := by
      rw [hrm]
      unfold PriceLevel.isEmptyLevel
      cases hq : l.order_queue with
      | nil => exact absurd hq hlw.2.1
      | cons a t => rfl
    rw [cancel_order_eq_bid_keep _ id
      ({ order_id := id, side := OrderSide.BID, price := p,
                   size := u32 size, timestamp := ts, symbol := sym } : Order)
      (l.add_order id size ts) hfo rfl hflA hemp]
    rw [hrm]
    show (true, ({ b with
      orders_by_id := (b.orders_by_id ++
        [(id, ({ order_id := id, side := OrderSide.BID, price := p,
                   size := u32 size, timestamp := ts,
                   symbol := sym } : Order))]).eraseP
        (fun kv => kv.1 == id)
      bid_levels := updateLevel (updateLevel b.bid_levels p
        (fun l2 => l2.add_order id size ts)) p (fun _ => l) } : OrderBook)) =
      (true, b)
    rw [eraseP_assoc_append_fresh b.orders_by_id id
      { order_id := id, side := OrderSide.BID, price := p,
                   size := u32 size, timestamp := ts, symbol := sym } hkeys,
      updateLevel_update_const b.bid_levels p _ l,
      updateLevel_id_of_find b.bid_levels p l hNlad hfl]
  | none =>
    have hAdd : addLadder bidLt b.bid_levels p id size ts =
        updateLevel (insertLevel bidLt p (PriceLevel.atPrice p) b.bid_levels)
          p (fun l2 => l2.add_order id size ts) := by
      unfold addLadder
      rw [hfl]
      rfl
    rw [hAdd]
    have hfo : findOrder { b with
        orders_by_id := b.orders_by_id ++
          [(id, { order_id := id, side := OrderSide.BID, price := p,
                   size := u32 size, timestamp := ts, symbol := sym })]
        bid_levels := updateLevel
          (insertLevel bidLt p (PriceLevel.atPrice p) b.bid_levels) p
          (fun l2 => l2.add_order id size ts) } id = some
      { order_id := id, side := OrderSide.BID, price := p,
                   size := u32 size, timestamp := ts, symbol := sym } := by
      have h1 := findOrder_append b id
        { order_id := id, side := OrderSide.BID, price := p,
                   size := u32 size, timestamp := ts, symbol := sym } hid
      unfold findOrder at h1 ⊢
      exact h1
    have hfind1 : findLevel
        (insertLevel bidLt p (PriceLevel.atPrice p) b.bid_levels) p =
        some (PriceLevel.atPrice p) :=
      findLevel_insertLevel_self bidLt p (PriceLevel.atPrice p) b.bid_levels
        ((findLevel_eq_none_iff _ p).mp hfl)
    have hflA : findLevel ({ b with
        orders_by_id := b.orders_by_id ++
          [(id, { order_id := id, side := OrderSide.BID, price := p,
                   size := u32 size, timestamp := ts, symbol := sym })]
        bid_levels := updateLevel
          (insertLevel bidLt p (PriceLevel.atPrice p) b.bid_levels) p
          (fun l2 => l2.add_order id size ts) } : OrderBook).bid_levels
        p = some ((PriceLevel.atPrice p).add_order id size ts) := by
      show findLevel (updateLevel
        (insertLevel bidLt p (PriceLevel.atPrice p) b.bid_levels) p
        (fun l2 => l2.add_order id size ts)) p = _
      exact findLevel_updateLevel_self _ p _ (PriceLevel.atPrice p) hfind1
    have hemp : (((PriceLevel.atPrice p).add_order id size ts).remove_order
        id).isEmptyLevel = true := by
      unfold PriceLevel.atPrice PriceLevel.add_order PriceLevel.remove_order
        PriceLevel.isEmptyLevel
      simp
    rw [cancel_order_eq_bid_erase _ id
      ({ order_id := id, side := OrderSide.BID, price := p,
                   size := u32 size, timestamp := ts, symbol := sym } : Order)
      ((PriceLevel.atPrice p).add_order id size ts) hfo rfl hflA hemp]
    show (true, ({ b with
      orders_by_id := (b.orders_by_id ++
        [(id, ({ order_id := id, side := OrderSide.BID, price := p,
                   size := u32 size, timestamp := ts,
                   symbol := sym } : Order))]).eraseP
        (fun kv => kv.1 == id)
      bid_levels := eraseLevel (updateLevel
        (insertLevel bidLt p (PriceLevel.atPrice p) b.bid_levels) p
        (fun l2 => l2.add_order id size ts)) p } : OrderBook)) = (true, b)
    rw [eraseP_assoc_append_fresh b.orders_by_id id
      { order_id := id, side := OrderSide.BID, price := p,
                   size := u32 size, timestamp := ts, symbol := sym } hkeys,
      erase_update_insert bidLt b.bid_levels p (PriceLevel.atPrice p) _
        ((findLevel_eq_none_iff _ p).mp hfl)]

theorem add_cancel_ask (b : OrderBook) (id : String) (p : Rat) (size : Nat)
    (sym : String) (ts : Nat) (hwf : WF b) (hid : findOrder b id = none) :
    (b.add_order id OrderSide.ASK p size sym ts).2.cancel_order id =
      (true, b) := by
  obtain ⟨hkeysN, horders, hbidS, haskS, hbidL, haskL⟩ := hwf
  have hkeys := findOrder_none_keys b id hid
  have hNlad := ladder_keys_nodup askLt askLt_irrefl b.ask_levels haskS
  rw [add_order_eq_ask b id p size sym ts hid]
  cases hfl : findLevel b.ask_levels p with
  | some l =>
    have hAdd : addLadder askLt b.ask_levels p id size ts =
        updateLevel b.ask_levels p (fun l2 => l2.add_order id size ts) := by
      unfold addLadder
      rw [hfl]
      rfl
    have hlw := haskL (p, l) (findLevel_mem _ _ _ hfl)
    have hfresh := level_ids_fresh b OrderSide.ASK p l hlw id hid
    have htotlt : l.total_size < U32MOD := by
      have h2 : l.total_size = levelSum l := hlw.2.2.1
      have h3 : levelSum l < U32MOD := hlw.2.2.2.1
      omega
    have hrm : (l.add_order id size ts).remove_order id = l :=
      remove_add_level l id size ts hfresh htotlt
    rw [hAdd]
    have hfo : findOrder { b with
        orders_by_id := b.orders_by_id ++
          [(id, { order_id := id, side := OrderSide.ASK, price := p,
                   size := u32 size, timestamp := ts, symbol := sym })]
        ask_levels := updateLevel b.ask_levels p
          (fun l2 => l2.add_order id size ts) } id = some
      { order_id := id, side := OrderSide.ASK, price := p,
                   size := u32 size, timestamp := ts, symbol := sym } := by
      have h1 := findOrder_append b id
        { order_id := id, side := OrderSide.ASK, price := p,
                   size := u32 size, timestamp := ts, symbol := sym } hid
      unfold findOrder at h1 ⊢
      exact h1
    have hflA : findLevel ({ b with
        orders_by_id := b.orders_by_id ++
          [(id, { order_id := id, side := OrderSide.ASK, price := p,
                   size := u32 size, timestamp := ts, symbol := sym })]
        ask_levels := updateLevel b.ask_levels p
          (fun l2 => l2.add_order id size ts) } : OrderBook).ask_levels
          p = some (l.add_order id size ts) := by
      show findLevel (updateLevel b.ask_levels p
        (fun l2 => l2.add_order id size ts)) p = _
      exact findLevel_updateLevel_self b.ask_levels p _ l hfl
    have hemp : ((l.add_order id size ts).remove_order id).isEmptyLevel
        = false := by
      rw [hrm]
      unfold PriceLevel.isEmptyLevel
      cases hq : l.order_queue with
      | nil => exact absurd hq hlw.2.1
      | cons a t => rfl
    rw [cancel_order_eq_ask_keep _ id
      ({ order_id := id, side := OrderSide.ASK, price := p,
                   size := u32 size, timestamp := ts, symbol := sym } : Order)
      (l.add_order id size ts) hfo rfl hflA hemp]
    rw [hrm]
    show (true, ({ b with
      orders_by_id := (b.orders_by_id ++
        [(id, ({ order_id := id, side := OrderSide.ASK, price := p,
                   size := u32 size, timestamp := ts,
                   symbol := sym } : Order))]).eraseP
        (fun kv => kv.1 == id)
      ask_levels := updateLevel (updateLevel b.ask_levels p
        (fun l2 => l2.add_order id size ts)) p (fun _ => l) } : OrderBook)) =
      (true, b)
    rw [eraseP_assoc_append_fresh b.orders_by_id id
      { order_id := id, side := OrderSide.ASK, price := p,
                   size := u32 size, timestamp := ts, symbol := sym } hkeys,
      updateLevel_update_const b.ask_levels p _ l,
      updateLevel_id_of_find b.ask_levels p l hNlad hfl]
  | none =>
    have hAdd : addLadder askLt b.ask_levels p id size ts =
        updateLevel (insertLevel askLt p (PriceLevel.atPrice p) b.ask_levels)
          p (fun l2 => l2.add_order id size ts) := by
      unfold addLadder
      rw [hfl]
      rfl
    rw [hAdd]
    have hfo : findOrder { b with
        orders_by_id := b.orders_by_id ++
          [(id, { order_id := id, side := OrderSide.ASK, price := p,
                   size := u32 size, timestamp := ts, symbol := sym })]
        ask_levels := updateLevel
          (insertLevel askLt p (PriceLevel.atPrice p) b.ask_levels) p
          (fun l2 => l2.add_order id size ts) } id = some
      { order_id := id, side := OrderSide.ASK, price := p,
                   size := u32 size, timestamp := ts, symbol := sym } := by
      have h1 := findOrder_append b id
        { order_id := id, side := OrderSide.ASK, price := p,
                   size := u32 size, timestamp := ts, symbol := sym } hid
      unfold findOrder at h1 ⊢
      exact h1
    have hfind1 : findLevel
        (insertLevel askLt p (PriceLevel.atPrice p) b.ask_levels) p =
        some (PriceLevel.atPrice p) :=
      findLevel_insertLevel_self askLt p (PriceLevel.atPrice p) b.ask_levels
        ((findLevel_eq_none_iff _ p).mp hfl)
    have hflA : findLevel ({ b with
        orders_by_id := b.orders_by_id ++
          [(id, { order_id := id, side := OrderSide.ASK, price := p,
                   size := u32 size, timestamp := ts, symbol := sym })]
        ask_levels := updateLevel
          (insertLevel askLt p (PriceLevel.atPrice p) b.ask_levels) p
          (fun l2 => l2.add_order id size ts) } : OrderBook).ask_levels
        p = some ((PriceLevel.atPrice p).add_order id size ts) := by
      show findLevel (updateLevel
        (insertLevel askLt p (PriceLevel.atPrice p) b.ask_levels) p
        (fun l2 => l2.add_order id size ts)) p = _
      exact findLevel_updateLevel_self _ p _ (PriceLevel.atPrice p) hfind1
    have hemp : (((PriceLevel.atPrice p).add_order id size ts).remove_order
        id).isEmptyLevel = true := by
      unfold PriceLevel.atPrice PriceLevel.add_order PriceLevel.remove_order
        PriceLevel.isEmptyLevel
      simp
    rw [cancel_order_eq_ask_erase _ id
      ({ order_id := id, side := OrderSide.ASK, price := p,
                   size := u32 size, timestamp := ts, symbol := sym } : Order)
      ((PriceLevel.atPrice p).add_order id size ts) hfo rfl hflA hemp]
    show (true, ({ b with
      orders_by_id := (b.orders_by_id ++
        [(id, ({ order_id := id, side := OrderSide.ASK, price := p,
                   size := u32 size, timestamp := ts,
                   symbol := sym } : Order))]).eraseP
        (fun kv => kv.1 == id)
      ask_levels := eraseLevel (updateLevel
        (insertLevel askLt p (PriceLevel.atPrice p) b.ask_levels) p
        (fun l2 => l2.add_order id size ts)) p } : OrderBook)) = (true, b)
    rw [eraseP_assoc_append_fresh b.orders_by_id id
      { order_id := id, side := OrderSide.ASK, price := p,
                   size := u32 size, timestamp := ts, symbol := sym } hkeys,
      erase_update_insert askLt b.ask_levels p (PriceLevel.atPrice p) _
        ((findLevel_eq_none_iff _ p).mp hfl)]

theorem add_cancel_unknown (b : OrderBook) (id : String) (p : Rat)
    (size : Nat) (sym : String) (ts : Nat) (hid : findOrder b id = none) :
    (b.add_order id OrderSide.UNKNOWN p size sym ts).2.cancel_order id =
      (true, b) := by
  have hkeys := findOrder_none_keys b id hid
  rw [add_order_eq_unknown b id p size sym ts hid]
  have hfo : findOrder { b with orders_by_id := b.orders_by_id ++
      [(id, ({ order_id := id, side := OrderSide.UNKNOWN, price := p,
               size := u32 size, timestamp := ts,
               symbol := sym } : Order))] } id = some
      { order_id := id, side := OrderSide.UNKNOWN, price := p,
        size := u32 size, timestamp := ts, symbol := sym } :=
    findOrder_append b id _ hid
  rw [cancel_order_eq_unknown _ id
    ({ order_id := id, side := OrderSide.UNKNOWN, price := p,
       size := u32 size, timestamp := ts, symbol := sym } : Order) hfo rfl]
  show (true, ({ b with
    orders_by_id := (b.orders_by_id ++
      [(id, ({ order_id := id, side := OrderSide.UNKNOWN, price := p,
               size := u32 size, timestamp := ts,
               symbol := sym } : Order))]).eraseP
      (fun kv => kv.1 == id) } : OrderBook)) = (true, b)
  rw [eraseP_assoc_append_fresh b.orders_by_id id
    { order_id := id, side := OrderSide.UNKNOWN, price := p,
      size := u32 size, timestamp := ts, symbol := sym } hkeys]

/-! ### Claim theorems -/

/-- Claim C2: `add_order` with an id that is already present fails (returns
`false`, the `DuplicateOrder` signal) and returns the book completely
unchanged — order index, both ladders, every price level. -/
theorem C2_duplicate_add_rejected (b : OrderBook) (id : String)
    (side : OrderSide) (p : Rat) (sz : Nat) (sym : String) (ts : Nat)
    (h : (findOrder b id).isSome = true) :
    b.add_order id side p sz sym ts = (false, b) := by
  unfold OrderBook.add_order
  simp [h]

/-- Witness for C2 at a concrete book holding order "a". -/
theorem C2_witness :
    (findOrder (OrderBook.emptyBook.add_order "a" OrderSide.BID 100 5 "X" 0).2
      "a").isSome = true ∧
    (OrderBook.emptyBook.add_order "a" OrderSide.BID 100 5 "X" 0).2.add_order
      "a" OrderSide.ASK 50 1 "Y" 9 =
      (false, (OrderBook.emptyBook.add_order "a" OrderSide.BID 100 5 "X" 0).2) :=
  ⟨by decide, C2_duplicate_add_rejected _ "a" OrderSide.ASK 50 1 "Y" 9 (by decide)⟩

/-- Counterexample to claim C3 as stated: an `add_order` with side `UNKNOWN`
is not rejected — it returns `true` — and it does change book state by
registering the order id in the global index. -/
theorem C3_counterexample :
    (OrderBook.emptyBook.add_order "a" OrderSide.UNKNOWN 100 5 "X" 0).1 = true ∧
    (OrderBook.emptyBook.add_order "a" OrderSide.UNKNOWN 100 5 "X" 0).2.has_order
      "a" = true ∧
    (OrderBook.emptyBook.add_order "a" OrderSide.UNKNOWN 100 5 "X" 0).2 ≠
      OrderBook.emptyBook := by
  refine ⟨by decide, by decide, by decide⟩

/-- Claim C3, amended: unknown-side operations are not rejected with an
`UnknownSide` error (no such error exists in the code). An add with side
`Unknown` returns success, registers the order id in the global index (with
the unknown side on its record) and touches neither ladder; a modify or a
cancel of an order whose recorded side is `Unknown` also returns success and
touches neither ladder. -/
theorem C3_amended (b : OrderBook) (id oid : String) (p : Rat) (sz n : Nat)
    (sym : String) (ts : Nat) (o : Order)
    (hid : findOrder b id = none) (ho : findOrder b oid = some o)
    (hside : o.side = OrderSide.UNKNOWN) :
    ((b.add_order id OrderSide.UNKNOWN p sz sym ts).1 = true ∧
     (b.add_order id OrderSide.UNKNOWN p sz sym ts).2.bid_levels = b.bid_levels ∧
     (b.add_order id OrderSide.UNKNOWN p sz sym ts).2.ask_levels = b.ask_levels ∧
     findOrder (b.add_order id OrderSide.UNKNOWN p sz sym ts).2 id =
       some { order_id := id, side := OrderSide.UNKNOWN, price := p
              size := u32 sz, timestamp := ts, symbol := sym }) ∧
    ((b.modify_order oid n).1 = true ∧
     (b.modify_order oid n).2.bid_levels = b.bid_levels ∧
     (b.modify_order oid n).2.ask_levels = b.ask_levels) ∧
    ((b.cancel_order oid).1 = true ∧
     (b.cancel_order oid).2.bid_levels = b.bid_levels ∧
     (b.cancel_order oid).2.ask_levels = b.ask_levels) := by
  have hsome : (findOrder b id).isSome = false := by rw [hid]; rfl
  obtain ⟨a1, s1, p1, z1, t1, y1⟩ := o
  have hs1 : s1 = OrderSide.UNKNOWN := hside
  subst hs1
  refine ⟨?_, ?_, ?_⟩
  · have heq : b.add_order id OrderSide.UNKNOWN p sz sym ts =
        (true, { b with orders_by_id := b.orders_by_id ++
          [(id, { order_id := id, side := OrderSide.UNKNOWN, price := p
                  size := u32 sz, timestamp := ts, symbol := sym })] }) := by
      unfold OrderBook.add_order
      rw [hsome]
      rfl
    rw [heq]
    exact ⟨rfl, rfl, rfl, findOrder_append b id _ hid⟩
  · unfold OrderBook.modify_order
    rw [ho]
    exact ⟨rfl, rfl, rfl⟩
  · unfold OrderBook.cancel_order
    rw [ho]
    exact ⟨rfl, rfl, rfl⟩

/-- Witness for C3's amended claim at a concrete book holding the unknown-side
order "u": the add part of the amended statement, instantiated. -/
theorem C3_amended_witness :
    ((OrderBook.emptyBook.add_order "u" OrderSide.UNKNOWN 7 3 "S" 1).2.add_order
      "w" OrderSide.UNKNOWN 2 4 "S" 5).1 = true ∧
    ((OrderBook.emptyBook.add_order "u" OrderSide.UNKNOWN 7 3 "S" 1).2.add_order
      "w" OrderSide.UNKNOWN 2 4 "S" 5).2.bid_levels =
      (OrderBook.emptyBook.add_order "u" OrderSide.UNKNOWN 7 3 "S" 1).2.bid_levels ∧
    ((OrderBook.emptyBook.add_order "u" OrderSide.UNKNOWN 7 3 "S" 1).2.add_order
      "w" OrderSide.UNKNOWN 2 4 "S" 5).2.ask_levels =
      (OrderBook.emptyBook.add_order "u" OrderSide.UNKNOWN 7 3 "S" 1).2.ask_levels ∧
    findOrder ((OrderBook.emptyBook.add_order "u" OrderSide.UNKNOWN 7 3 "S" 1).2.add_order
      "w" OrderSide.UNKNOWN 2 4 "S" 5).2 "w" =
      some { order_id := "w", side := OrderSide.UNKNOWN, price := 2
             size := u32 4, timestamp := 5, symbol := "S" } :=
  (C3_amended (OrderBook.emptyBook.add_order "u" OrderSide.UNKNOWN 7 3 "S" 1).2
    "w" "u" 2 4 6 "S" 5
    { order_id := "u", side := OrderSide.UNKNOWN, price := 7, size := 3
      timestamp := 1, symbol := "S" }
    (by decide) (by decide) rfl).1

/-- Counterexample to claim C1 as stated: the single-operation sequence
`add_order "a" BID 100 (size 0)` leaves a level of aggregate size zero on the
bid ladder, so the book is not mutually consistent after it. -/
theorem C1_counterexample :
    ¬ bookConsistent
      (applyOps OrderBook.emptyBook [Op.addOp "a" OrderSide.BID 100 0 "X" 0]) := by
  decide

/-- Claim C1 (amended): for every sequence of add/modify/cancel operations
applied to an initially empty book in which every dispatched add carries a
known side and every add and modify a positive size below `2^32`, and in
which no level's entry sum ever reaches `2^32` (so `uint32_t` arithmetic
never wraps), the book is mutually consistent after each operation: every
indexed order id has exactly one queue entry at the level of its recorded
side and price, each present level's `total_size` equals the sum of its
entries' sizes, and no present level has aggregate size zero. -/
theorem C1_amended (ops : List Op)
    (h : TraceOK OrderBook.emptyBook ops) (n : Nat) :
    bookConsistent (applyOps OrderBook.emptyBook (ops.take n)) :=
  wf_bookConsistent _
    (wf_applyOps _ _ wf_emptyBook (TraceOK_take _ ops h n))

/-- Witness for the amended C1 on the concrete trace add a, add b, modify a,
cancel b, checked after its third operation. -/
theorem C1_amended_witness :
    TraceOK OrderBook.emptyBook
      [Op.addOp "a" OrderSide.BID 100 5 "X" 0,
       Op.addOp "b" OrderSide.ASK 101 3 "X" 1,
       Op.modifyOp "a" 7, Op.cancelOp "b"] ∧
    bookConsistent (applyOps OrderBook.emptyBook
      ([Op.addOp "a" OrderSide.BID 100 5 "X" 0,
        Op.addOp "b" OrderSide.ASK 101 3 "X" 1,
        Op.modifyOp "a" 7, Op.cancelOp "b"].take 3)) :=
  ⟨by decide, C1_amended
    [Op.addOp "a" OrderSide.BID 100 5 "X" 0,
     Op.addOp "b" OrderSide.ASK 101 3 "X" 1,
     Op.modifyOp "a" 7, Op.cancelOp "b"] (by decide) 3⟩

/-- Counterexample to claim C6 as stated: `uint32_t` aggregate arithmetic
wraps. With resting sizes `2^31` and `2^31 - 1` at one level (aggregate
`2^32 - 1`), modifying the second order to `2^31` must, per the claim, move the
aggregate by the delta `+1` to `2^32`; the code wraps it to `0`. -/
theorem C6_counterexample :
    ((((OrderBook.emptyBook.add_order "a" OrderSide.BID 100 (2 ^ 31) "X" 0).2.add_order
        "b" OrderSide.BID 100 (2 ^ 31 - 1) "X" 1).2.modify_order "b" (2 ^ 31)).1
      = true) ∧
    ((((OrderBook.emptyBook.add_order "a" OrderSide.BID 100 (2 ^ 31) "X" 0).2.add_order
        "b" OrderSide.BID 100 (2 ^ 31 - 1) "X" 1).2.modify_order "b"
        (2 ^ 31)).2.get_size_at_price OrderSide.BID 100 : Int) ≠
      (((OrderBook.emptyBook.add_order "a" OrderSide.BID 100 (2 ^ 31) "X" 0).2.add_order
        "b" OrderSide.BID 100 (2 ^ 31 - 1) "X" 1).2.get_size_at_price
        OrderSide.BID 100 : Int) + ((2 ^ 31 : Int) - ((2 ^ 31 : Int) - 1)) := by
  refine ⟨by decide, by decide⟩

/-- Claim C6 (amended): on a well-formed book, for a live order id resting as
entry `e` on level `l` of its recorded side and price, `modify_order id n`
succeeds and, provided the new level sum does not overflow `uint32_t`,
the owning level's aggregate moves exactly by the delta
`n - e.size` (stated additively), the FIFO order of the level's entries is
unchanged, every other level of the owning ladder and the entire opposite
ladder are unchanged, and a modify to the entry's current size leaves the
aggregate unchanged. -/
theorem C6_amended (b : OrderBook) (id : String) (o : Order) (n : Nat)
    (l : PriceLevel) (e : OrderEntry)
    (hwf : WF b) (ho : findOrder b id = some o)
    (hl : findLevel (ladderOf b o.side) o.price = some l)
    (he : l.order_queue.find? (fun e2 => e2.order_id == id) = some e)
    (hnowrap : levelSum l - e.size + n < U32MOD) :
    (b.modify_order id n).1 = true ∧
    findLevel (ladderOf (b.modify_order id n).2 o.side) o.price =
      some (l.modify_order id n) ∧
    (l.modify_order id n).total_size + e.size = l.total_size + n ∧
    (l.modify_order id n).order_queue.map OrderEntry.order_id =
      l.order_queue.map OrderEntry.order_id ∧
    (∀ q, q ≠ o.price →
      findLevel (ladderOf (b.modify_order id n).2 o.side) q =
        findLevel (ladderOf b o.side) q) ∧
    (o.side = OrderSide.BID →
      (b.modify_order id n).2.ask_levels = b.ask_levels) ∧
    (o.side = OrderSide.ASK →
      (b.modify_order id n).2.bid_levels = b.bid_levels) ∧
    (e.size = n → (l.modify_order id n).total_size = l.total_size) := by
  have hmem := findOrder_some_mem b id o ho
  have hknown := (hwf.2.1 (id, o) hmem).2.1
  have hehm : e ∈ l.order_queue := List.mem_of_find?_eq_some he
  have hLspec := modify_order_spec l id n e he
  cases hside : o.side with
  | UNKNOWN => exact absurd hside hknown
  | BID =>
    rw [hside] at hl
    have hlw := hwf.2.2.2.2.1 (o.price, l) (findLevel_mem _ _ _ hl)
    have htot : l.total_size = levelSum l := hlw.2.2.1
    have hsumlt : levelSum l < U32MOD := hlw.2.2.2.1
    have hesz : e.size ≤ levelSum l := entry_size_le_levelSum l e hehm
    have htot' : (l.modify_order id n).total_size = levelSum l - e.size + n := by
      rw [hLspec]
      show u32add (u32sub l.total_size e.size) n = _
      rw [htot, u32sub_eq_of_le hesz hsumlt]
      exact u32add_eq_of_lt hnowrap
    rw [modify_order_eq_bid b id n o ho hside]
    refine ⟨rfl, ?_, ?_, ?_, ?_, fun _ => rfl,
      fun hc => absurd hc (by decide), ?_⟩
    · show findLevel (updateLevel b.bid_levels o.price
        (fun l2 => l2.modify_order id n)) o.price = some (l.modify_order id n)
      exact findLevel_updateLevel_self b.bid_levels o.price _ l hl
    · omega
    · rw [hLspec]
      exact ids_map_modify l.order_queue id n
    · intro q hq
      show findLevel (updateLevel b.bid_levels o.price
        (fun l2 => l2.modify_order id n)) q = findLevel b.bid_levels q
      exact findLevel_updateLevel_ne b.bid_levels o.price q _ hq
    · intro hsz
      omega
  | ASK =>
    rw [hside] at hl
    have hlw := hwf.2.2.2.2.2 (o.price, l) (findLevel_mem _ _ _ hl)
    have htot : l.total_size = levelSum l := hlw.2.2.1
    have hsumlt : levelSum l < U32MOD := hlw.2.2.2.1
    have hesz : e.size ≤ levelSum l := entry_size_le_levelSum l e hehm
    have htot' : (l.modify_order id n).total_size = levelSum l - e.size + n := by
      rw [hLspec]
      show u32add (u32sub l.total_size e.size) n = _
      rw [htot, u32sub_eq_of_le hesz hsumlt]
      exact u32add_eq_of_lt hnowrap
    rw [modify_order_eq_ask b id n o ho hside]
    refine ⟨rfl, ?_, ?_, ?_, ?_, fun hc => absurd hc (by decide),
      fun _ => rfl, ?_⟩
    · show findLevel (updateLevel b.ask_levels o.price
        (fun l2 => l2.modify_order id n)) o.price = some (l.modify_order id n)
      exact findLevel_updateLevel_self b.ask_levels o.price _ l hl
    · omega
    · rw [hLspec]
      exact ids_map_modify l.order_queue id n
    · intro q hq
      show findLevel (updateLevel b.ask_levels o.price
        (fun l2 => l2.modify_order id n)) q = findLevel b.ask_levels q
      exact findLevel_updateLevel_ne b.ask_levels o.price q _ hq
    · intro hsz
      omega

/-- Witness for the amended C6: on the two-order book at bid price 100
(resting sizes 5 then 3), modifying order a to size 7 succeeds, moves the
level aggregate from 8 to 10, and keeps the FIFO ids a, b. -/
theorem C6_amended_witness :
    WF ((OrderBook.emptyBook.add_order "a" OrderSide.BID 100 5 "X" 0).2.add_order
      "b" OrderSide.BID 100 3 "X" 1).2 ∧
    ((((OrderBook.emptyBook.add_order "a" OrderSide.BID 100 5 "X" 0).2.add_order
      "b" OrderSide.BID 100 3 "X" 1).2.modify_order "a" 7).1 = true) ∧
    (PriceLevel.modify_order
        { price := 100, total_size := 8, order_queue :=
          [{ order_id := "a", size := 5, timestamp := 0 },
           { order_id := "b", size := 3, timestamp := 1 }] } "a" 7).total_size
      + 5 = (8 : Nat) + 7 ∧
    (PriceLevel.modify_order
        { price := 100, total_size := 8, order_queue :=
          [{ order_id := "a", size := 5, timestamp := 0 },
           { order_id := "b", size := 3, timestamp := 1 }] } "a" 7).order_queue.map
      OrderEntry.order_id = ["a", "b"] := by
  have h := C6_amended
    ((OrderBook.emptyBook.add_order "a" OrderSide.BID 100 5 "X" 0).2.add_order
      "b" OrderSide.BID 100 3 "X" 1).2
    "a"
    { order_id := "a", side := OrderSide.BID, price := 100, size := 5
      timestamp := 0, symbol := "X" }
    7
    { price := 100, total_size := 8, order_queue :=
      [{ order_id := "a", size := 5, timestamp := 0 },
       { order_id := "b", size := 3, timestamp := 1 }] }
    { order_id := "a", size := 5, timestamp := 0 }
    (by decide) (by decide) (by decide) (by decide) (by decide)
  exact ⟨by decide, h.1, h.2.2.1, h.2.2.2.1⟩

/-- Claim C7: on a well-formed book, `get_best_bid` returns the pair of the
maximum bid-ladder price key and that level's maintained aggregate size, or
`(0, 0)` when the bid ladder is empty; symmetrically `get_best_ask` returns
the minimum ask price key with its aggregate, or `(0, 0)` when empty (both
are total functions, so neither can fail). -/
theorem C7_best_levels (b : OrderBook) (hwf : WF b) :
    (b.bid_levels = [] → b.get_best_bid = (0, 0)) ∧
    (b.bid_levels ≠ [] →
      ∃ l, (b.get_best_bid.1, l) ∈ b.bid_levels ∧
        b.get_best_bid.2 = l.total_size ∧
        ∀ kv ∈ b.bid_levels, kv.1 ≤ b.get_best_bid.1) ∧
    (b.ask_levels = [] → b.get_best_ask = (0, 0)) ∧
    (b.ask_levels ≠ [] →
      ∃ l, (b.get_best_ask.1, l) ∈ b.ask_levels ∧
        b.get_best_ask.2 = l.total_size ∧
        ∀ kv ∈ b.ask_levels, b.get_best_ask.1 ≤ kv.1) := by
  obtain ⟨hkeysN, horders, hbidS, haskS, hbidL, haskL⟩ := hwf
  refine ⟨?_, ?_, ?_, ?_⟩
  · intro h
    unfold OrderBook.get_best_bid
    rw [h]
  · intro hne
    cases hb : b.bid_levels with
    | nil => exact absurd hb hne
    | cons kv rest =>
      rw [hb] at hbidS
      have hlw := hbidL kv (by rw [hb]; exact List.mem_cons_self kv rest)
      have hprice : kv.2.price = kv.1 := hlw.1
      have hbb : b.get_best_bid = (kv.2.price, kv.2.total_size) := by
        unfold OrderBook.get_best_bid
        rw [hb]
      refine ⟨kv.2, ?_, ?_, ?_⟩
      · rw [hbb]
        show (kv.2.price, kv.2) ∈ kv :: rest
        rw [hprice]
        exact List.mem_cons_self kv rest
      · rw [hbb]
      · intro kv' hkv'
        rw [hbb]
        show kv'.1 ≤ kv.2.price
        rw [hprice]
        rcases List.mem_cons.mp hkv' with heq | hm
        · rw [heq]
        · have hp := (List.pairwise_cons.mp hbidS).1 kv' hm
          have hlt : kv'.1 < kv.1 := by simpa [bidLt] using hp
          exact le_of_lt hlt
  · intro h
    unfold OrderBook.get_best_ask
    rw [h]
  · intro hne
    cases hb : b.ask_levels with
    | nil => exact absurd hb hne
    | cons kv rest =>
      rw [hb] at haskS
      have hlw := haskL kv (by rw [hb]; exact List.mem_cons_self kv rest)
      have hprice : kv.2.price = kv.1 := hlw.1
      have hbb : b.get_best_ask = (kv.2.price, kv.2.total_size) := by
        unfold OrderBook.get_best_ask
        rw [hb]
      refine ⟨kv.2, ?_, ?_, ?_⟩
      · rw [hbb]
        show (kv.2.price, kv.2) ∈ kv :: rest
        rw [hprice]
        exact List.mem_cons_self kv rest
      · rw [hbb]
      · intro kv' hkv'
        rw [hbb]
        show kv.2.price ≤ kv'.1
        rw [hprice]
        rcases List.mem_cons.mp hkv' with heq | hm
        · rw [heq]
        · have hp := (List.pairwise_cons.mp haskS).1 kv' hm
          have hlt : kv.1 < kv'.1 := by simpa [askLt] using hp
          exact le_of_lt hlt

/-- Witness for C7 on a book with bid levels 100 and 101 and ask levels 102
and 103: the best bid is level 101 and the best ask level 102. -/
theorem C7_witness :
    WF (applyOps OrderBook.emptyBook
      [Op.addOp "a" OrderSide.BID 100 5 "X" 0,
       Op.addOp "b" OrderSide.BID 101 4 "X" 1,
       Op.addOp "c" OrderSide.ASK 102 7 "X" 2,
       Op.addOp "d" OrderSide.ASK 103 2 "X" 3]) ∧
    ((applyOps OrderBook.emptyBook
      [Op.addOp "a" OrderSide.BID 100 5 "X" 0,
       Op.addOp "b" OrderSide.BID 101 4 "X" 1,
       Op.addOp "c" OrderSide.ASK 102 7 "X" 2,
       Op.addOp "d" OrderSide.ASK 103 2 "X" 3]).bid_levels = [] →
      (applyOps OrderBook.emptyBook
        [Op.addOp "a" OrderSide.BID 100 5 "X" 0,
         Op.addOp "b" OrderSide.BID 101 4 "X" 1,
         Op.addOp "c" OrderSide.ASK 102 7 "X" 2,
         Op.addOp "d" OrderSide.ASK 103 2 "X" 3]).get_best_bid = (0, 0)) ∧
    ((applyOps OrderBook.emptyBook
      [Op.addOp "a" OrderSide.BID 100 5 "X" 0,
       Op.addOp "b" OrderSide.BID 101 4 "X" 1,
       Op.addOp "c" OrderSide.ASK 102 7 "X" 2,
       Op.addOp "d" OrderSide.ASK 103 2 "X" 3]).bid_levels ≠ [] →
      ∃ l, ((applyOps OrderBook.emptyBook
        [Op.addOp "a" OrderSide.BID 100 5 "X" 0,
         Op.addOp "b" OrderSide.BID 101 4 "X" 1,
         Op.addOp "c" OrderSide.ASK 102 7 "X" 2,
         Op.addOp "d" OrderSide.ASK 103 2 "X" 3]).get_best_bid.1, l) ∈
          (applyOps OrderBook.emptyBook
            [Op.addOp "a" OrderSide.BID 100 5 "X" 0,
             Op.addOp "b" OrderSide.BID 101 4 "X" 1,
             Op.addOp "c" OrderSide.ASK 102 7 "X" 2,
             Op.addOp "d" OrderSide.ASK 103 2 "X" 3]).bid_levels ∧
        (applyOps OrderBook.emptyBook
          [Op.addOp "a" OrderSide.BID 100 5 "X" 0,
           Op.addOp "b" OrderSide.BID 101 4 "X" 1,
           Op.addOp "c" OrderSide.ASK 102 7 "X" 2,
           Op.addOp "d" OrderSide.ASK 103 2 "X" 3]).get_best_bid.2 =
          l.total_size ∧
        ∀ kv ∈ (applyOps OrderBook.emptyBook
          [Op.addOp "a" OrderSide.BID 100 5 "X" 0,
           Op.addOp "b" OrderSide.BID 101 4 "X" 1,
           Op.addOp "c" OrderSide.ASK 102 7 "X" 2,
           Op.addOp "d" OrderSide.ASK 103 2 "X" 3]).bid_levels,
          kv.1 ≤ (applyOps OrderBook.emptyBook
            [Op.addOp "a" OrderSide.BID 100 5 "X" 0,
             Op.addOp "b" OrderSide.BID 101 4 "X" 1,
             Op.addOp "c" OrderSide.ASK 102 7 "X" 2,
             Op.addOp "d" OrderSide.ASK 103 2 "X" 3]).get_best_bid.1) ∧
    ((applyOps OrderBook.emptyBook
      [Op.addOp "a" OrderSide.BID 100 5 "X" 0,
       Op.addOp "b" OrderSide.BID 101 4 "X" 1,
       Op.addOp "c" OrderSide.ASK 102 7 "X" 2,
       Op.addOp "d" OrderSide.ASK 103 2 "X" 3]).ask_levels = [] →
      (applyOps OrderBook.emptyBook
        [Op.addOp "a" OrderSide.BID 100 5 "X" 0,
         Op.addOp "b" OrderSide.BID 101 4 "X" 1,
         Op.addOp "c" OrderSide.ASK 102 7 "X" 2,
         Op.addOp "d" OrderSide.ASK 103 2 "X" 3]).get_best_ask = (0, 0)) ∧
    ((applyOps OrderBook.emptyBook
      [Op.addOp "a" OrderSide.BID 100 5 "X" 0,
       Op.addOp "b" OrderSide.BID 101 4 "X" 1,
       Op.addOp "c" OrderSide.ASK 102 7 "X" 2,
       Op.addOp "d" OrderSide.ASK 103 2 "X" 3]).ask_levels ≠ [] →
      ∃ l, ((applyOps OrderBook.emptyBook
        [Op.addOp "a" OrderSide.BID 100 5 "X" 0,
         Op.addOp "b" OrderSide.BID 101 4 "X" 1,
         Op.addOp "c" OrderSide.ASK 102 7 "X" 2,
         Op.addOp "d" OrderSide.ASK 103 2 "X" 3]).get_best_ask.1, l) ∈
          (applyOps OrderBook.emptyBook
            [Op.addOp "a" OrderSide.BID 100 5 "X" 0,
             Op.addOp "b" OrderSide.BID 101 4 "X" 1,
             Op.addOp "c" OrderSide.ASK 102 7 "X" 2,
             Op.addOp "d" OrderSide.ASK 103 2 "X" 3]).ask_levels ∧
        (applyOps OrderBook.emptyBook
          [Op.addOp "a" OrderSide.BID 100 5 "X" 0,
           Op.addOp "b" OrderSide.BID 101 4 "X" 1,
           Op.addOp "c" OrderSide.ASK 102 7 "X" 2,
           Op.addOp "d" OrderSide.ASK 103 2 "X" 3]).get_best_ask.2 =
          l.total_size ∧
        ∀ kv ∈ (applyOps OrderBook.emptyBook
          [Op.addOp "a" OrderSide.BID 100 5 "X" 0,
           Op.addOp "b" OrderSide.BID 101 4 "X" 1,
           Op.addOp "c" OrderSide.ASK 102 7 "X" 2,
           Op.addOp "d" OrderSide.ASK 103 2 "X" 3]).ask_levels,
          (applyOps OrderBook.emptyBook
            [Op.addOp "a" OrderSide.BID 100 5 "X" 0,
             Op.addOp "b" OrderSide.BID 101 4 "X" 1,
             Op.addOp "c" OrderSide.ASK 102 7 "X" 2,
             Op.addOp "d" OrderSide.ASK 103 2 "X" 3]).get_best_ask.1 ≤ kv.1) := by
  refine ⟨by decide, ?_⟩
  exact C7_best_levels (applyOps OrderBook.emptyBook
    [Op.addOp "a" OrderSide.BID 100 5 "X" 0,
     Op.addOp "b" OrderSide.BID 101 4 "X" 1,
     Op.addOp "c" OrderSide.ASK 102 7 "X" 2,
     Op.addOp "d" OrderSide.ASK 103 2 "X" 3]) (by decide)

/-- Claim C8: on a well-formed book, adding an unseen order id (any side,
price and size, including side Unknown) and then cancelling that id returns
the book to exactly its prior state — the order index is restored and a
price level created by the add is erased again when the cancel empties it —
and the cancel reports success. -/
theorem C8_add_cancel_roundtrip (b : OrderBook) (id : String)
    (side : OrderSide) (p : Rat) (size : Nat) (sym : String) (ts : Nat)
    (hwf : WF b) (hid : findOrder b id = none) :
    (b.add_order id side p size sym ts).2.cancel_order id = (true, b) := by
  cases side with
  | BID => exact add_cancel_bid b id p size sym ts hwf hid
  | ASK => exact add_cancel_ask b id p size sym ts hwf hid
  | UNKNOWN => exact add_cancel_unknown b id p size sym ts hid

/-- Witness for C8: on the one-order book holding a at bid 100, adding z at
the fresh bid price 101 and cancelling it restores the book exactly. -/
theorem C8_witness :
    WF (OrderBook.emptyBook.add_order "a" OrderSide.BID 100 5 "X" 0).2 ∧
    findOrder (OrderBook.emptyBook.add_order "a" OrderSide.BID 100 5 "X" 0).2
      "z" = none ∧
    ((OrderBook.emptyBook.add_order "a" OrderSide.BID 100 5 "X" 0).2.add_order
      "z" OrderSide.BID 101 7 "X" 1).2.cancel_order "z" =
      (true, (OrderBook.emptyBook.add_order "a" OrderSide.BID 100 5 "X" 0).2) :=
  ⟨by decide, by decide, C8_add_cancel_roundtrip
    (OrderBook.emptyBook.add_order "a" OrderSide.BID 100 5 "X" 0).2 "z"
    OrderSide.BID 101 7 "X" 1 (by decide) (by decide)⟩

/-- Claim C9: an event whose symbol is the empty string is dropped by the
consumer after a warning: no order book is touched and nothing is published
(the generic `total_events` statistics counter still increments, as it does
for every dequeued event). -/
theorem C9_empty_symbol_discarded (st : ConsumerState) (ev : OrderBookEvent)
    (h : ev.symbol = "") :
    (consumeEvent st ev).order_books = st.order_books ∧
    (consumeEvent st ev).published = st.published ∧
    (consumeEvent st ev).warnings = st.warnings + 1 ∧
    (consumeEvent st ev).total_events = st.total_events + 1 := by
  have hE : ("" : String).isEmpty = true := rfl
  unfold consumeEvent
  simp [h, hE]

/-- Writing a book back under a key just appended to the map rewrites exactly
that final pair. -/
theorem booksStore_append_fresh (books : List (String × OrderBook))
    (sym : String) (b0 bnew : OrderBook)
    (h : books.find? (fun kv => kv.1 == sym) = none) :
    booksStore (books ++ [(sym, b0)]) sym bnew = books ++ [(sym, bnew)] := by
  induction books with
  | nil => simp [booksStore]
  | cons kv rest ih =>
    have hkv : (kv.1 == sym) = false := by
      have := List.find?_eq_none.mp h kv (by simp)
      simpa using this
    have hrest : rest.find? (fun kv => kv.1 == sym) = none := by
      rw [List.find?_eq_none] at h ⊢
      intro x hx
      exact h x (by simp [hx])
    have ih2 := ih hrest
    unfold booksStore at ih2 ⊢
    simp only [List.cons_append, List.map_cons, hkv, Bool.false_eq_true,
      if_false, ih2]

/-- Claim C10: a dequeued event with a non-empty symbol whose type mutates no
book (`TRADE`, `QUOTE_UPDATE`, `MARKET_STATUS`, `UNKNOWN`) still triggers a
book-snapshot publication for that symbol; looking up the per-symbol book
creates a fresh empty book for a never-before-seen symbol, so the published
snapshot carries best bid `(0, 0)` and best ask `(0, 0)` (a `TRADE`
additionally publishes its trade print first). -/
theorem C10_fresh_symbol_snapshot (st : ConsumerState) (ev : OrderBookEvent)
    (hsym : ev.symbol.isEmpty = false)
    (hty : ev.event_type = OrderBookEventType.TRADE ∨
           ev.event_type = OrderBookEventType.QUOTE_UPDATE ∨
           ev.event_type = OrderBookEventType.MARKET_STATUS ∨
           ev.event_type = OrderBookEventType.UNKNOWN)
    (hfresh : st.order_books.find? (fun kv => kv.1 == ev.symbol) = none) :
    (consumeEvent st ev).order_books =
      st.order_books ++ [(ev.symbol, OrderBook.emptyBook)] ∧
    (consumeEvent st ev).published = st.published ++
      (if ev.event_type = OrderBookEventType.TRADE then
        [PubMsg.tradeUpdate ev.symbol ev.trade_price ev.trade_size
          (if ev.is_aggressor then OrderSide.BID else OrderSide.ASK)]
       else []) ++
      [PubMsg.bookUpdate ev.symbol (0, 0) (0, 0)] := by
  have hstore := booksStore_append_fresh st.order_books ev.symbol
    OrderBook.emptyBook OrderBook.emptyBook hfresh
  have hbid : OrderBook.emptyBook.get_best_bid = (0, 0) := rfl
  have hask : OrderBook.emptyBook.get_best_ask = (0, 0) := rfl
  rcases hty with h | h | h | h <;>
    refine ⟨?_, ?_⟩ <;>
      simp [consumeEvent, hsym, booksIndex, hfresh, h, hstore, hbid, hask]

/-- Witness for C10: a `MARKET_STATUS` event for the fresh symbol "S" on the
initial consumer state. -/
theorem C10_witness :
    (consumeEvent ConsumerState.init
      { symbol := "S", event_type := OrderBookEventType.MARKET_STATUS }).order_books =
      ConsumerState.init.order_books ++ [("S", OrderBook.emptyBook)] ∧
    (consumeEvent ConsumerState.init
      { symbol := "S", event_type := OrderBookEventType.MARKET_STATUS }).published =
      ConsumerState.init.published ++
      (if ({ symbol := "S", event_type := OrderBookEventType.MARKET_STATUS } :
            OrderBookEvent).event_type = OrderBookEventType.TRADE then
        [PubMsg.tradeUpdate "S" 0 0 OrderSide.ASK]
       else []) ++
      [PubMsg.bookUpdate "S" (0, 0) (0, 0)] :=
  C10_fresh_symbol_snapshot ConsumerState.init
    { symbol := "S", event_type := OrderBookEventType.MARKET_STATUS }
    (by decide) (Or.inr (Or.inr (Or.inl rfl))) rfl

/-! ### Ring buffer lemmas -/

/-- Reading a freshly written slot. -/
theorem getD_set_self {T : Type} [Inhabited T] (l : List T) (n : Nat) (a : T)
    (h : n < l.length) : (l.set n a).getD n default = a := by
  simp [List.getD_eq_getElem?_getD, List.getElem?_set_self h]

/-- Reading any other slot is unaffected by a write. -/
theorem getD_set_ne {T : Type} [Inhabited T] (l : List T) (n m : Nat) (a : T)
    (h : m ≠ n) : (l.set n a).getD m default = l.getD m default := by
  simp [List.getD_eq_getElem?_getD, List.getElem?_set_ne (Ne.symm h)]

/-- The doubling loop of the constructor, started at any power of two that is
below every admissible result, stops at the least power of two that is at
least `cap`. -/
theorem nextPow2Go_spec (cap : Nat) :
    ∀ (fuel j : Nat), cap - 2 ^ j ≤ fuel →
    (∀ m, cap ≤ 2 ^ m → 2 ^ j ≤ 2 ^ m) →
    ∃ i, nextPow2Go cap (2 ^ j) = 2 ^ i ∧ cap ≤ 2 ^ i ∧
      (∀ m, cap ≤ 2 ^ m → 2 ^ i ≤ 2 ^ m) := by
  intro fuel
  induction fuel with
  | zero =>
    intro j hfuel hmin
    have hstop : ¬ (0 < 2 ^ j ∧ 2 ^ j < cap) := by
      intro hcon
      omega
    rw [nextPow2Go, dif_neg hstop]
    exact ⟨j, rfl, by omega, hmin⟩
  | succ n ih =>
    intro j hfuel hmin
    by_cases hlt : 2 ^ j < cap
    · have hrun : 0 < 2 ^ j ∧ 2 ^ j < cap := ⟨Nat.two_pow_pos j, hlt⟩
      rw [nextPow2Go, dif_pos hrun]
      have hdouble : 2 ^ j * 2 = 2 ^ (j + 1) := (pow_succ 2 j).symm
      rw [hdouble]
      refine ih (j + 1) ?_ ?_
      · have h1 : 1 ≤ 2 ^ j := Nat.two_pow_pos j
        have h2 : 2 ^ (j + 1) = 2 ^ j + 2 ^ j := by rw [pow_succ]; omega
        omega
      · intro m hm
        have hj : 2 ^ j < 2 ^ m := lt_of_lt_of_le hlt hm
        have hjm : j < m := (Nat.pow_lt_pow_iff_right (by omega)).mp hj
        exact Nat.pow_le_pow_right (by omega) hjm
    · have hstop : ¬ (0 < 2 ^ j ∧ 2 ^ j < cap) := by
        intro hcon
        exact hlt hcon.2
      rw [nextPow2Go, dif_neg hstop]
      exact ⟨j, rfl, by omega, hmin⟩

/-- `nextPow2 cap` is the least power of two that is at least `cap`. -/
theorem nextPow2_spec (cap : Nat) :
    ∃ i, nextPow2 cap = 2 ^ i ∧ cap ≤ 2 ^ i ∧
      (∀ m, cap ≤ 2 ^ m → 2 ^ i ≤ 2 ^ m) := by
  have h := nextPow2Go_spec cap cap 0 (by simp) ?_
  · simpa [nextPow2] using h
  · intro m _
    exact Nat.two_pow_pos m

namespace SPSCRingBuffer

/-- Structural well-formedness of a ring buffer: power-of-two capacity, mask
`capacity - 1`, indices inside the storage, storage of full length. -/
def RingWF {T : Type} (r : SPSCRingBuffer T) : Prop :=
  (∃ k, r.capacity = 2 ^ k) ∧ r.mask = r.capacity - 1 ∧
  r.head < r.capacity ∧ r.tail < r.capacity ∧
  r.buffer.length = r.capacity

/-- A constructed buffer is well-formed. -/
theorem create_wf {T : Type} [Inhabited T] (cap : Nat) (r : SPSCRingBuffer T)
    (h : create T cap = some r) : RingWF r := by
  unfold create at h
  by_cases hz : cap = 0
  · rw [if_pos hz] at h
    exact absurd h (by simp)
  · rw [if_neg hz] at h
    obtain ⟨i, hi, hge, _⟩ := nextPow2_spec cap
    have hpos : 0 < nextPow2 cap := by rw [hi]; exact Nat.two_pow_pos i
    injection h with h
    subst h
    exact ⟨⟨i, hi⟩, rfl, hpos, hpos, by simp⟩

/-- `push` preserves well-formedness. -/
theorem push_wf {T : Type} (r : SPSCRingBuffer T) (v : T) (h : RingWF r) :
    RingWF (r.push v).2 := by
  obtain ⟨⟨k, hk⟩, hm, hh, ht, hlen⟩ := h
  unfold push
  by_cases hf : r.isFull
  · rw [if_pos hf]
    exact ⟨⟨k, hk⟩, hm, hh, ht, hlen⟩
  · rw [if_neg hf]
    refine ⟨⟨k, hk⟩, hm, ?_, ht, by simpa using hlen⟩
    show (r.head + 1) &&& r.mask < r.capacity
    rw [hm, hk]
    rw [Nat.and_pow_two_sub_one_eq_mod]
    exact Nat.mod_lt _ (Nat.two_pow_pos k)

/-- A successful `pop` preserves well-formedness. -/
theorem pop_wf {T : Type} [Inhabited T] (r : SPSCRingBuffer T) (v : T)
    (r' : SPSCRingBuffer T) (h : RingWF r) (hp : r.pop = some (v, r')) :
    RingWF r' := by
  obtain ⟨⟨k, hk⟩, hm, hh, ht, hlen⟩ := h
  unfold pop at hp
  by_cases he : r.isEmptyBuf
  · rw [if_pos he] at hp
    exact absurd hp (by simp)
  · rw [if_neg he] at hp
    injection hp with hp
    injection hp with _ hp
    subst hp
    refine ⟨⟨k, hk⟩, hm, hh, ?_, hlen⟩
    show (r.tail + 1) &&& r.mask < r.capacity
    rw [hm, hk]
    rw [Nat.and_pow_two_sub_one_eq_mod]
    exact Nat.mod_lt _ (Nat.two_pow_pos k)

/-- Every reachable ring state is well-formed. -/
theorem reach_wf {T : Type} [Inhabited T] (r : SPSCRingBuffer T)
    (h : Reach r) : RingWF r := by
  induction h with
  | created cap r hc => exact create_wf cap r hc
  | pushed r v _ ih => exact push_wf r v ih
  | popped r v r' _ hp ih => exact pop_wf r v r' ih hp

/-- Pushing a list into a ring whose indices have not yet wrapped (tail at 0,
head at `j`, and enough free room) succeeds push by push and writes the values
at consecutive slots `j, j+1, …`. -/
theorem pushSeq_no_wrap {T : Type} [Inhabited T] (k : Nat) (vs : List T) :
    ∀ (r : SPSCRingBuffer T) (j : Nat),
    r.capacity = 2 ^ k → r.mask = r.capacity - 1 → r.tail = 0 → r.head = j →
    r.buffer.length = r.capacity → j + vs.length ≤ r.capacity - 1 →
    ∃ r', pushSeq r vs = some r' ∧ r'.capacity = r.capacity ∧
      r'.mask = r.mask ∧ r'.tail = 0 ∧ r'.head = j + vs.length ∧
      r'.buffer.length = r.capacity ∧
      (∀ m, m < j → r'.buffer.getD m default = r.buffer.getD m default) ∧
      (∀ i, i < vs.length → r'.buffer.getD (j + i) default = vs.getD i default) := by
  induction vs with
  | nil =>
    intro r j hc hm ht hh hlen hbound
    exact ⟨r, rfl, rfl, rfl, ht, by simpa using hh, hlen,
      fun m _ => rfl, fun i hi => absurd hi (by simp)⟩
  | cons v vs ih =>
    intro r j hc hm ht hh hlen hbound
    have hcpos : 0 < r.capacity := by rw [hc]; exact Nat.two_pow_pos k
    have hj1 : j + 1 < r.capacity := by
      simp only [List.length_cons] at hbound
      omega
    have hmod : (j + 1) % 2 ^ k = j + 1 := Nat.mod_eq_of_lt (hc ▸ hj1)
    have hfull : r.isFull = false := by
      unfold SPSCRingBuffer.isFull
      rw [hh, hm, hc, Nat.and_pow_two_sub_one_eq_mod, hmod, ht]
      simp
    have hpush : r.push v =
        (true, { r with buffer := r.buffer.set r.head v
                        head := (r.head + 1) &&& r.mask }) := by
      unfold SPSCRingBuffer.push
      rw [hfull]
      rfl
    have hhead1 : ((r.head + 1) &&& r.mask) = j + 1 := by
      rw [hh, hm, hc, Nat.and_pow_two_sub_one_eq_mod, hmod]
    obtain ⟨r', hseq, hc', hm', ht', hh', hlen', hlow, hhigh⟩ :=
      ih { r with buffer := r.buffer.set r.head v
                  head := (r.head + 1) &&& r.mask } (j + 1)
        hc hm ht hhead1 (by simpa using hlen)
        (by
          show j + 1 + vs.length ≤ r.capacity - 1
          simp only [List.length_cons] at hbound
          omega)
    refine ⟨r', ?_, hc', hm', ht', ?_, hlen', ?_, ?_⟩
    · show (match r.try_push v with
        | (true, r2) => pushSeq r2 vs
        | (false, _) => none) = some r'
      unfold SPSCRingBuffer.try_push
      rw [hpush]
      exact hseq
    · rw [hh']
      simp only [List.length_cons]
      omega
    · intro m hmj
      rw [hlow m (by omega)]
      simp only
      exact getD_set_ne r.buffer r.head m v (by omega)
    · intro i hi
      match i with
      | 0 =>
        have hj := hlow j (by omega)
        simp only at hj
        rw [Nat.add_zero, hj, hh]
        rw [getD_set_self r.buffer j v (by omega)]
        rfl
      | i + 1 =>
        have := hhigh i (by simpa using hi)
        rw [show j + (i + 1) = (j + 1) + i by omega]
        rw [this]
        rfl

/-- Popping `ws.length` values from a ring whose slots `t, t+1, …` hold `ws`
(and whose indices have not wrapped) yields exactly `ws`. -/
theorem popSeq_no_wrap {T : Type} [Inhabited T] (k : Nat) (ws : List T) :
    ∀ (r : SPSCRingBuffer T) (t : Nat),
    r.capacity = 2 ^ k → r.mask = r.capacity - 1 → r.tail = t →
    r.buffer.length = r.capacity → t + ws.length ≤ r.head →
    r.head ≤ r.capacity - 1 →
    (∀ i, i < ws.length → r.buffer.getD (t + i) default = ws.getD i default) →
    ∃ r', popSeq r ws.length = some (ws, r') := by
  induction ws with
  | nil =>
    intro r t _ _ _ _ _ _ _
    exact ⟨r, rfl⟩
  | cons w ws ih =>
    intro r t hc hm ht hlen hbound hhead hvals
    have hcpos : 0 < r.capacity := by rw [hc]; exact Nat.two_pow_pos k
    have htlt : t + 1 < r.capacity := by
      simp only [List.length_cons] at hbound
      omega
    have hne : r.isEmptyBuf = false := by
      unfold SPSCRingBuffer.isEmptyBuf
      rw [ht]
      have hneq : r.head ≠ t := by
        simp only [List.length_cons] at hbound
        omega
      simp [hneq]
    have hw : r.buffer.getD r.tail default = w := by
      have h0 := hvals 0 (by simp)
      rw [ht]
      simpa using h0
    have hpop : r.pop = some (w, { r with tail := (r.tail + 1) &&& r.mask }) := by
      unfold SPSCRingBuffer.pop
      rw [hne, hw]
      rfl
    have htail2 : ((r.tail + 1) &&& r.mask) = t + 1 := by
      rw [ht, hm, hc, Nat.and_pow_two_sub_one_eq_mod,
        Nat.mod_eq_of_lt (hc ▸ htlt)]
    obtain ⟨r', hseq⟩ :=
      ih { r with tail := (r.tail + 1) &&& r.mask } (t + 1)
        hc hm htail2 hlen
        (by
          show t + 1 + ws.length ≤ r.head
          simp only [List.length_cons] at hbound
          omega)
        hhead
        (by
          intro i hi
          have := hvals (i + 1) (by simpa using hi)
          simpa [show t + 1 + i = t + (i + 1) by omega] using this)
    refine ⟨r', ?_⟩
    show (match r.try_pop with
      | some (v, r2) =>
        match popSeq r2 ws.length with
        | some (vs, r3) => some (v :: vs, r3)
        | none => none
      | none => none) = some (w :: ws, r')
    unfold SPSCRingBuffer.try_pop
    rw [hpop]
    show (match popSeq { r with tail := (r.tail + 1) &&& r.mask } ws.length with
      | some (vs, r3) => some (w :: vs, r3)
      | none => none) = some (w :: ws, r')
    rw [hseq]

end SPSCRingBuffer

/-- Claim C4: starting from a freshly constructed (empty) ring of capacity
`c`, any `n ≤ c - 1` successive `try_push` calls of `v₁ … vₙ` all succeed, and
`n` subsequent successive `try_pop` calls return exactly `v₁ … vₙ` in order. -/
theorem C4_ring_fifo_roundtrip (cap : Nat) (r : SPSCRingBuffer Nat)
    (hr : SPSCRingBuffer.create Nat cap = some r) (vs : List Nat)
    (h : vs.length ≤ r.capacity - 1) :
    ∃ r', SPSCRingBuffer.pushSeq r vs = some r' ∧
      ∃ r'', SPSCRingBuffer.popSeq r' vs.length = some (vs, r'') := by
  unfold SPSCRingBuffer.create at hr
  by_cases hz : cap = 0
  · rw [if_pos hz] at hr
    exact absurd hr (by simp)
  · rw [if_neg hz] at hr
    obtain ⟨k, hk, _, _⟩ := nextPow2_spec cap
    injection hr with hr
    have hcap : r.capacity = 2 ^ k := by rw [← hr, hk]
    have hmask : r.mask = r.capacity - 1 := by rw [← hr]
    have htail : r.tail = 0 := by rw [← hr]
    have hhead : r.head = 0 := by rw [← hr]
    have hblen : r.buffer.length = r.capacity := by rw [← hr]; simp
    obtain ⟨r', hseq, hc', hm', ht', hh', hlen', hlow, hhigh⟩ :=
      SPSCRingBuffer.pushSeq_no_wrap k vs r 0 hcap hmask htail hhead hblen
        (by simpa using h)
    refine ⟨r', hseq, ?_⟩
    refine SPSCRingBuffer.popSeq_no_wrap k vs r' 0
      (hc'.trans hcap) (by rw [hm', hmask, hc'])
      ht' (by rw [hlen', hc']) ?_ ?_ ?_
    · rw [hh']
    · rw [hh', hc']
      simpa using h
    · intro i hi
      simpa using hhigh i hi

/-- Witness for C4: capacity request 3 (rounded to 4), pushing and popping
`[10, 20, 30]`. -/
theorem C4_witness :
    ∃ r', SPSCRingBuffer.pushSeq
        (⟨4, 3, [0, 0, 0, 0], 0, 0⟩ : SPSCRingBuffer Nat) [10, 20, 30] =
        some r' ∧
      ∃ r'', SPSCRingBuffer.popSeq r' [10, 20, 30].length =
        some ([10, 20, 30], r'') := by
  have hcr : SPSCRingBuffer.create Nat 3 =
      some (⟨4, 3, [0, 0, 0, 0], 0, 0⟩ : SPSCRingBuffer Nat) := by
    have h4 : nextPow2 3 = 4 := by simp [nextPow2, nextPow2Go]
    unfold SPSCRingBuffer.create
    norm_num [h4]
    rfl
  exact C4_ring_fifo_roundtrip 3 ⟨4, 3, [0, 0, 0, 0], 0, 0⟩ hcr [10, 20, 30]
    (by norm_num)

/-- Claim C5: for a requested capacity `c ≥ 1` the constructed capacity is the
least power of two that is at least `c`; in every reachable state the ring
holds at most `capacity - 1` elements; `try_push` returns `false` exactly when
`((head + 1) & mask) == tail`; and after one successful pop from a full ring a
subsequent push succeeds again. -/
theorem C5_capacity_and_fullness (cap : Nat) (r0 : SPSCRingBuffer Nat)
    (hr0 : SPSCRingBuffer.create Nat cap = some r0)
    (r : SPSCRingBuffer Nat) (hreach : SPSCRingBuffer.Reach r)
    (v w x : Nat) (r' : SPSCRingBuffer Nat) :
    (∃ i, r0.capacity = 2 ^ i ∧ cap ≤ r0.capacity ∧
      ∀ m, cap ≤ 2 ^ m → r0.capacity ≤ 2 ^ m) ∧
    r.sizeBuf ≤ r.capacity - 1 ∧
    ((r.try_push v).1 = false ↔ ((r.head + 1) &&& r.mask) = r.tail) ∧
    (r.isFull = true → r.pop = some (x, r') → (r'.try_push w).1 = true) := by
  obtain ⟨⟨k, hk⟩, hm, hh, ht, hlen⟩ := SPSCRingBuffer.reach_wf r hreach
  refine ⟨?_, ?_, ?_, ?_⟩
  · -- capacity of the constructed ring
    unfold SPSCRingBuffer.create at hr0
    by_cases hz : cap = 0
    · rw [if_pos hz] at hr0
      exact absurd hr0 (by simp)
    · rw [if_neg hz] at hr0
      obtain ⟨i, hi, hge, hmin⟩ := nextPow2_spec cap
      injection hr0 with hr0
      have hcap0 : r0.capacity = nextPow2 cap := by rw [← hr0]
      exact ⟨i, by rw [hcap0, hi], by rw [hcap0]; omega,
        fun m hm2 => by rw [hcap0, hi]; exact hmin m hm2⟩
  · -- at most capacity - 1 elements
    unfold SPSCRingBuffer.sizeBuf
    by_cases hge : r.head ≥ r.tail
    · rw [if_pos hge]
      omega
    · rw [if_neg hge]
      omega
  · -- push fails exactly on the full predicate
    have hiff : (r.try_push v).1 = false ↔ r.isFull = true := by
      unfold SPSCRingBuffer.try_push SPSCRingBuffer.push
      by_cases hf : r.isFull <;> simp [hf]
    rw [hiff]
    unfold SPSCRingBuffer.isFull
    simp
  · -- pop from a full ring re-enables push
    intro hfull hpop
    have hcpos : 0 < r.capacity := by rw [hk]; exact Nat.two_pow_pos k
    unfold SPSCRingBuffer.pop at hpop
    by_cases he : r.isEmptyBuf
    · rw [if_pos he] at hpop
      exact absurd hpop (by simp)
    · rw [if_neg he] at hpop
      have hne : r.head ≠ r.tail := by
        unfold SPSCRingBuffer.isEmptyBuf at he
        simpa using he
      injection hpop with hpop
      injection hpop with _ hpop
      have ht' : r'.tail = (r.tail + 1) % 2 ^ k := by
        rw [← hpop, hm, hk, Nat.and_pow_two_sub_one_eq_mod]
      have hh' : r'.head = r.head := by rw [← hpop]
      have hm' : r'.mask = r.mask := by rw [← hpop]
      have hfeq : (r.head + 1) % 2 ^ k = r.tail := by
        unfold SPSCRingBuffer.isFull at hfull
        rw [hm, hk, Nat.and_pow_two_sub_one_eq_mod] at hfull
        simpa using hfull
      have hfull' : r'.isFull = false := by
        unfold SPSCRingBuffer.isFull
        rw [hh', hm', hm, hk, Nat.and_pow_two_sub_one_eq_mod, hfeq, ht']
        rw [hk] at hh ht hcpos
        by_cases hwrap : r.tail + 1 < 2 ^ k
        · rw [Nat.mod_eq_of_lt hwrap]
          simp only [beq_eq_false_iff_ne, ne_eq]
          omega
        · have htc : r.tail + 1 = 2 ^ k := by omega
          have hz : (r.tail + 1) % 2 ^ k = 0 := by rw [htc]; exact Nat.mod_self _
          rw [hz]
          simp only [beq_eq_false_iff_ne, ne_eq]
          intro hcon
          rw [hcon] at hfeq
          have hh0 : (r.head + 1) % 2 ^ k = 0 := hfeq
          have : r.tail = 2 ^ k - 1 := by omega
          have hhead1 : r.head + 1 = 2 ^ k := by
            rcases Nat.lt_or_ge (r.head + 1) (2 ^ k) with hlt | hge2
            · rw [Nat.mod_eq_of_lt hlt] at hh0
              omega
            · omega
          omega
      unfold SPSCRingBuffer.try_push SPSCRingBuffer.push
      rw [hfull']
      rfl

/-- Witness for C5: capacity request 2, the reachable full ring obtained by
one push, popped once and pushed again. -/
theorem C5_witness :
    (∃ i, (⟨2, 1, [0, 0], 0, 0⟩ : SPSCRingBuffer Nat).capacity = 2 ^ i ∧
      2 ≤ (⟨2, 1, [0, 0], 0, 0⟩ : SPSCRingBuffer Nat).capacity ∧
      ∀ m, 2 ≤ 2 ^ m →
        (⟨2, 1, [0, 0], 0, 0⟩ : SPSCRingBuffer Nat).capacity ≤ 2 ^ m) ∧
    (⟨2, 1, [5, 0], 1, 0⟩ : SPSCRingBuffer Nat).sizeBuf ≤
      (⟨2, 1, [5, 0], 1, 0⟩ : SPSCRingBuffer Nat).capacity - 1 ∧
    (((⟨2, 1, [5, 0], 1, 0⟩ : SPSCRingBuffer Nat).try_push 6).1 = false ↔
      (((⟨2, 1, [5, 0], 1, 0⟩ : SPSCRingBuffer Nat).head + 1) &&&
        (⟨2, 1, [5, 0], 1, 0⟩ : SPSCRingBuffer Nat).mask) =
        (⟨2, 1, [5, 0], 1, 0⟩ : SPSCRingBuffer Nat).tail) ∧
    ((⟨2, 1, [5, 0], 1, 0⟩ : SPSCRingBuffer Nat).isFull = true →
      (⟨2, 1, [5, 0], 1, 0⟩ : SPSCRingBuffer Nat).pop =
        some (5, (⟨2, 1, [5, 0], 1, 1⟩ : SPSCRingBuffer Nat)) →
      ((⟨2, 1, [5, 0], 1, 1⟩ : SPSCRingBuffer Nat).try_push 7).1 = true) := by
  have hcr : SPSCRingBuffer.create Nat 2 =
      some (⟨2, 1, [0, 0], 0, 0⟩ : SPSCRingBuffer Nat) := by
    have h2 : nextPow2 2 = 2 := by simp [nextPow2, nextPow2Go]
    unfold SPSCRingBuffer.create
    norm_num [h2]
    rfl
  have hrch : SPSCRingBuffer.Reach (⟨2, 1, [5, 0], 1, 0⟩ : SPSCRingBuffer Nat) := by
    have h0 := SPSCRingBuffer.Reach.created (T := Nat) 2 _ hcr
    have h1 := SPSCRingBuffer.Reach.pushed _ 5 h0
    exact h1
  exact C5_capacity_and_fullness 2 ⟨2, 1, [0, 0], 0, 0⟩ hcr
    ⟨2, 1, [5, 0], 1, 0⟩ hrch 6 7 5 ⟨2, 1, [5, 0], 1, 1⟩

/-- Witness for C9 on the initial consumer state. -/
theorem C9_witness :
    (consumeEvent ConsumerState.init { symbol := "" }).order_books =
      ConsumerState.init.order_books ∧
    (consumeEvent ConsumerState.init { symbol := "" }).published =
      ConsumerState.init.published ∧
    (consumeEvent ConsumerState.init { symbol := "" }).warnings =
      ConsumerState.init.warnings + 1 ∧
    (consumeEvent ConsumerState.init { symbol := "" }).total_events =
      ConsumerState.init.total_events + 1 :=
  C9_empty_symbol_discarded ConsumerState.init { symbol := "" } rfl

end MarketFeed
